import Mathlib

/-!
# The download queue of `App.jsx`

A shallow embedding of the batch-download queue of `src/App.jsx`
(`getDownloadInfo`, `getResolutionLabel`, `startBatchDownload`, `processQueue`,
`stopDownload`, `closeQueue`) and theorems about it.

`processQueue` is an `async` function.  It runs synchronously from one `await`
to the next; only while it is suspended in an `await` can the browser deliver
an event (a network answer, a timer, a click).  The embedding is a small-step
machine: `State.pc` is the point of `processQueue` that control has reached,
`step` runs one basic block of the source.  The blocks that start at an `await`
are triggered by the event that ends the wait; the blocks that start inside a
synchronous stretch are triggered by `Event.tau`, and no other event can occur
there.  Every effectful call of the source (`setDownloadQueue`, `fetch`,
`setTimeout`, `new AbortController()`, ...) is also written to `State.trace`,
newest first.
-/

namespace App

/-! ## Data model -/

/-- The five values of `status` of a queue item. -/
inductive Status
  | pending
  | fetching
  | saving
  | success
  | error
  deriving DecidableEq, Repr

/-- One element of `downloadQueue.items` (`startBatchDownload`, lines 242-249).
`link` and `ext` are `info?.link` and `info?.ext`: `none` stands for `undefined`. -/
structure Item where
  id : Nat
  link : Option String
  ext : Option String
  name : String
  status : Status
  errorMsg : String
  deriving DecidableEq, Repr

/-- The React state `downloadQueue` (line 20). -/
structure DownloadQueue where
  isOpen : Bool
  items : List Item
  processing : Bool
  deriving DecidableEq, Repr

/-- One element of `item.video_files` of a search result. -/
structure VideoFile where
  link : Option String
  width : Int
  height : Int
  deriving DecidableEq, Repr

/-- A search result: the fields that `getDownloadInfo` and `startBatchDownload` read.
`video_files = none` stands for a missing field, `srcOriginal` is `item.src.original`. -/
structure MediaItem where
  id : Nat
  video_files : Option (List VideoFile)
  srcOriginal : Option String
  width : Int
  height : Int
  deriving DecidableEq, Repr

/-- The object returned by `getDownloadInfo`. -/
structure DownloadInfo where
  link : Option String
  width : Int
  height : Int
  label : String
  ext : String
  deriving DecidableEq, Repr

/-- Every effectful call made by the queue code, as recorded in `State.trace`. -/
inductive Effect
  /-- Source: `setDownloadQueue(q)` with an object. -/
  | setQueue (q : DownloadQueue)
  /-- Source: `setDownloadQueue(prev => ({ ...prev, items: currentItems }))`. -/
  | setItems (items : List Item)
  /-- Source: `setDownloadQueue(prev => ({ ...prev, processing: false }))`. -/
  | setProcessing (b : Bool)
  /-- Source: `new AbortController()`, named by a fresh number. -/
  | newController (c : Nat)
  /-- Source: `abort()` on controller `c`. -/
  | abort (c : Nat)
  /-- Source: `setTimeout(..., ms)` of line 273 in the iteration of job `i`, returning `id`. -/
  | setTimeout (id : Nat) (i : Nat) (ms : Nat)
  /-- Source: `clearTimeout(id)`. -/
  | clearTimeout (id : Nat)
  /-- Source: `fetch(link, { signal })` in the iteration of job `i`. -/
  | fetch (i : Nat) (link : String) (signal : Nat)
  /-- The click on the generated `<a download=filename>` in the iteration of job `i`. -/
  | save (i : Nat) (filename : String)
  /-- Source: `await new Promise(r => setTimeout(r, ms))` in the iteration of job `i`. -/
  | delay (i : Nat) (ms : Nat)
  /-- Source: `console.error(err)` with the message of `err`. -/
  | consoleError (msg : String)
  /-- Source: `alert(msg)`. -/
  | alert (msg : String)
  deriving DecidableEq, Repr


/-- The point of `processQueue` that control has reached.  `item` is the
`const item` of line 268, `signal` the controller whose signal was handed to
`fetch`, `timeoutId` the result of `setTimeout` in line 273. -/
inductive Pc
  /-- Before `processQueue` is called. -/
  | idle
  /-- At the test `i < currentItems.length` of the `for` statement (line 260). -/
  | loopTop (i : Nat)
  /-- After line 266: job `i` has just been given the status `fetching`. -/
  | started (i : Nat)
  /-- Suspended in `await fetch(...)` of job `i` (line 275). -/
  | awaitFetch (i : Nat) (item : Item) (signal : Nat) (timeoutId : Nat)
  /-- Suspended in `await response.blob()` of job `i` (line 289). -/
  | awaitBlob (i : Nat) (item : Item) (signal : Nat)
  /-- The promise awaited in job `i` was rejected by `abort()`; the handler that
  aborted has returned and the `catch` block is the next thing to run. -/
  | rejected (i : Nat)
  /-- Suspended in the pacing delay after job `i` (line 308). -/
  | awaitDelay (i : Nat)
  /-- After `processQueue` has returned. -/
  | done
  deriving DecidableEq, Repr

/-- The state of the component that the queue code reads and writes. -/
structure State where
  /-- The React state `downloadQueue`. -/
  downloadQueue : DownloadQueue
  /-- The value of `abortControllerRef.current`; `none` is `null`. -/
  abortControllerRef : Option Nat
  /-- The controllers whose signal is aborted. -/
  abortedSignals : List Nat
  /-- The name of the next controller to be created. -/
  nextController : Nat
  /-- The ids of the pending 60 s timers of line 273. -/
  timers : List Nat
  /-- The id the next `setTimeout` returns. -/
  nextTimer : Nat
  /-- The point `processQueue` has reached. -/
  pc : Pc
  /-- The local variable `currentItems` of `processQueue`. -/
  currentItems : List Item
  /-- Every effect so far, newest first. -/
  trace : List Effect
  deriving DecidableEq, Repr

/-- What makes the code run on by one basic block. -/
inductive Event
  /-- The synchronous code runs on (no event of the browser). -/
  | tau
  /-- The `fetch` promise is fulfilled with a response of this HTTP status. -/
  | fetchResponse (status : Nat)
  /-- The `fetch` promise is rejected by a network error. -/
  | fetchFailed (msg : String)
  /-- The `response.blob()` promise is fulfilled. -/
  | blobReady
  /-- The `response.blob()` promise is rejected by a network error. -/
  | blobFailed (msg : String)
  /-- The 800 ms timer of line 308 fires. -/
  | delayElapsed
  /-- The 60 s timer `id` of line 273 fires. -/
  | timerFired (id : Nat)
  /-- A click on the stop button: `stopDownload()`. -/
  | stopDownload
  /-- A click on the close button: `closeQueue()`. -/
  | closeQueue
  deriving DecidableEq, Repr

/-! ## `getResolutionLabel` and `getDownloadInfo` (lines 51-92) -/

/-- Source: `getResolutionLabel` (lines 86-92). -/
def getResolutionLabel (width : Int) : String :=
  if width ≥ 3840 then "4K UHD"
  else if width ≥ 2560 then "2K QHD"
  else if width ≥ 1920 then "Full HD"
  else if width ≥ 1280 then "HD"
  else "SD"

/-- Source: `[...files].sort((a, b) => b.width - a.width)`: `Array.prototype.sort` is a
stable sort, here by decreasing width; insertion from the right is one. -/
def sortByWidthDesc (files : List VideoFile) : List VideoFile :=
  files.insertionSort (fun a b => b.width ≤ a.width)

/-- Source: `getDownloadInfo` (lines 51-72) under the component's `mediaType`. -/
def getDownloadInfo (mediaType : String) (item : MediaItem) : Option DownloadInfo :=
  if mediaType = "video" then
    match item.video_files with
    | none => none
    | some files =>
      match sortByWidthDesc files with
      | [] => none
      | best :: _ =>
        some { link := best.link, width := best.width, height := best.height,
               label := getResolutionLabel best.width, ext := "mp4" }
  else
    some { link := item.srcOriginal, width := item.width, height := item.height,
           label := getResolutionLabel item.width, ext := "jpg" }

/-! ## The statements of `processQueue` (lines 256-326) -/

/-- The object `{ ...it, status: st }`. -/
def Item.withStatus (st : Status) (it : Item) : Item :=
  { it with status := st }

/-- The object `{ ...it, status: 'error', errorMsg: msg }`. -/
def Item.withError (msg : String) (it : Item) : Item :=
  { it with status := Status.error, errorMsg := msg }

/-- Source: `items.map((it, idx) => idx === i ? f(it) : it)`, counting indices from `k`. -/
def mapAt (f : Item → Item) (i : Nat) : Nat → List Item → List Item
  | _, [] => []
  | k, it :: rest => (if k = i then f it else it) :: mapAt f i (k + 1) rest

/-- The pair of statements
`currentItems = currentItems.map((it, idx) => idx === i ? f(it) : it);`
`setDownloadQueue(prev => ({ ...prev, items: currentItems }));`. -/
def setItem (i : Nat) (f : Item → Item) (s : State) : State :=
  { s with
    currentItems := mapAt f i 0 s.currentItems
    downloadQueue := { s.downloadQueue with items := mapAt f i 0 s.currentItems }
    trace := Effect.setItems (mapAt f i 0 s.currentItems) :: s.trace }

/-- Source: `abortControllerRef.current.signal.aborted`.  (Inside `processQueue` the ref
holds a controller, line 257.) -/
def signalAborted (s : State) : Bool :=
  match s.abortControllerRef with
  | some c => s.abortedSignals.contains c
  | none => false

/-- Source: `abortControllerRef.current = new AbortController()`. -/
def newAbortController (s : State) : State :=
  { s with
    abortControllerRef := some s.nextController
    nextController := s.nextController + 1
    trace := Effect.newController s.nextController :: s.trace }

/-- The message shown for a job that ended while the signal was aborted. -/
def msgAborted : String := "超时或被取消"

/-- The message shown for a job that failed otherwise. -/
def msgFailed : String := "失败"

/-- The `catch (err)` block of job `i` (lines 310-322), which ends the iteration:
control is next at the loop test for `i + 1`. -/
def catchBlock (err : String) (i : Nat) (s : State) : State :=
  let s1 := { s with trace := Effect.consoleError err :: s.trace }
  let s2 := setItem i
    (Item.withError (if signalAborted s then msgAborted else msgFailed)) s1
  let s3 := if signalAborted s then newAbortController s2 else s2
  { s3 with pc := Pc.loopTop (i + 1) }

/-- The statement after the loop (line 325) and the return. -/
def exitLoop (s : State) : State :=
  { s with
    downloadQueue := { s.downloadQueue with processing := false }
    pc := Pc.done
    trace := Effect.setProcessing false :: s.trace }

/-- The loop test and lines 261-266 of iteration `i`. -/
def loopHead (i : Nat) (s : State) : State :=
  if i < s.currentItems.length then
    if signalAborted s then exitLoop s
    else { setItem i (Item.withStatus Status.fetching) s with pc := Pc.started i }
  else exitLoop s

/-- Lines 268-278 of iteration `i`: the link test, the timer and the call of `fetch`.
A link that is `undefined`, `null` or empty is falsy.  (The last case, reading a
field of an `undefined` item or of a `null` ref, throws inside the `try`; it
does not arise inside the loop, where `i` is below the length and line 257 has
installed a controller.) -/
def tryFetch (i : Nat) (s : State) : State :=
  match s.currentItems[i]?, s.abortControllerRef with
  | some item, some c =>
    match item.link with
    | none => catchBlock "无效链接" i s
    | some link =>
      if link = "" then catchBlock "无效链接" i s
      else
        { s with
          timers := s.nextTimer :: s.timers
          nextTimer := s.nextTimer + 1
          pc := Pc.awaitFetch i item c s.nextTimer
          trace := Effect.fetch i link c
            :: Effect.setTimeout s.nextTimer i 60000 :: s.trace }
  | _, _ => catchBlock "TypeError" i s

/-- Source: `processQueue(initialItems)` up to the loop (lines 256-258). -/
def processQueue (initialItems : List Item) (s : State) : State :=
  { newAbortController s with currentItems := initialItems, pc := Pc.loopTop 0 }

/-! ## `startBatchDownload`, `stopDownload`, `closeQueue` -/

/-- The object built for one selected result (lines 240-250). -/
def queueItem (mediaType : String) (item : MediaItem) : Item :=
  { id := item.id
    link := (getDownloadInfo mediaType item).bind (fun d => d.link)
    ext := (getDownloadInfo mediaType item).map (fun d => d.ext)
    name := "pexels_" ++ mediaType ++ "_" ++ toString item.id
    status := Status.pending
    errorMsg := "" }

/-- Source: `results.filter(item => selectedIds.has(item.id))`. -/
def selectedItems (results : List MediaItem) (selectedIds : List Nat) : List MediaItem :=
  results.filter (fun item => selectedIds.contains item.id)

/-- The `queueItems` of `startBatchDownload`. -/
def queueItems (mediaType : String) (results : List MediaItem) (selectedIds : List Nat) :
    List Item :=
  (selectedItems results selectedIds).map (queueItem mediaType)

/-- Lines 252-253: the queue panel is opened on the new items and `processQueue`
is called on them. -/
def openQueue (items : List Item) (s : State) : State :=
  processQueue items
    { s with
      downloadQueue := { isOpen := true, items := items, processing := true }
      trace := Effect.setQueue { isOpen := true, items := items, processing := true }
        :: s.trace }

/-- Source: `startBatchDownload` (lines 236-254), up to the loop of `processQueue`. -/
def startBatchDownload (mediaType : String) (results : List MediaItem)
    (selectedIds : List Nat) (s : State) : State :=
  if (selectedItems results selectedIds).length = 0 then
    { s with trace := Effect.alert "请先勾选需要下载的项目" :: s.trace }
  else
    openQueue (queueItems mediaType results selectedIds) s

/-- Source: `abortControllerRef.current.abort()`, when the ref holds a controller. -/
def abortCurrent (s : State) : State :=
  match s.abortControllerRef with
  | none => s
  | some c =>
    { s with
      abortedSignals := if s.abortedSignals.contains c then s.abortedSignals
                        else c :: s.abortedSignals
      trace := Effect.abort c :: s.trace }

/-- The body of `stopDownload` (lines 328-333). -/
def stopDownloadBody (s : State) : State :=
  { abortCurrent s with
    downloadQueue := { (abortCurrent s).downloadQueue with processing := false }
    trace := Effect.setProcessing false :: (abortCurrent s).trace }

/-- The body of `closeQueue` (lines 335-338). -/
def closeQueueBody (s : State) : State :=
  { stopDownloadBody s with
    downloadQueue := { isOpen := false, items := [], processing := false }
    trace := Effect.setQueue { isOpen := false, items := [], processing := false }
      :: (stopDownloadBody s).trace }

/-- After a handler that may have called `abort()` has returned: when the signal
bound to the pending `fetch` or `blob()` is now aborted, the awaited promise is
rejected and the `catch` block of that job runs next.  (The timer of line 273
is not cleared on this path: `clearTimeout` is only reached when `fetch` returns.) -/
def rejectIfAborted (s : State) : State :=
  match s.pc with
  | Pc.awaitFetch i _ c _ =>
    if s.abortedSignals.contains c then { s with pc := Pc.rejected i } else s
  | Pc.awaitBlob i _ c =>
    if s.abortedSignals.contains c then { s with pc := Pc.rejected i } else s
  | _ => s

/-- Source: the template literal of line 294; an `undefined` extension prints as such. -/
def fileName (item : Item) : String :=
  item.name ++ "." ++ item.ext.getD "undefined"

/-- The points at which the browser can deliver an event: `processQueue` is
suspended in an `await`, has returned, or was never called. -/
def Pc.suspended : Pc → Bool
  | Pc.idle => true
  | Pc.awaitFetch _ _ _ _ => true
  | Pc.awaitBlob _ _ _ => true
  | Pc.awaitDelay _ => true
  | Pc.done => true
  | _ => false

/-! ## One step -/

/-- The state after event `e` in state `s`; `none` when `e` cannot occur in `s`. -/
def step (s : State) : Event → Option State
  | Event.tau =>
    match s.pc with
    | Pc.loopTop i => some (loopHead i s)
    | Pc.started i => some (tryFetch i s)
    | Pc.rejected i => some (catchBlock "AbortError" i s)
    | _ => none
  | Event.fetchResponse status =>
    match s.pc with
    | Pc.awaitFetch i item c t =>
      if s.abortedSignals.contains c then none
      else if 200 ≤ status ∧ status ≤ 299 then
        some { setItem i (Item.withStatus Status.saving)
                 { s with timers := s.timers.erase t,
                          trace := Effect.clearTimeout t :: s.trace } with
               pc := Pc.awaitBlob i item c }
      else
        some (catchBlock ("HTTP Error: " ++ toString status) i
          { s with timers := s.timers.erase t, trace := Effect.clearTimeout t :: s.trace })
    | _ => none
  | Event.fetchFailed msg =>
    match s.pc with
    | Pc.awaitFetch i _ c _ =>
      if s.abortedSignals.contains c then none else some (catchBlock msg i s)
    | _ => none
  | Event.blobReady =>
    match s.pc with
    | Pc.awaitBlob i item c =>
      if s.abortedSignals.contains c then none
      else
        some { setItem i (Item.withStatus Status.success)
                 { s with trace := Effect.save i (fileName item) :: s.trace } with
               pc := Pc.awaitDelay i
               trace := Effect.delay i 800
                 :: (setItem i (Item.withStatus Status.success)
                      { s with trace := Effect.save i (fileName item) :: s.trace }).trace }
    | _ => none
  | Event.blobFailed msg =>
    match s.pc with
    | Pc.awaitBlob i _ c =>
      if s.abortedSignals.contains c then none else some (catchBlock msg i s)
    | _ => none
  | Event.delayElapsed =>
    match s.pc with
    | Pc.awaitDelay i => some { s with pc := Pc.loopTop (i + 1) }
    | _ => none
  | Event.timerFired id =>
    if s.pc.suspended ∧ s.timers.contains id then
      some (rejectIfAborted (abortCurrent { s with timers := s.timers.erase id }))
    else none
  | Event.stopDownload =>
    if s.pc.suspended then some (rejectIfAborted (stopDownloadBody s)) else none
  | Event.closeQueue =>
    if s.pc.suspended then some (rejectIfAborted (closeQueueBody s)) else none

/-- The state after a sequence of events, `none` when one of them cannot occur. -/
def exec (s : State) : List Event → Option State
  | [] => some s
  | e :: es => (step s e).bind (fun s1 => exec s1 es)

/-- The component as mounted: `useState({ isOpen: false, items: [], processing: false })`
and `useRef(null)`. -/
def init : State :=
  { downloadQueue := { isOpen := false, items := [], processing := false }
    abortControllerRef := none
    abortedSignals := []
    nextController := 0
    timers := []
    nextTimer := 0
    pc := Pc.idle
    currentItems := []
    trace := [] }

/-- The run that a click on the batch-download button starts in the mounted
component, followed by the events `es`. -/
def run (mediaType : String) (results : List MediaItem) (selectedIds : List Nat)
    (es : List Event) : Option State :=
  exec (startBatchDownload mediaType results selectedIds init) es

/-- The header of the queue panel (line 634):
`items.filter(i => i.status === 'success').length` over `items.length`. -/
def aggregate (q : DownloadQueue) : Nat × Nat :=
  ((q.items.filter (fun it => it.status = Status.success)).length, q.items.length)

/-! ## Sample search results -/

/-- A video result with a single file of width 1920 at `link`. -/
def sampleVideo (id : Nat) (link : String) : MediaItem :=
  { id := id
    video_files := some [{ link := some link, width := 1920, height := 1080 }]
    srcOriginal := none
    width := 1920
    height := 1080 }

/-- A video result without files: `getDownloadInfo` returns `null` for it, so
that its queue item has no link. -/
def sampleNoFile (id : Nat) : MediaItem :=
  { id := id, video_files := some [], srcOriginal := none, width := 0, height := 0 }

/-! ## Vocabulary of the properties -/

/-- A job is over: `success` or `error`. -/
def Status.terminal : Status → Bool
  | Status.success => true
  | Status.error => true
  | _ => false

/-- A job is being worked on: `fetching` or `saving`. -/
def Status.active : Status → Bool
  | Status.fetching => true
  | Status.saving => true
  | _ => false

/-- The five status changes of section 4.1 of the specification. -/
def allowed : Status → Status → Bool
  | Status.pending, Status.fetching => true
  | Status.fetching, Status.saving => true
  | Status.saving, Status.success => true
  | Status.fetching, Status.error => true
  | Status.saving, Status.error => true
  | _, _ => false

/-- The part of a queue item that comes from the seed: id, link, extension, name. -/
def seed (it : Item) : Nat × Option String × Option String × String :=
  (it.id, it.link, it.ext, it.name)

/-- The values `processQueue` gave to `currentItems` by its `map` statements, newest first. -/
def itemsHistory : List Effect → List (List Item)
  | [] => []
  | Effect.setItems items :: rest => items :: itemsHistory rest
  | _ :: rest => itemsHistory rest

/-- Every value `downloadQueue.items` was given by a `setDownloadQueue` call, newest first. -/
def snapshots : List Effect → List (List Item)
  | [] => []
  | Effect.setItems items :: rest => items :: snapshots rest
  | Effect.setQueue q :: rest => q.items :: snapshots rest
  | _ :: rest => snapshots rest

/-- The job the loop is at (for `Pc.loopTop` the job it is about to test for). -/
def Pc.index : Pc → Option Nat
  | Pc.loopTop i => some i
  | Pc.started i => some i
  | Pc.awaitFetch i _ _ _ => some i
  | Pc.awaitBlob i _ _ => some i
  | Pc.rejected i => some i
  | Pc.awaitDelay i => some i
  | _ => none

/-- Jobs before `i` are over, job `i` has status `st`, jobs after `i` are pending. -/
def Shape (i : Nat) (st : Status) (items : List Item) : Prop :=
  ∀ (j : Nat) (it : Item), items[j]? = some it →
    (j < i → it.status.terminal = true) ∧ (j = i → it.status = st) ∧
    (i < j → it.status = Status.pending)

/-- From `older` to `newer` every job keeps its status or makes an allowed change. -/
def StepOK (newer older : List Item) : Prop :=
  newer.length = older.length ∧
  ∀ (j : Nat) (a b : Item), older[j]? = some a → newer[j]? = some b →
    b.status = a.status ∨ allowed a.status b.status = true

/-- A job that is over in `older` has the same status in `newer`. -/
def Frozen (newer older : List Item) : Prop :=
  newer.length = older.length ∧
  ∀ (j : Nat) (a b : Item), older[j]? = some a → newer[j]? = some b →
    a.status.terminal = true → b.status = a.status

/-- The link of a job is usable: not `undefined`, `null` or empty (the negation
of the test `!item.link` of line 271). -/
def Item.hasLink (it : Item) : Bool :=
  match it.link with
  | some link => link != ""
  | none => false

/-- At most one job of `items` is being worked on. -/
def AtMostOneActive (items : List Item) : Prop :=
  (items.filter (fun it => it.status.active)).length ≤ 1

/-- What holds of the data whatever point `processQueue` has reached. -/
structure Base (items0 : List Item) (s : State) : Prop where
  seeds : s.currentItems.map seed = items0.map seed
  queue : s.downloadQueue.items = [] ∨ s.downloadQueue.items = s.currentItems
  abortedFresh : ∀ c ∈ s.abortedSignals, c < s.nextController
  refFresh : ∀ c, s.abortControllerRef = some c → c < s.nextController
  timersFresh : ∀ t ∈ s.timers, t < s.nextTimer
  timersNodup : s.timers.Nodup
  missing : ∀ (j : Nat) (it : Item), s.currentItems[j]? = some it → it.hasLink = false →
    it.status = Status.pending ∨ it.status = Status.fetching ∨
      (it.status = Status.error ∧ it.errorMsg = msgFailed)
  fetched : ∀ (j : Nat) (l : String) (c : Nat), Effect.fetch j l c ∈ s.trace →
    ∃ it, s.currentItems[j]? = some it ∧ it.hasLink = true
  timed : ∀ (t j ms : Nat), Effect.setTimeout t j ms ∈ s.trace →
    ∃ it, s.currentItems[j]? = some it ∧ it.hasLink = true
  delayed : ∀ (j : Nat) (it : Item), s.currentItems[j]? = some it →
    it.status = Status.success → Effect.delay j 800 ∈ s.trace
  delays : ∀ (j ms : Nat), Effect.delay j ms ∈ s.trace →
    ms = 800 ∧ ∃ it, s.currentItems[j]? = some it ∧ it.status = Status.success

/-- What holds of the data at each point of `processQueue`. -/
def PcOK (s : State) : Prop :=
  match s.pc with
  | Pc.idle => s.currentItems = []
  | Pc.loopTop i =>
    i ≤ s.currentItems.length ∧ Shape i Status.pending s.currentItems ∧
    ∃ c, s.abortControllerRef = some c
  | Pc.started i =>
    i < s.currentItems.length ∧ Shape i Status.fetching s.currentItems ∧
    ∃ c, s.abortControllerRef = some c ∧ c ∉ s.abortedSignals
  | Pc.awaitFetch i item c t =>
    i < s.currentItems.length ∧ Shape i Status.fetching s.currentItems ∧
    s.abortControllerRef = some c ∧ c ∉ s.abortedSignals ∧
    s.currentItems[i]? = some item ∧ item.hasLink = true ∧ t ∈ s.timers
  | Pc.awaitBlob i item c =>
    i < s.currentItems.length ∧ Shape i Status.saving s.currentItems ∧
    s.abortControllerRef = some c ∧ c ∉ s.abortedSignals ∧
    ∃ it, s.currentItems[i]? = some it ∧ seed it = seed item ∧ it.hasLink = true
  | Pc.rejected i =>
    i < s.currentItems.length ∧
    (Shape i Status.fetching s.currentItems ∨ Shape i Status.saving s.currentItems) ∧
    signalAborted s = true ∧
    ∃ it, s.currentItems[i]? = some it ∧ it.hasLink = true
  | Pc.awaitDelay i =>
    i < s.currentItems.length ∧ Shape i Status.success s.currentItems ∧
    ∃ c, s.abortControllerRef = some c
  | Pc.done =>
    (∃ k, k ≤ s.currentItems.length ∧ Shape k Status.pending s.currentItems) ∧
    s.downloadQueue.processing = false

/-- The invariant of a run on the seed items `items0`. -/
def Inv (items0 : List Item) (s : State) : Prop :=
  Base items0 s ∧ PcOK s

/-! ## Runs without failure (C4) -/

/-- The events of a run in which nobody stops, no timer fires and every `fetch`
and every body read succeeds. -/
def Event.happy : Event → Bool
  | Event.tau => true
  | Event.fetchResponse status => decide (200 ≤ status ∧ status ≤ 299)
  | Event.blobReady => true
  | Event.delayElapsed => true
  | _ => false

/-- The events of the run without failure over jobs whose links are usable
(`true`) or missing (`false`): for a job with a link the two blocks up to
`fetch`, the response, the body, the end of the pacing delay; for a job without
link the two blocks up to the `catch`; at the end the loop test that fails. -/
def happyEvents : List Bool → List Event
  | [] => [Event.tau]
  | true :: rest =>
    Event.tau :: Event.tau :: Event.fetchResponse 200 :: Event.blobReady
      :: Event.delayElapsed :: happyEvents rest
  | false :: rest => Event.tau :: Event.tau :: happyEvents rest

/-- The outcome claimed for a run without failure over the seed `items`:
`processing` is `false`, the panel shows the jobs of the seed in order, a job
with a link as `success` and a job without link as `error`, and the header
counts the jobs with a link over all jobs. -/
def FinishedOK (items : List Item) (s : State) : Prop :=
  s.downloadQueue.processing = false ∧
  s.downloadQueue.items.map seed = items.map seed ∧
  (∀ (j : Nat) (it : Item), s.downloadQueue.items[j]? = some it →
    it.status = if it.hasLink then Status.success else Status.error) ∧
  aggregate s.downloadQueue = ((items.filter Item.hasLink).length, items.length)

/-- What holds in addition as long as only events without failure occur. -/
structure HappyInv (s : State) : Prop where
  clear : signalAborted s = false
  notRejected : ∀ i, s.pc ≠ Pc.rejected i
  shown : s.downloadQueue.items = s.currentItems
  linked : ∀ (j : Nat) (it : Item), s.currentItems[j]? = some it → it.hasLink = true →
    it.status ≠ Status.error
  finished : s.pc = Pc.done → ∀ (j : Nat) (it : Item), s.currentItems[j]? = some it →
    it.status.terminal = true

/-- The seed of the example of the specification: job 1 with a link, job 2 without. -/
def sampleSeed : List Item :=
  [{ id := 1, link := some "https://x/a.mp4", ext := some "mp4", name := "pexels_video_1",
     status := Status.pending, errorMsg := "" },
   { id := 2, link := none, ext := none, name := "pexels_video_2",
     status := Status.pending, errorMsg := "" }]

/-- The effect is a pacing delay. -/
def Effect.isDelay : Effect → Bool
  | Effect.delay _ _ => true
  | _ => false

/-- Event `e` in state `s` is an ordinary failure of job `i`: the link test of
line 271 fails, or `fetch` answers with a non-success HTTP status, or `fetch`
or the body read is rejected by a network error. -/
def ordinaryFailure (s : State) (i : Nat) : Event → Prop
  | Event.tau => s.pc = Pc.started i ∧ ∃ it, s.currentItems[i]? = some it ∧ it.hasLink = false
  | Event.fetchResponse status =>
    (∃ item c t, s.pc = Pc.awaitFetch i item c t) ∧ ¬ (200 ≤ status ∧ status ≤ 299)
  | Event.fetchFailed _ => ∃ item c t, s.pc = Pc.awaitFetch i item c t
  | Event.blobFailed _ => ∃ item c, s.pc = Pc.awaitBlob i item c
  | _ => False

/-! ## Saves (C11) -/

/-- The saves handed to the download sink, oldest first: the index of the job
and the file name. -/
def savesOf : List Effect → List (Nat × String)
  | [] => []
  | Effect.save i name :: rest => savesOf rest ++ [(i, name)]
  | _ :: rest => savesOf rest

/-- The jobs of `items` with status `success`, in queue order, each with its
index (counted from `k`) and its file name. -/
def successFrom : Nat → List Item → List (Nat × String)
  | _, [] => []
  | k, it :: rest =>
    if it.status = Status.success then (k, fileName it) :: successFrom (k + 1) rest
    else successFrom (k + 1) rest

/-- From `s` to `s1` no save and no pacing delay was added to the trace. -/
def Quiet (s1 s : State) : Prop :=
  savesOf s1.trace = savesOf s.trace ∧
  ∀ (j ms : Nat), Effect.delay j ms ∈ s1.trace ↔ Effect.delay j ms ∈ s.trace

/-! ## Text of error messages (C13) -/

/-- The characters `sub` stand at the start of the first list. -/
def startsWithChars : List Char → List Char → Bool
  | _, [] => true
  | [], _ :: _ => false
  | a :: as, b :: bs => a == b && startsWithChars as bs

/-- The characters `sub` occur somewhere in the first list, in one piece. -/
def includesChars : List Char → List Char → Bool
  | [], sub => sub.isEmpty
  | a :: as, sub => startsWithChars (a :: as) sub || includesChars as sub

/-- The text `s` includes the text `sub` (as `s.includes(sub)` would tell). -/
def includes (s sub : String) : Bool :=
  includesChars s.data sub.data

/-! ## An example for `getDownloadInfo` (C16) -/

/-- The files of `sampleFourFiles`: widths 1280, 1920, 640, 1920. -/
def fourFiles : List VideoFile :=
  [{ link := some "a", width := 1280, height := 720 },
   { link := some "b", width := 1920, height := 1080 },
   { link := some "c", width := 640, height := 360 },
   { link := some "d", width := 1920, height := 1081 }]

/-- A video result with four files, two of them of the greatest width. -/
def sampleFourFiles : MediaItem :=
  { id := 5, video_files := some fourFiles, srcOriginal := none, width := 1920, height := 1080 }

/-! ## Lemmas on `mapAt` and `setItem` -/

theorem mapAt_length (f : Item → Item) (i : Nat) :
    ∀ (items : List Item) (k : Nat), (mapAt f i k items).length = items.length := by
  intro items
  induction items with
  | nil => intro k; rfl
  | cons it rest ih => intro k; simp [mapAt, ih]

theorem mapAt_getElem? (f : Item → Item) (i : Nat) :
    ∀ (items : List Item) (k j : Nat),
      (mapAt f i k items)[j]? = (items[j]?).map (fun it => if k + j = i then f it else it) := by
  intro items
  induction items with
  | nil => intro k j; simp [mapAt]
  | cons it rest ih =>
    intro k j
    cases j with
    | zero => simp [mapAt]
    | succ j =>
      simp only [mapAt, List.getElem?_cons_succ, ih]
      have : k + 1 + j = k + (j + 1) := by omega
      rw [this]

theorem mapAt_seed (f : Item → Item) (hf : ∀ it, seed (f it) = seed it) (i : Nat) :
    ∀ (items : List Item) (k : Nat), (mapAt f i k items).map seed = items.map seed := by
  intro items
  induction items with
  | nil => intro k; rfl
  | cons it rest ih =>
    intro k
    by_cases h : k = i <;> simp [mapAt, h, ih, hf]

/-- Reading job `j` after the `map` statement on job `i`. -/
theorem getElem?_mapAt_zero (f : Item → Item) (i j : Nat) (items : List Item) (b : Item)
    (h : (mapAt f i 0 items)[j]? = some b) :
    ∃ a, items[j]? = some a ∧ b = if j = i then f a else a := by
  rw [mapAt_getElem?] at h
  cases ha : items[j]? with
  | none => rw [ha] at h; simp at h
  | some a =>
    rw [ha] at h
    simp only [Option.map_some', Nat.zero_add, Option.some.injEq] at h
    exact ⟨a, rfl, h.symm⟩

theorem getElem?_mapAt_self (f : Item → Item) (i : Nat) (items : List Item) (a : Item)
    (h : items[i]? = some a) : (mapAt f i 0 items)[i]? = some (f a) := by
  rw [mapAt_getElem?, h]; simp

theorem getElem?_mapAt_ne (f : Item → Item) (i j : Nat) (items : List Item) (hne : j ≠ i) :
    (mapAt f i 0 items)[j]? = items[j]? := by
  rw [mapAt_getElem?]
  cases items[j]? with
  | none => rfl
  | some a => simp [hne]

/-! ## Lemmas on `Shape` -/

theorem Shape.set {i : Nat} {st : Status} {items : List Item} (h : Shape i st items)
    (f : Item → Item) (st1 : Status) (hf : ∀ it, (f it).status = st1) :
    Shape i st1 (mapAt f i 0 items) := by
  intro j b hb
  obtain ⟨a, ha, rfl⟩ := getElem?_mapAt_zero f i j items b hb
  have := h j a ha
  by_cases hji : j = i
  · subst hji
    simp [hf]
  · rw [if_neg hji]
    exact ⟨this.1, fun h => absurd h hji, this.2.2⟩

theorem Shape.next {i : Nat} {st : Status} {items : List Item} (h : Shape i st items)
    (hst : st.terminal = true) : Shape (i + 1) Status.pending items := by
  intro j a ha
  have := h j a ha
  refine ⟨fun hlt => ?_, fun he => ?_, fun hgt => ?_⟩
  · by_cases hji : j = i
    · rw [this.2.1 hji]; exact hst
    · exact this.1 (by omega)
  · exact this.2.2 (by omega)
  · exact this.2.2 (by omega)

theorem Shape.atIndex {i : Nat} {st : Status} {items : List Item} (h : Shape i st items)
    {a : Item} (ha : items[i]? = some a) : a.status = st :=
  (h i a ha).2.1 rfl

/-! ## The data invariant under the statements of the queue code -/

theorem hasLink_of_seed {a b : Item} (h : seed a = seed b) : a.hasLink = b.hasLink := by
  have hl : a.link = b.link := by
    have := congrArg (fun p => p.2.1) h
    simpa [seed] using this
  simp [Item.hasLink, hl]

/-- The data invariant does not read `pc`, `isOpen` or `processing`. -/
theorem base_transport {items0 : List Item} {s s1 : State} (h : Base items0 s)
    (hc : s1.currentItems = s.currentItems)
    (hq : s1.downloadQueue.items = s.downloadQueue.items)
    (ha : s1.abortedSignals = s.abortedSignals)
    (hn : s1.nextController = s.nextController)
    (hr : s1.abortControllerRef = s.abortControllerRef)
    (ht : s1.timers = s.timers) (hnt : s1.nextTimer = s.nextTimer)
    (htr : s1.trace = s.trace) : Base items0 s1 where
  seeds := by rw [hc]; exact h.seeds
  queue := by rw [hq, hc]; exact h.queue
  abortedFresh := by rw [ha, hn]; exact h.abortedFresh
  refFresh := by rw [hr, hn]; exact h.refFresh
  timersFresh := by rw [ht, hnt]; exact h.timersFresh
  timersNodup := by rw [ht]; exact h.timersNodup
  missing := by rw [hc]; exact h.missing
  fetched := by rw [htr, hc]; exact h.fetched
  timed := by rw [htr, hc]; exact h.timed
  delayed := by rw [htr, hc]; exact h.delayed
  delays := by rw [htr, hc]; exact h.delays

/-- An effect that is no `fetch`, `setTimeout` or pacing delay is added to the trace. -/
theorem base_push {items0 : List Item} {s : State} (h : Base items0 s) (e : Effect)
    (hf : ∀ j l c, e ≠ Effect.fetch j l c) (ht : ∀ t j ms, e ≠ Effect.setTimeout t j ms)
    (hd : ∀ j ms, e ≠ Effect.delay j ms) :
    Base items0 { s with trace := e :: s.trace } where
  seeds := h.seeds
  queue := h.queue
  abortedFresh := h.abortedFresh
  refFresh := h.refFresh
  timersFresh := h.timersFresh
  timersNodup := h.timersNodup
  missing := h.missing
  fetched := fun j l c hm => by
    rcases List.mem_cons.1 hm with he | hm
    · exact absurd he.symm (hf j l c)
    · exact h.fetched j l c hm
  timed := fun t j ms hm => by
    rcases List.mem_cons.1 hm with he | hm
    · exact absurd he.symm (ht t j ms)
    · exact h.timed t j ms hm
  delayed := fun j it hj hs => List.mem_cons_of_mem _ (h.delayed j it hj hs)
  delays := fun j ms hm => by
    rcases List.mem_cons.1 hm with he | hm
    · exact absurd he.symm (hd j ms)
    · exact h.delays j ms hm

/-- The `map` statement on job `i` with a new status other than `success`. -/
theorem base_setItem {items0 : List Item} {s : State} (h : Base items0 s) (i : Nat)
    (f : Item → Item) (hseed : ∀ it, seed (f it) = seed it)
    (hst : ∀ a, s.currentItems[i]? = some a →
      a.status ≠ Status.success ∧ (f a).status ≠ Status.success ∧
      (a.hasLink = false → (f a).status = Status.fetching ∨
        ((f a).status = Status.error ∧ (f a).errorMsg = msgFailed))) :
    Base items0 (setItem i f s) where
  seeds := by
    show (mapAt f i 0 s.currentItems).map seed = _
    rw [mapAt_seed f hseed]; exact h.seeds
  queue := Or.inr rfl
  abortedFresh := h.abortedFresh
  refFresh := h.refFresh
  timersFresh := h.timersFresh
  timersNodup := h.timersNodup
  missing := fun j b hb hl => by
    obtain ⟨a, ha, rfl⟩ := getElem?_mapAt_zero f i j s.currentItems b hb
    by_cases hji : j = i
    · subst hji
      rw [if_pos rfl] at hl ⊢
      rw [hasLink_of_seed (hseed a)] at hl
      rcases (hst a ha).2.2 hl with h1 | h1
      · exact Or.inr (Or.inl h1)
      · exact Or.inr (Or.inr h1)
    · rw [if_neg hji] at hl ⊢
      exact h.missing j a ha hl
  fetched := fun j l c hm => by
    rcases List.mem_cons.1 hm with he | hm
    · cases he
    · obtain ⟨a, ha, hl⟩ := h.fetched j l c hm
      by_cases hji : j = i
      · subst hji
        exact ⟨f a, getElem?_mapAt_self f j _ a ha, by rw [hasLink_of_seed (hseed a)]; exact hl⟩
      · exact ⟨a, by rw [← ha]; exact getElem?_mapAt_ne f i j _ hji, hl⟩
  timed := fun t j ms hm => by
    rcases List.mem_cons.1 hm with he | hm
    · cases he
    · obtain ⟨a, ha, hl⟩ := h.timed t j ms hm
      by_cases hji : j = i
      · subst hji
        exact ⟨f a, getElem?_mapAt_self f j _ a ha, by rw [hasLink_of_seed (hseed a)]; exact hl⟩
      · exact ⟨a, by rw [← ha]; exact getElem?_mapAt_ne f i j _ hji, hl⟩
  delayed := fun j b hb hs => by
    obtain ⟨a, ha, rfl⟩ := getElem?_mapAt_zero f i j s.currentItems b hb
    by_cases hji : j = i
    · subst hji
      rw [if_pos rfl] at hs
      exact absurd hs (hst a ha).2.1
    · rw [if_neg hji] at hs
      exact List.mem_cons_of_mem _ (h.delayed j a ha hs)
  delays := fun j ms hm => by
    rcases List.mem_cons.1 hm with he | hm
    · cases he
    · obtain ⟨h800, a, ha, hs⟩ := h.delays j ms hm
      refine ⟨h800, ?_⟩
      by_cases hji : j = i
      · subst hji
        exact absurd hs (hst a ha).1
      · exact ⟨a, by rw [← ha]; exact getElem?_mapAt_ne f i j _ hji, hs⟩

/-- A new status keeps the seed part of an item. -/
theorem seed_withStatus (st : Status) (it : Item) : seed (it.withStatus st) = seed it := rfl

theorem seed_withError (m : String) (it : Item) : seed (it.withError m) = seed it := rfl

theorem seed_success (it : Item) : seed (it.withStatus Status.success) = seed it := rfl

/-- Lines 290-308: the save, the status `success` and the pacing delay of job `i`. -/
theorem base_succeed {items0 : List Item} {s : State} (h : Base items0 s) (i : Nat)
    (name : String) (a : Item) (ha : s.currentItems[i]? = some a)
    (hl : a.hasLink = true) (hns : a.status ≠ Status.success) :
    Base items0
      { setItem i (Item.withStatus Status.success)
          { s with trace := Effect.save i name :: s.trace } with
        trace := Effect.delay i 800
          :: (setItem i (Item.withStatus Status.success)
                { s with trace := Effect.save i name :: s.trace }).trace } where
  seeds := by
    show (mapAt (Item.withStatus Status.success) i 0 s.currentItems).map seed = _
    rw [mapAt_seed _ seed_success]; exact h.seeds
  queue := Or.inr rfl
  abortedFresh := h.abortedFresh
  refFresh := h.refFresh
  timersFresh := h.timersFresh
  timersNodup := h.timersNodup
  missing := fun j b hb hlb => by
    obtain ⟨a1, ha1, hb1⟩ := getElem?_mapAt_zero
      (Item.withStatus Status.success) i j s.currentItems b hb
    by_cases hji : j = i
    · subst hji
      rw [ha] at ha1; cases ha1
      rw [if_pos rfl] at hb1
      rw [hb1, hasLink_of_seed (seed_success a), hl] at hlb
      cases hlb
    · rw [if_neg hji] at hb1
      rw [hb1]
      exact h.missing j a1 ha1 (hb1 ▸ hlb)
  fetched := fun j l c hm => by
    have hm : Effect.fetch j l c ∈ s.trace := by
      simpa [App.setItem] using hm
    obtain ⟨a1, ha1, hl1⟩ := h.fetched j l c hm
    by_cases hji : j = i
    · subst hji
      exact ⟨_, getElem?_mapAt_self _ j _ a1 ha1,
        (hasLink_of_seed (seed_success a1)).trans hl1⟩
    · exact ⟨a1, by rw [← ha1]; exact getElem?_mapAt_ne _ i j _ hji, hl1⟩
  timed := fun t j ms hm => by
    have hm : Effect.setTimeout t j ms ∈ s.trace := by
      simpa [App.setItem] using hm
    obtain ⟨a1, ha1, hl1⟩ := h.timed t j ms hm
    by_cases hji : j = i
    · subst hji
      exact ⟨_, getElem?_mapAt_self _ j _ a1 ha1,
        (hasLink_of_seed (seed_success a1)).trans hl1⟩
    · exact ⟨a1, by rw [← ha1]; exact getElem?_mapAt_ne _ i j _ hji, hl1⟩
  delayed := fun j b hb hs => by
    obtain ⟨a1, ha1, hb1⟩ := getElem?_mapAt_zero
      (Item.withStatus Status.success) i j s.currentItems b hb
    by_cases hji : j = i
    · subst hji
      exact List.mem_cons_self _ _
    · rw [if_neg hji] at hb1
      have := h.delayed j a1 ha1 (hb1 ▸ hs)
      simp [App.setItem, this]
  delays := fun j ms hm => by
    have hm : (j = i ∧ ms = 800) ∨ Effect.delay j ms ∈ s.trace := by
      simpa [App.setItem] using hm
    rcases hm with ⟨rfl, rfl⟩ | hm
    · exact ⟨rfl, _, getElem?_mapAt_self _ j _ a ha, rfl⟩
    · obtain ⟨h800, a1, ha1, hs⟩ := h.delays j ms hm
      refine ⟨h800, ?_⟩
      by_cases hji : j = i
      · subst hji
        rw [ha] at ha1; cases ha1
        exact absurd hs hns
      · exact ⟨a1, by rw [← ha1]; exact getElem?_mapAt_ne _ i j _ hji, hs⟩

/-- Source: `abortControllerRef.current = new AbortController()`. -/
theorem base_newAbortController {items0 : List Item} {s : State} (h : Base items0 s) :
    Base items0 (newAbortController s) where
  seeds := h.seeds
  queue := h.queue
  abortedFresh := fun c hc => Nat.lt_succ_of_lt (h.abortedFresh c hc)
  refFresh := fun c hc => by
    have : s.nextController = c := by simpa [App.newAbortController] using hc
    show c < s.nextController + 1
    omega
  timersFresh := h.timersFresh
  timersNodup := h.timersNodup
  missing := h.missing
  fetched := fun j l c hm => by
    rcases List.mem_cons.1 hm with he | hm
    · cases he
    · exact h.fetched j l c hm
  timed := fun t j ms hm => by
    rcases List.mem_cons.1 hm with he | hm
    · cases he
    · exact h.timed t j ms hm
  delayed := fun j it hj hs => List.mem_cons_of_mem _ (h.delayed j it hj hs)
  delays := fun j ms hm => by
    rcases List.mem_cons.1 hm with he | hm
    · cases he
    · exact h.delays j ms hm

/-- Source: `abortControllerRef.current.abort()`. -/
theorem base_abortCurrent {items0 : List Item} {s : State} (h : Base items0 s) :
    Base items0 (abortCurrent s) := by
  unfold App.abortCurrent
  split
  next => exact h
  next c hr =>
    have hb : Base items0 { s with trace := Effect.abort c :: s.trace } :=
      base_push h _ (fun _ _ _ => by simp) (fun _ _ _ => by simp) (fun _ _ => by simp)
    refine
      { seeds := hb.seeds, queue := hb.queue, abortedFresh := ?_, refFresh := hb.refFresh,
        timersFresh := hb.timersFresh, timersNodup := hb.timersNodup, missing := hb.missing, fetched := hb.fetched,
        timed := hb.timed, delayed := hb.delayed, delays := hb.delays }
    intro c1 hc1
    show c1 < s.nextController
    have hc1 : c1 ∈ (if s.abortedSignals.contains c then s.abortedSignals
        else c :: s.abortedSignals) := hc1
    split at hc1
    · exact h.abortedFresh c1 hc1
    · rcases List.mem_cons.1 hc1 with rfl | hc1
      · exact h.refFresh c1 hr
      · exact h.abortedFresh c1 hc1

/-- A change of the pending timers that keeps their ids below the next id. -/
theorem base_timers {items0 : List Item} {s : State} (h : Base items0 s)
    (ts : List Nat) (n : Nat) (hts : ∀ t ∈ ts, t < n) (hnd : ts.Nodup) :
    Base items0 { s with timers := ts, nextTimer := n } where
  seeds := h.seeds
  queue := h.queue
  abortedFresh := h.abortedFresh
  refFresh := h.refFresh
  timersFresh := hts
  timersNodup := hnd
  missing := h.missing
  fetched := h.fetched
  timed := h.timed
  delayed := h.delayed
  delays := h.delays

/-! ## The invariant under the blocks of `processQueue` -/

theorem getElem?_of_lt {items : List Item} {i : Nat} (h : i < items.length) :
    ∃ a, items[i]? = some a :=
  ⟨items[i], List.getElem?_eq_getElem h⟩

theorem signalAborted_eq_false {s : State} {c : Nat} (hr : s.abortControllerRef = some c)
    (hc : c ∉ s.abortedSignals) : signalAborted s = false := by
  simp [signalAborted, hr, hc]

theorem signalAborted_eq_true {s : State} {c : Nat} (hr : s.abortControllerRef = some c)
    (hc : c ∈ s.abortedSignals) : signalAborted s = true := by
  simp [signalAborted, hr, hc]

/-- The statement after the loop keeps the data invariant. -/
theorem base_exitLoop {items0 : List Item} {s : State} (h : Base items0 s) :
    Base items0 (exitLoop s) :=
  base_transport
    (base_push h (Effect.setProcessing false) (fun _ _ _ => by simp) (fun _ _ _ => by simp)
      (fun _ _ => by simp))
    rfl rfl rfl rfl rfl rfl rfl rfl

@[simp] theorem withError_status (m : String) (it : Item) :
    (it.withError m).status = Status.error := rfl

@[simp] theorem withError_errorMsg (m : String) (it : Item) :
    (it.withError m).errorMsg = m := rfl

@[simp] theorem withStatus_status (st : Status) (it : Item) :
    (it.withStatus st).status = st := rfl

@[simp] theorem withStatus_errorMsg (st : Status) (it : Item) :
    (it.withStatus st).errorMsg = it.errorMsg := rfl

/-- The `catch` block when the signal is aborted: message, new controller. -/
theorem catchBlock_aborted (err : String) (i : Nat) (s : State)
    (h : signalAborted s = true) :
    catchBlock err i s =
      { newAbortController (setItem i (Item.withError msgAborted)
          { s with trace := Effect.consoleError err :: s.trace }) with
        pc := Pc.loopTop (i + 1) } := by
  simp [catchBlock, h]

/-- The `catch` block when the signal is not aborted: the controller is kept. -/
theorem catchBlock_clear (err : String) (i : Nat) (s : State)
    (h : signalAborted s = false) :
    catchBlock err i s =
      { setItem i (Item.withError msgFailed)
          { s with trace := Effect.consoleError err :: s.trace } with
        pc := Pc.loopTop (i + 1) } := by
  simp [catchBlock, h]

/-- The `catch` block of job `i`, run while job `i` is being fetched or saved. -/
theorem inv_catchBlock {items0 : List Item} {s : State} (h : Base items0 s) (err : String)
    (i : Nat) (hi : i < s.currentItems.length)
    (hsh : Shape i Status.fetching s.currentItems ∨ Shape i Status.saving s.currentItems)
    (href : ∃ c, s.abortControllerRef = some c)
    (hlink : ∀ a, s.currentItems[i]? = some a → a.hasLink = false → signalAborted s = false) :
    Inv items0 (catchBlock err i s) := by
  have h1 : Base items0 { s with trace := Effect.consoleError err :: s.trace } :=
    base_push h _ (fun _ _ _ => by simp) (fun _ _ _ => by simp) (fun _ _ => by simp)
  have hne : ∀ a, s.currentItems[i]? = some a → a.status ≠ Status.success := by
    intro a ha
    rcases hsh with hsh | hsh
    · rw [hsh.atIndex ha]; decide
    · rw [hsh.atIndex ha]; decide
  have hshape : ∀ m, Shape (i + 1) Status.pending
      (mapAt (Item.withError m) i 0 s.currentItems) := by
    intro m
    have : Shape i Status.error (mapAt (Item.withError m) i 0 s.currentItems) := by
      rcases hsh with hsh | hsh
      · exact hsh.set _ _ (fun _ => rfl)
      · exact hsh.set _ _ (fun _ => rfl)
    exact this.next rfl
  have hlen : ∀ m, i + 1 ≤ (mapAt (Item.withError m) i 0 s.currentItems).length := by
    intro m; rw [mapAt_length]; omega
  cases hab : signalAborted s with
  | true =>
    rw [catchBlock_aborted err i s hab]
    have h2 : Base items0 (setItem i (Item.withError msgAborted)
        { s with trace := Effect.consoleError err :: s.trace }) := by
      refine base_setItem h1 i _ (seed_withError _) ?_
      intro a ha
      refine ⟨hne a ha, by simp, fun hl => ?_⟩
      rw [hlink a ha hl] at hab
      cases hab
    exact ⟨base_transport (base_newAbortController h2) rfl rfl rfl rfl rfl rfl rfl rfl,
      hlen _, hshape _, _, rfl⟩
  | false =>
    rw [catchBlock_clear err i s hab]
    have h2 : Base items0 (setItem i (Item.withError msgFailed)
        { s with trace := Effect.consoleError err :: s.trace }) := by
      refine base_setItem h1 i _ (seed_withError _) ?_
      intro a ha
      exact ⟨hne a ha, by simp, fun _ => Or.inr ⟨rfl, rfl⟩⟩
    obtain ⟨c, hc⟩ := href
    exact ⟨base_transport h2 rfl rfl rfl rfl rfl rfl rfl rfl, hlen _, hshape _, c, hc⟩

/-- The loop test and lines 261-266. -/
theorem inv_loopHead {items0 : List Item} {s : State} (h : Inv items0 s) (i : Nat)
    (hpc : s.pc = Pc.loopTop i) : Inv items0 (loopHead i s) := by
  obtain ⟨hb, hp⟩ := h
  unfold PcOK at hp
  rw [hpc] at hp
  obtain ⟨hle, hsh, c, hc⟩ := hp
  have hexit : Inv items0 (exitLoop s) :=
    ⟨base_exitLoop hb, ⟨i, hle, hsh⟩, rfl⟩
  unfold loopHead
  by_cases hi : i < s.currentItems.length
  · rw [if_pos hi]
    by_cases hab : signalAborted s = true
    · rw [if_pos hab]; exact hexit
    · rw [if_neg hab]
      refine ⟨base_transport (base_setItem hb i _ (seed_withStatus _) ?_)
        rfl rfl rfl rfl rfl rfl rfl rfl, ?_⟩
      · intro a ha
        refine ⟨?_, by simp, fun _ => Or.inl rfl⟩
        rw [hsh.atIndex ha]; decide
      · refine ⟨by show i < (mapAt _ i 0 s.currentItems).length; rw [mapAt_length]; exact hi,
          hsh.set _ _ (fun _ => rfl), c, hc, ?_⟩
        intro hmem
        apply hab
        exact signalAborted_eq_true hc hmem
  · rw [if_neg hi]; exact hexit

theorem hasLink_eq_false_of_none {it : Item} (h : it.link = none) : it.hasLink = false := by
  simp [Item.hasLink, h]

theorem hasLink_eq_false_of_empty {it : Item} (h : it.link = some "") :
    it.hasLink = false := by
  simp [Item.hasLink, h]

theorem hasLink_eq_true_of_some {it : Item} {l : String} (h : it.link = some l)
    (hl : ¬ l = "") : it.hasLink = true := by
  simp [Item.hasLink, h, hl]

/-- Lines 268-278: the link test, the timer, the call of `fetch`. -/
theorem inv_tryFetch {items0 : List Item} {s : State} (h : Inv items0 s) (i : Nat)
    (hpc : s.pc = Pc.started i) : Inv items0 (tryFetch i s) := by
  obtain ⟨hb, hp⟩ := h
  unfold PcOK at hp
  rw [hpc] at hp
  obtain ⟨hi, hsh, c, hc, hnab⟩ := hp
  obtain ⟨item, hitem⟩ := getElem?_of_lt hi
  have hclear : signalAborted s = false := signalAborted_eq_false hc hnab
  have hcatch : ∀ err, Inv items0 (catchBlock err i s) := fun err =>
    inv_catchBlock hb err i hi (Or.inl hsh) ⟨c, hc⟩ (fun _ _ _ => hclear)
  rcases s with ⟨dq, ref, ab, nc, tm, nt, pc, ci, tr⟩
  simp only at hpc hi hsh hc hnab hitem
  subst hpc hc
  unfold tryFetch
  simp only [hitem]
  cases hl : item.link with
  | none => exact hcatch _
  | some link =>
    simp only
    by_cases hlink : link = ""
    · rw [if_pos hlink]; exact hcatch _
    · rw [if_neg hlink]
      have hhas : item.hasLink = true := hasLink_eq_true_of_some hl hlink
      have h1 := base_timers hb (nt :: tm) (nt + 1) (by
        intro t ht
        rcases List.mem_cons.1 ht with rfl | ht
        · omega
        · have := hb.timersFresh t ht
          simp only at this
          omega) (by
        refine List.nodup_cons.2 ⟨fun hmem => ?_, hb.timersNodup⟩
        have := hb.timersFresh nt hmem
        simp only at this
        omega)
      refine ⟨?_, hi, hsh, rfl, hnab, hitem, hhas, List.mem_cons_self _ _⟩
      exact
        { seeds := h1.seeds, queue := h1.queue, abortedFresh := h1.abortedFresh,
          refFresh := h1.refFresh, timersFresh := h1.timersFresh,
          timersNodup := h1.timersNodup, missing := h1.missing,
          fetched := fun j l1 c1 hm => by
            rcases List.mem_cons.1 hm with he | hm
            · cases he; exact ⟨item, hitem, hhas⟩
            · rcases List.mem_cons.1 hm with he | hm
              · cases he
              · exact hb.fetched j l1 c1 hm
          timed := fun t j ms hm => by
            rcases List.mem_cons.1 hm with he | hm
            · cases he
            · rcases List.mem_cons.1 hm with he | hm
              · cases he; exact ⟨item, hitem, hhas⟩
              · exact hb.timed t j ms hm
          delayed := fun j it hj hs =>
            List.mem_cons_of_mem _ (List.mem_cons_of_mem _ (hb.delayed j it hj hs))
          delays := fun j ms hm => by
            rcases List.mem_cons.1 hm with he | hm
            · cases he
            · rcases List.mem_cons.1 hm with he | hm
              · cases he
              · exact hb.delays j ms hm }

/-- The `fetch` promise is fulfilled. -/
theorem inv_fetchResponse {items0 : List Item} {s s1 : State} (h : Inv items0 s)
    (status : Nat) (hstep : step s (Event.fetchResponse status) = some s1) :
    Inv items0 s1 := by
  obtain ⟨hb, hp⟩ := h
  rcases s with ⟨dq, ref, ab, nc, tm, nt, pc, ci, tr⟩
  unfold PcOK at hp
  unfold step at hstep
  cases pc with
  | awaitFetch i item c t =>
    simp only at hp hstep
    obtain ⟨hi, hsh, hc, hnab, hitem, hhas, _⟩ := hp
    subst hc
    have hcont : ab.contains c = false := by simpa using hnab
    rw [hcont] at hstep
    simp only [Bool.false_eq_true, if_false] at hstep
    have h1 := base_push (base_timers hb (tm.erase t) nt
        (fun t1 ht1 => hb.timersFresh t1 (List.mem_of_mem_erase ht1))
        (hb.timersNodup.erase t))
      (Effect.clearTimeout t) (fun _ _ _ => by simp) (fun _ _ _ => by simp)
      (fun _ _ => by simp)
    by_cases hok : 200 ≤ status ∧ status ≤ 299
    · rw [if_pos hok] at hstep
      cases hstep
      refine ⟨base_transport (base_setItem h1 i _ (seed_withStatus Status.saving) ?_)
        rfl rfl rfl rfl rfl rfl rfl rfl, ?_⟩
      · intro a ha
        have ha : ci[i]? = some a := ha
        refine ⟨?_, by simp, fun hl => ?_⟩
        · rw [hsh.atIndex ha]; decide
        · rw [hitem] at ha; cases ha
          rw [hhas] at hl; cases hl
      · refine ⟨by show i < (mapAt _ i 0 ci).length; rw [mapAt_length]; exact hi,
          hsh.set _ _ (fun _ => rfl), rfl, hnab, item.withStatus Status.saving,
          getElem?_mapAt_self _ i _ item hitem, rfl, ?_⟩
        rw [hasLink_of_seed (seed_withStatus _ item)]; exact hhas
    · rw [if_neg hok] at hstep
      cases hstep
      refine inv_catchBlock h1 _ i hi (Or.inl hsh) ⟨c, rfl⟩ ?_
      intro a ha hl
      have ha : ci[i]? = some a := ha
      rw [hitem] at ha; cases ha
      rw [hhas] at hl; cases hl
  | _ => cases hstep

/-- The `fetch` promise is rejected by a network error. -/
theorem inv_fetchFailed {items0 : List Item} {s s1 : State} (h : Inv items0 s)
    (msg : String) (hstep : step s (Event.fetchFailed msg) = some s1) :
    Inv items0 s1 := by
  obtain ⟨hb, hp⟩ := h
  unfold PcOK at hp
  unfold step at hstep
  cases hpc : s.pc with
  | awaitFetch i item c t =>
    rw [hpc] at hp hstep
    obtain ⟨hi, hsh, hc, hnab, hitem, hhas, _⟩ := hp
    simp only at hstep
    have hcont : s.abortedSignals.contains c = false := by simpa using hnab
    rw [hcont] at hstep
    simp only [Bool.false_eq_true, if_false] at hstep
    cases hstep
    refine inv_catchBlock hb _ i hi (Or.inl hsh) ⟨c, hc⟩ ?_
    intro a ha hl
    rw [hitem] at ha; cases ha
    rw [hhas] at hl; cases hl
  | _ => rw [hpc] at hstep; cases hstep

/-- The `blob()` promise is rejected by a network error. -/
theorem inv_blobFailed {items0 : List Item} {s s1 : State} (h : Inv items0 s)
    (msg : String) (hstep : step s (Event.blobFailed msg) = some s1) :
    Inv items0 s1 := by
  obtain ⟨hb, hp⟩ := h
  unfold PcOK at hp
  unfold step at hstep
  cases hpc : s.pc with
  | awaitBlob i item c =>
    rw [hpc] at hp hstep
    obtain ⟨hi, hsh, hc, hnab, it, hitem, _, hhas⟩ := hp
    simp only at hstep
    have hcont : s.abortedSignals.contains c = false := by simpa using hnab
    rw [hcont] at hstep
    simp only [Bool.false_eq_true, if_false] at hstep
    cases hstep
    refine inv_catchBlock hb _ i hi (Or.inr hsh) ⟨c, hc⟩ ?_
    intro a ha hl
    rw [hitem] at ha; cases ha
    rw [hhas] at hl; cases hl
  | _ => rw [hpc] at hstep; cases hstep

/-- The `blob()` promise is fulfilled. -/
theorem inv_blobReady {items0 : List Item} {s s1 : State} (h : Inv items0 s)
    (hstep : step s Event.blobReady = some s1) : Inv items0 s1 := by
  obtain ⟨hb, hp⟩ := h
  unfold PcOK at hp
  unfold step at hstep
  cases hpc : s.pc with
  | awaitBlob i item c =>
    rw [hpc] at hp hstep
    obtain ⟨hi, hsh, hc, hnab, it, hitem, _, hhas⟩ := hp
    simp only at hstep
    have hcont : s.abortedSignals.contains c = false := by simpa using hnab
    rw [hcont] at hstep
    simp only [Bool.false_eq_true, if_false] at hstep
    cases hstep
    have hns : it.status ≠ Status.success := by rw [hsh.atIndex hitem]; decide
    refine ⟨base_transport (base_succeed hb i (fileName item) it hitem hhas hns)
      rfl rfl rfl rfl rfl rfl rfl rfl, ?_⟩
    exact ⟨by show i < (mapAt _ i 0 s.currentItems).length; rw [mapAt_length]; exact hi,
      hsh.set _ _ (fun _ => rfl), c, hc⟩
  | _ => rw [hpc] at hstep; cases hstep

/-- The pacing delay is over. -/
theorem inv_delayElapsed {items0 : List Item} {s s1 : State} (h : Inv items0 s)
    (hstep : step s Event.delayElapsed = some s1) : Inv items0 s1 := by
  obtain ⟨hb, hp⟩ := h
  unfold PcOK at hp
  unfold step at hstep
  cases hpc : s.pc with
  | awaitDelay i =>
    rw [hpc] at hp hstep
    obtain ⟨hi, hsh, c, hc⟩ := hp
    cases hstep
    exact ⟨base_transport hb rfl rfl rfl rfl rfl rfl rfl rfl, hi, hsh.next rfl, c, hc⟩
  | _ => rw [hpc] at hstep; cases hstep

/-! ## The invariant under the handlers that call `abort()` -/

@[simp] theorem abortCurrent_pc (s : State) : (abortCurrent s).pc = s.pc := by
  unfold abortCurrent; split <;> rfl

@[simp] theorem abortCurrent_currentItems (s : State) :
    (abortCurrent s).currentItems = s.currentItems := by
  unfold abortCurrent; split <;> rfl

@[simp] theorem abortCurrent_ref (s : State) :
    (abortCurrent s).abortControllerRef = s.abortControllerRef := by
  unfold abortCurrent; split <;> rfl

@[simp] theorem abortCurrent_downloadQueue (s : State) :
    (abortCurrent s).downloadQueue = s.downloadQueue := by
  unfold abortCurrent; split <;> rfl

@[simp] theorem abortCurrent_timers (s : State) : (abortCurrent s).timers = s.timers := by
  unfold abortCurrent; split <;> rfl

@[simp] theorem abortCurrent_nextTimer (s : State) :
    (abortCurrent s).nextTimer = s.nextTimer := by
  unfold abortCurrent; split <;> rfl

@[simp] theorem abortCurrent_nextController (s : State) :
    (abortCurrent s).nextController = s.nextController := by
  unfold abortCurrent; split <;> rfl

/-- After `abort()` the signal of the current controller is aborted. -/
theorem mem_abortCurrent {s : State} {c : Nat} (h : s.abortControllerRef = some c) :
    c ∈ (abortCurrent s).abortedSignals := by
  unfold abortCurrent
  rw [h]
  simp only
  by_cases hc : s.abortedSignals.contains c = true
  · rw [if_pos hc]; simpa using hc
  · rw [if_neg hc]; exact List.mem_cons_self _ _

/-- A handler that calls `abort()` on the current controller and leaves the
items alone, followed by the rejection of the pending promise. -/
theorem inv_rejectIfAborted {items0 : List Item} {s s1 : State} (h : Inv items0 s)
    (hsusp : s.pc.suspended = true) (hb : Base items0 s1) (hpc : s1.pc = s.pc)
    (hci : s1.currentItems = s.currentItems)
    (href : s1.abortControllerRef = s.abortControllerRef)
    (hab : ∀ c, s.abortControllerRef = some c → c ∈ s1.abortedSignals)
    (hproc : s.downloadQueue.processing = false → s1.downloadQueue.processing = false) :
    Inv items0 (rejectIfAborted s1) := by
  obtain ⟨_, hp⟩ := h
  rcases s with ⟨dq, ref, ab, nc, tm, nt, pc, ci, tr⟩
  rcases s1 with ⟨dq1, ref1, ab1, nc1, tm1, nt1, pc1, ci1, tr1⟩
  simp only at hpc hci href hab hproc hsusp
  subst hpc hci href
  unfold PcOK at hp
  unfold rejectIfAborted
  cases pc1 with
  | idle => exact ⟨hb, hp⟩
  | loopTop i => cases hsusp
  | started i => cases hsusp
  | rejected i => cases hsusp
  | awaitDelay i => exact ⟨hb, hp⟩
  | done => exact ⟨hb, hp.1, hproc hp.2⟩
  | awaitFetch i item c t =>
    simp only at hp ⊢
    obtain ⟨hi, hsh, hc, _, hitem, hhas, _⟩ := hp
    have hmem : c ∈ ab1 := hab c hc
    have hcont : ab1.contains c = true := by simpa using hmem
    rw [if_pos hcont]
    exact ⟨base_transport hb rfl rfl rfl rfl rfl rfl rfl rfl, hi, Or.inl hsh,
      signalAborted_eq_true hc hmem, item, hitem, hhas⟩
  | awaitBlob i item c =>
    simp only at hp ⊢
    obtain ⟨hi, hsh, hc, _, it, hitem, _, hhas⟩ := hp
    have hmem : c ∈ ab1 := hab c hc
    have hcont : ab1.contains c = true := by simpa using hmem
    rw [if_pos hcont]
    exact ⟨base_transport hb rfl rfl rfl rfl rfl rfl rfl rfl, hi, Or.inr hsh,
      signalAborted_eq_true hc hmem, it, hitem, hhas⟩

/-- The body of `stopDownload` keeps the data invariant. -/
theorem base_stopDownloadBody {items0 : List Item} {s : State} (h : Base items0 s) :
    Base items0 (stopDownloadBody s) :=
  base_transport
    (base_push (base_abortCurrent h) (Effect.setProcessing false) (fun _ _ _ => by simp)
      (fun _ _ _ => by simp) (fun _ _ => by simp))
    rfl rfl rfl rfl rfl rfl rfl rfl

/-- The body of `closeQueue` keeps the data invariant. -/
theorem base_closeQueueBody {items0 : List Item} {s : State} (h : Base items0 s) :
    Base items0 (closeQueueBody s) := by
  have h1 := base_push (base_stopDownloadBody h)
    (Effect.setQueue { isOpen := false, items := [], processing := false })
    (fun _ _ _ => by simp) (fun _ _ _ => by simp) (fun _ _ => by simp)
  exact
    { seeds := h1.seeds, queue := Or.inl rfl, abortedFresh := h1.abortedFresh,
      refFresh := h1.refFresh, timersFresh := h1.timersFresh,
          timersNodup := h1.timersNodup, missing := h1.missing,
      fetched := h1.fetched, timed := h1.timed, delayed := h1.delayed, delays := h1.delays }

/-- One step keeps the invariant. -/
theorem inv_step {items0 : List Item} {s s1 : State} (h : Inv items0 s) (e : Event)
    (hstep : step s e = some s1) : Inv items0 s1 := by
  cases e with
  | tau =>
    unfold step at hstep
    cases hpc : s.pc with
    | loopTop i =>
      rw [hpc] at hstep; cases hstep; exact inv_loopHead h i hpc
    | started i =>
      rw [hpc] at hstep; cases hstep; exact inv_tryFetch h i hpc
    | rejected i =>
      rw [hpc] at hstep; cases hstep
      have hp := h.2
      unfold PcOK at hp
      rw [hpc] at hp
      obtain ⟨hi, hsh, hab, it, hitem, hhas⟩ := hp
      have href : ∃ c, s.abortControllerRef = some c := by
        unfold signalAborted at hab
        cases hr : s.abortControllerRef with
        | none => rw [hr] at hab; cases hab
        | some c => exact ⟨c, rfl⟩
      refine inv_catchBlock h.1 _ i hi hsh href ?_
      intro a ha hl
      rw [hitem] at ha; cases ha
      rw [hhas] at hl; cases hl
    | idle => rw [hpc] at hstep; cases hstep
    | awaitFetch i item c t => rw [hpc] at hstep; cases hstep
    | awaitBlob i item c => rw [hpc] at hstep; cases hstep
    | awaitDelay i => rw [hpc] at hstep; cases hstep
    | done => rw [hpc] at hstep; cases hstep
  | fetchResponse status => exact inv_fetchResponse h status hstep
  | fetchFailed msg => exact inv_fetchFailed h msg hstep
  | blobReady => exact inv_blobReady h hstep
  | blobFailed msg => exact inv_blobFailed h msg hstep
  | delayElapsed => exact inv_delayElapsed h hstep
  | timerFired id =>
    have hstep : (if s.pc.suspended = true ∧ s.timers.contains id = true then
        some (rejectIfAborted (abortCurrent { s with timers := s.timers.erase id }))
        else none) = some s1 := hstep
    by_cases hg : s.pc.suspended = true ∧ s.timers.contains id = true
    · rw [if_pos hg] at hstep
      cases hstep
      refine inv_rejectIfAborted h hg.1 ?_ (by simp) (by simp) (by simp) ?_ ?_
      · refine base_abortCurrent (base_timers h.1 _ _ ?_ (h.1.timersNodup.erase id))
        intro t ht
        exact h.1.timersFresh t (List.mem_of_mem_erase ht)
      · intro c hc
        exact mem_abortCurrent hc
      · intro hp; simpa using hp
    · rw [if_neg hg] at hstep; cases hstep
  | stopDownload =>
    have hstep : (if s.pc.suspended = true then some (rejectIfAborted (stopDownloadBody s))
        else none) = some s1 := hstep
    by_cases hg : s.pc.suspended = true
    · rw [if_pos hg] at hstep
      cases hstep
      refine inv_rejectIfAborted h hg (base_stopDownloadBody h.1) ?_ ?_ ?_ ?_ ?_
      · simp [stopDownloadBody]
      · simp [stopDownloadBody]
      · simp [stopDownloadBody]
      · intro c hc; exact mem_abortCurrent hc
      · intro _; rfl
    · rw [if_neg hg] at hstep; cases hstep
  | closeQueue =>
    have hstep : (if s.pc.suspended = true then some (rejectIfAborted (closeQueueBody s))
        else none) = some s1 := hstep
    by_cases hg : s.pc.suspended = true
    · rw [if_pos hg] at hstep
      cases hstep
      refine inv_rejectIfAborted h hg (base_closeQueueBody h.1) ?_ ?_ ?_ ?_ ?_
      · simp [closeQueueBody, stopDownloadBody]
      · simp [closeQueueBody, stopDownloadBody]
      · simp [closeQueueBody, stopDownloadBody]
      · intro c hc; exact mem_abortCurrent hc
      · intro _; rfl
    · rw [if_neg hg] at hstep; cases hstep

/-- A sequence of steps keeps the invariant. -/
theorem inv_exec {items0 : List Item} :
    ∀ (es : List Event) (s s1 : State), Inv items0 s → exec s es = some s1 →
      Inv items0 s1 := by
  intro es
  induction es with
  | nil => intro s s1 h he; cases he; exact h
  | cons e es ih =>
    intro s s1 h he
    unfold exec at he
    cases hs : step s e with
    | none => rw [hs] at he; cases he
    | some s2 =>
      rw [hs] at he
      exact ih s2 s1 (inv_step h e hs) he

/-! ## The start of a run -/

/-- Every item built by `startBatchDownload` is pending, without message. -/
theorem queueItems_pending (mediaType : String) (results : List MediaItem)
    (selectedIds : List Nat) (j : Nat) (it : Item)
    (h : (queueItems mediaType results selectedIds)[j]? = some it) :
    it.status = Status.pending ∧ it.errorMsg = "" := by
  unfold queueItems at h
  rw [List.getElem?_map] at h
  cases hm : (selectedItems results selectedIds)[j]? with
  | none => rw [hm] at h; cases h
  | some m =>
    rw [hm] at h
    simp only [Option.map_some', Option.some.injEq] at h
    subst h
    exact ⟨rfl, rfl⟩

theorem shape_of_pending {items : List Item}
    (h : ∀ (j : Nat) (it : Item), items[j]? = some it → it.status = Status.pending) :
    Shape 0 Status.pending items := by
  intro j it hj
  exact ⟨fun hlt => absurd hlt (Nat.not_lt_zero j), fun _ => h j it hj, fun _ => h j it hj⟩

theorem base_init_alert (msg : String) :
    Base [] { init with trace := Effect.alert msg :: init.trace } where
  seeds := rfl
  queue := Or.inl rfl
  abortedFresh := fun c hc => by cases hc
  refFresh := fun c hc => by cases hc
  timersFresh := fun t ht => by cases ht
  timersNodup := List.nodup_nil
  missing := fun j it hj _ => by simp [init] at hj
  fetched := fun j l c hm => by simp [init] at hm
  timed := fun t j ms hm => by simp [init] at hm
  delayed := fun j it hj _ => by simp [init] at hj
  delays := fun j ms hm => by simp [init] at hm

theorem base_openQueue (items : List Item)
    (hpend : ∀ (j : Nat) (it : Item), items[j]? = some it → it.status = Status.pending) :
    Base items (openQueue items init) where
  seeds := rfl
  queue := Or.inr rfl
  abortedFresh := fun c hc => by cases hc
  refFresh := fun c hc => by
    have : (0 : Nat) = c := by simpa [openQueue, processQueue, newAbortController, init] using hc
    subst this
    show 0 < 0 + 1
    omega
  timersFresh := fun t ht => by cases ht
  timersNodup := List.nodup_nil
  missing := fun j it hj _ => Or.inl (hpend j it hj)
  fetched := fun j l c hm => by simp [openQueue, processQueue, newAbortController, init] at hm
  timed := fun t j ms hm => by simp [openQueue, processQueue, newAbortController, init] at hm
  delayed := fun j it hj hs => by
    have := hpend j it hj
    rw [this] at hs; cases hs
  delays := fun j ms hm => by simp [openQueue, processQueue, newAbortController, init] at hm

/-- The invariant holds when `startBatchDownload` has run. -/
theorem inv_start (mediaType : String) (results : List MediaItem) (selectedIds : List Nat) :
    Inv (queueItems mediaType results selectedIds)
      (startBatchDownload mediaType results selectedIds init) := by
  have hpend := queueItems_pending mediaType results selectedIds
  unfold startBatchDownload
  by_cases hsel : (selectedItems results selectedIds).length = 0
  · rw [if_pos hsel]
    have hq : queueItems mediaType results selectedIds = [] := by
      unfold queueItems
      rw [List.length_eq_zero.1 hsel]; rfl
    rw [hq]
    exact ⟨base_init_alert _, rfl⟩
  · rw [if_neg hsel]
    exact ⟨base_openQueue _ (fun j it hj => (hpend j it hj).1), Nat.zero_le _,
      shape_of_pending (fun j it hj => (hpend j it hj).1), 0, rfl⟩

/-- The invariant holds at every point of a run. -/
theorem inv_run {mediaType : String} {results : List MediaItem} {selectedIds : List Nat}
    {es : List Event} {s : State} (h : run mediaType results selectedIds es = some s) :
    Inv (queueItems mediaType results selectedIds) s :=
  inv_exec es _ s (inv_start mediaType results selectedIds) h

/-! ## The blocks of `step`, one equation each -/

theorem step_loopTop {s : State} {i : Nat} (hpc : s.pc = Pc.loopTop i) :
    step s Event.tau = some (loopHead i s) := by
  simp [step, hpc]

theorem step_started {s : State} {i : Nat} (hpc : s.pc = Pc.started i) :
    step s Event.tau = some (tryFetch i s) := by
  simp [step, hpc]

theorem step_rejected {s : State} {i : Nat} (hpc : s.pc = Pc.rejected i) :
    step s Event.tau = some (catchBlock "AbortError" i s) := by
  simp [step, hpc]

theorem step_fetchOk {s : State} {i : Nat} {item : Item} {c t : Nat} (status : Nat)
    (hpc : s.pc = Pc.awaitFetch i item c t) (hc : c ∉ s.abortedSignals)
    (hok : 200 ≤ status ∧ status ≤ 299) :
    step s (Event.fetchResponse status) =
      some { setItem i (Item.withStatus Status.saving)
               { s with timers := s.timers.erase t,
                        trace := Effect.clearTimeout t :: s.trace } with
             pc := Pc.awaitBlob i item c } := by
  simp [step, hpc, hc, hok]

theorem step_fetchBad {s : State} {i : Nat} {item : Item} {c t : Nat} (status : Nat)
    (hpc : s.pc = Pc.awaitFetch i item c t) (hc : c ∉ s.abortedSignals)
    (hok : ¬ (200 ≤ status ∧ status ≤ 299)) :
    step s (Event.fetchResponse status) =
      some (catchBlock ("HTTP Error: " ++ toString status) i
        { s with timers := s.timers.erase t, trace := Effect.clearTimeout t :: s.trace }) := by
  have hc1 : s.abortedSignals.contains c = false := by simpa using hc
  simp only [step, hpc, hc1, Bool.false_eq_true, if_false, hok]

theorem step_fetchFailed {s : State} {i : Nat} {item : Item} {c t : Nat} (msg : String)
    (hpc : s.pc = Pc.awaitFetch i item c t) (hc : c ∉ s.abortedSignals) :
    step s (Event.fetchFailed msg) = some (catchBlock msg i s) := by
  simp [step, hpc, hc]

theorem step_blobFailed {s : State} {i : Nat} {item : Item} {c : Nat} (msg : String)
    (hpc : s.pc = Pc.awaitBlob i item c) (hc : c ∉ s.abortedSignals) :
    step s (Event.blobFailed msg) = some (catchBlock msg i s) := by
  simp [step, hpc, hc]

theorem step_blobReady {s : State} {i : Nat} {item : Item} {c : Nat}
    (hpc : s.pc = Pc.awaitBlob i item c) (hc : c ∉ s.abortedSignals) :
    step s Event.blobReady =
      some { setItem i (Item.withStatus Status.success)
               { s with trace := Effect.save i (fileName item) :: s.trace } with
             pc := Pc.awaitDelay i
             trace := Effect.delay i 800
               :: (setItem i (Item.withStatus Status.success)
                    { s with trace := Effect.save i (fileName item) :: s.trace }).trace } := by
  simp [step, hpc, hc]

theorem step_delayElapsed {s : State} {i : Nat} (hpc : s.pc = Pc.awaitDelay i) :
    step s Event.delayElapsed = some { s with pc := Pc.loopTop (i + 1) } := by
  simp [step, hpc]

theorem step_timerFired {s : State} {id : Nat} (hs : s.pc.suspended = true)
    (hid : id ∈ s.timers) :
    step s (Event.timerFired id) =
      some (rejectIfAborted (abortCurrent { s with timers := s.timers.erase id })) := by
  simp [step, hs, hid]

theorem step_stopDownload {s : State} (hs : s.pc.suspended = true) :
    step s Event.stopDownload = some (rejectIfAborted (stopDownloadBody s)) := by
  simp [step, hs]

theorem step_closeQueue {s : State} (hs : s.pc.suspended = true) :
    step s Event.closeQueue = some (rejectIfAborted (closeQueueBody s)) := by
  simp [step, hs]

theorem loopHead_go {s : State} {i : Nat} (hi : i < s.currentItems.length)
    (hab : signalAborted s = false) :
    loopHead i s = { setItem i (Item.withStatus Status.fetching) s with pc := Pc.started i } := by
  simp [loopHead, hi, hab]

theorem loopHead_end {s : State} {i : Nat} (hi : ¬ i < s.currentItems.length) :
    loopHead i s = exitLoop s := by
  simp [loopHead, hi]

theorem loopHead_break {s : State} {i : Nat} (hab : signalAborted s = true) :
    loopHead i s = exitLoop s := by
  simp [loopHead, hab]

theorem tryFetch_noLink {s : State} {i : Nat} {item : Item} {c : Nat}
    (hitem : s.currentItems[i]? = some item) (hc : s.abortControllerRef = some c)
    (hl : item.hasLink = false) : tryFetch i s = catchBlock "无效链接" i s := by
  unfold tryFetch
  rw [hitem, hc]
  simp only
  cases hlink : item.link with
  | none => rfl
  | some l =>
    have : l = "" := by simpa [Item.hasLink, hlink] using hl
    simp [this]

theorem tryFetch_link {s : State} {i : Nat} {item : Item} {c : Nat}
    (hitem : s.currentItems[i]? = some item) (hc : s.abortControllerRef = some c)
    (hl : item.hasLink = true) :
    ∃ link, item.link = some link ∧ tryFetch i s =
      { s with
        timers := s.nextTimer :: s.timers
        nextTimer := s.nextTimer + 1
        pc := Pc.awaitFetch i item c s.nextTimer
        trace := Effect.fetch i link c :: Effect.setTimeout s.nextTimer i 60000 :: s.trace } := by
  cases hlink : item.link with
  | none => simp [Item.hasLink, hlink] at hl
  | some l =>
    have hne : ¬ l = "" := by simpa [Item.hasLink, hlink] using hl
    refine ⟨l, rfl, ?_⟩
    unfold tryFetch
    rw [hitem, hc]
    simp only [hlink, hne, if_false]

/-! ## What a block does to each field -/

@[simp] theorem catchBlock_currentItems (err : String) (i : Nat) (s : State) :
    (catchBlock err i s).currentItems =
      mapAt (Item.withError (if signalAborted s then msgAborted else msgFailed)) i 0
        s.currentItems := by
  cases hab : signalAborted s with
  | true => rw [catchBlock_aborted err i s hab]; rfl
  | false => rw [catchBlock_clear err i s hab]; rfl

@[simp] theorem catchBlock_pc (err : String) (i : Nat) (s : State) :
    (catchBlock err i s).pc = Pc.loopTop (i + 1) := by
  cases hab : signalAborted s with
  | true => rw [catchBlock_aborted err i s hab]
  | false => rw [catchBlock_clear err i s hab]

@[simp] theorem catchBlock_timers (err : String) (i : Nat) (s : State) :
    (catchBlock err i s).timers = s.timers := by
  cases hab : signalAborted s with
  | true => rw [catchBlock_aborted err i s hab]; rfl
  | false => rw [catchBlock_clear err i s hab]; rfl

@[simp] theorem catchBlock_nextTimer (err : String) (i : Nat) (s : State) :
    (catchBlock err i s).nextTimer = s.nextTimer := by
  cases hab : signalAborted s with
  | true => rw [catchBlock_aborted err i s hab]; rfl
  | false => rw [catchBlock_clear err i s hab]; rfl

@[simp] theorem catchBlock_abortedSignals (err : String) (i : Nat) (s : State) :
    (catchBlock err i s).abortedSignals = s.abortedSignals := by
  cases hab : signalAborted s with
  | true => rw [catchBlock_aborted err i s hab]; rfl
  | false => rw [catchBlock_clear err i s hab]; rfl

@[simp] theorem catchBlock_processing (err : String) (i : Nat) (s : State) :
    (catchBlock err i s).downloadQueue.processing = s.downloadQueue.processing := by
  cases hab : signalAborted s with
  | true => rw [catchBlock_aborted err i s hab]; rfl
  | false => rw [catchBlock_clear err i s hab]; rfl

@[simp] theorem catchBlock_queueItems (err : String) (i : Nat) (s : State) :
    (catchBlock err i s).downloadQueue.items = (catchBlock err i s).currentItems := by
  cases hab : signalAborted s with
  | true => rw [catchBlock_aborted err i s hab]; rfl
  | false => rw [catchBlock_clear err i s hab]; rfl

@[simp] theorem rejectIfAborted_currentItems (s : State) :
    (rejectIfAborted s).currentItems = s.currentItems := by
  unfold rejectIfAborted
  split
  · split <;> rfl
  · split <;> rfl
  · rfl

@[simp] theorem rejectIfAborted_downloadQueue (s : State) :
    (rejectIfAborted s).downloadQueue = s.downloadQueue := by
  unfold rejectIfAborted
  split
  · split <;> rfl
  · split <;> rfl
  · rfl

@[simp] theorem rejectIfAborted_timers (s : State) :
    (rejectIfAborted s).timers = s.timers := by
  unfold rejectIfAborted
  split
  · split <;> rfl
  · split <;> rfl
  · rfl

@[simp] theorem rejectIfAborted_nextTimer (s : State) :
    (rejectIfAborted s).nextTimer = s.nextTimer := by
  unfold rejectIfAborted
  split
  · split <;> rfl
  · split <;> rfl
  · rfl

@[simp] theorem stopDownloadBody_currentItems (s : State) :
    (stopDownloadBody s).currentItems = s.currentItems := by
  simp [stopDownloadBody]

@[simp] theorem closeQueueBody_currentItems (s : State) :
    (closeQueueBody s).currentItems = s.currentItems := by
  simp [closeQueueBody]

@[simp] theorem exitLoop_currentItems (s : State) :
    (exitLoop s).currentItems = s.currentItems := rfl

/-- A step leaves `currentItems` alone or applies one `map` statement to the
job the loop is at, which changes status and message only, along one of the
five allowed status changes. -/
theorem step_change {items0 : List Item} {s s1 : State} {e : Event} (h : Inv items0 s)
    (hstep : step s e = some s1) :
    s1.currentItems = s.currentItems ∨
    ∃ i f, s.pc.index = some i ∧ s1.currentItems = mapAt f i 0 s.currentItems ∧
      (∀ it, seed (f it) = seed it) ∧
      (∀ a, s.currentItems[i]? = some a → allowed a.status (f a).status = true) := by
  obtain ⟨hb, hp⟩ := h
  unfold PcOK at hp
  have hcatch : ∀ (err : String) (i : Nat) (s0 : State),
      s0.currentItems = s.currentItems →
      (Shape i Status.fetching s.currentItems ∨ Shape i Status.saving s.currentItems) →
      ∃ f, (catchBlock err i s0).currentItems = mapAt f i 0 s.currentItems ∧
        (∀ it, seed (f it) = seed it) ∧
        (∀ a, s.currentItems[i]? = some a → allowed a.status (f a).status = true) := by
    intro err i s0 hci hsh
    refine ⟨_, by rw [catchBlock_currentItems, hci], seed_withError _, ?_⟩
    intro a ha
    rcases hsh with hsh | hsh
    · rw [hsh.atIndex ha]; rfl
    · rw [hsh.atIndex ha]; rfl
  cases e with
  | tau =>
    cases hpc : s.pc with
    | loopTop i =>
      rw [hpc] at hp
      rw [step_loopTop hpc] at hstep
      cases hstep
      by_cases hi : i < s.currentItems.length
      · cases hab : signalAborted s with
        | true => rw [loopHead_break hab]; exact Or.inl rfl
        | false =>
          rw [loopHead_go hi hab]
          refine Or.inr ⟨i, _, rfl, rfl, seed_withStatus _, ?_⟩
          intro a ha
          rw [hp.2.1.atIndex ha]; rfl
      · rw [loopHead_end hi]; exact Or.inl rfl
    | started i =>
      rw [hpc] at hp
      rw [step_started hpc] at hstep
      cases hstep
      obtain ⟨hi, hsh, c, hc, _⟩ := hp
      obtain ⟨item, hitem⟩ := getElem?_of_lt hi
      cases hl : item.hasLink with
      | false =>
        rw [tryFetch_noLink hitem hc hl]
        obtain ⟨f, h1, h2, h3⟩ := hcatch _ i s rfl (Or.inl hsh)
        exact Or.inr ⟨i, f, rfl, h1, h2, h3⟩
      | true =>
        obtain ⟨link, _, heq⟩ := tryFetch_link hitem hc hl
        rw [heq]; exact Or.inl rfl
    | rejected i =>
      rw [hpc] at hp
      rw [step_rejected hpc] at hstep
      cases hstep
      obtain ⟨f, h1, h2, h3⟩ := hcatch _ i s rfl hp.2.1
      exact Or.inr ⟨i, f, rfl, h1, h2, h3⟩
    | idle => simp [step, hpc] at hstep
    | awaitFetch i item c t => simp [step, hpc] at hstep
    | awaitBlob i item c => simp [step, hpc] at hstep
    | awaitDelay i => simp [step, hpc] at hstep
    | done => simp [step, hpc] at hstep
  | fetchResponse status =>
    cases hpc : s.pc with
    | awaitFetch i item c t =>
      rw [hpc] at hp
      obtain ⟨hi, hsh, hc, hnab, _⟩ := hp
      by_cases hok : 200 ≤ status ∧ status ≤ 299
      · rw [step_fetchOk status hpc hnab hok] at hstep
        cases hstep
        refine Or.inr ⟨i, _, rfl, rfl, seed_withStatus _, ?_⟩
        intro a ha
        rw [hsh.atIndex ha]; rfl
      · rw [step_fetchBad status hpc hnab hok] at hstep
        cases hstep
        obtain ⟨f, h1, h2, h3⟩ := hcatch ("HTTP Error: " ++ toString status) i
          { s with timers := s.timers.erase t, trace := Effect.clearTimeout t :: s.trace }
          rfl (Or.inl hsh)
        exact Or.inr ⟨i, f, rfl, h1, h2, h3⟩
    | idle => simp [step, hpc] at hstep
    | loopTop i => simp [step, hpc] at hstep
    | started i => simp [step, hpc] at hstep
    | rejected i => simp [step, hpc] at hstep
    | awaitBlob i item c => simp [step, hpc] at hstep
    | awaitDelay i => simp [step, hpc] at hstep
    | done => simp [step, hpc] at hstep
  | fetchFailed msg =>
    cases hpc : s.pc with
    | awaitFetch i item c t =>
      rw [hpc] at hp
      obtain ⟨hi, hsh, hc, hnab, _⟩ := hp
      rw [step_fetchFailed msg hpc hnab] at hstep
      cases hstep
      obtain ⟨f, h1, h2, h3⟩ := hcatch _ i s rfl (Or.inl hsh)
      exact Or.inr ⟨i, f, rfl, h1, h2, h3⟩
    | idle => simp [step, hpc] at hstep
    | loopTop i => simp [step, hpc] at hstep
    | started i => simp [step, hpc] at hstep
    | rejected i => simp [step, hpc] at hstep
    | awaitBlob i item c => simp [step, hpc] at hstep
    | awaitDelay i => simp [step, hpc] at hstep
    | done => simp [step, hpc] at hstep
  | blobReady =>
    cases hpc : s.pc with
    | awaitBlob i item c =>
      rw [hpc] at hp
      obtain ⟨hi, hsh, hc, hnab, _⟩ := hp
      rw [step_blobReady hpc hnab] at hstep
      cases hstep
      refine Or.inr ⟨i, _, rfl, rfl, seed_withStatus _, ?_⟩
      intro a ha
      rw [hsh.atIndex ha]; rfl
    | idle => simp [step, hpc] at hstep
    | loopTop i => simp [step, hpc] at hstep
    | started i => simp [step, hpc] at hstep
    | rejected i => simp [step, hpc] at hstep
    | awaitFetch i item c t => simp [step, hpc] at hstep
    | awaitDelay i => simp [step, hpc] at hstep
    | done => simp [step, hpc] at hstep
  | blobFailed msg =>
    cases hpc : s.pc with
    | awaitBlob i item c =>
      rw [hpc] at hp
      obtain ⟨hi, hsh, hc, hnab, _⟩ := hp
      rw [step_blobFailed msg hpc hnab] at hstep
      cases hstep
      obtain ⟨f, h1, h2, h3⟩ := hcatch _ i s rfl (Or.inr hsh)
      exact Or.inr ⟨i, f, rfl, h1, h2, h3⟩
    | idle => simp [step, hpc] at hstep
    | loopTop i => simp [step, hpc] at hstep
    | started i => simp [step, hpc] at hstep
    | rejected i => simp [step, hpc] at hstep
    | awaitFetch i item c t => simp [step, hpc] at hstep
    | awaitDelay i => simp [step, hpc] at hstep
    | done => simp [step, hpc] at hstep
  | delayElapsed =>
    cases hpc : s.pc with
    | awaitDelay i =>
      rw [step_delayElapsed hpc] at hstep
      cases hstep
      exact Or.inl rfl
    | idle => simp [step, hpc] at hstep
    | loopTop i => simp [step, hpc] at hstep
    | started i => simp [step, hpc] at hstep
    | rejected i => simp [step, hpc] at hstep
    | awaitFetch i item c t => simp [step, hpc] at hstep
    | awaitBlob i item c => simp [step, hpc] at hstep
    | done => simp [step, hpc] at hstep
  | timerFired id =>
    by_cases hg : s.pc.suspended = true ∧ id ∈ s.timers
    · rw [step_timerFired hg.1 hg.2] at hstep
      cases hstep
      exact Or.inl (by simp)
    · simp [step] at hstep
      exact absurd ⟨hstep.1.1, hstep.1.2⟩ hg
  | stopDownload =>
    by_cases hg : s.pc.suspended = true
    · rw [step_stopDownload hg] at hstep
      cases hstep
      exact Or.inl (by simp)
    · simp [step, hg] at hstep
  | closeQueue =>
    by_cases hg : s.pc.suspended = true
    · rw [step_closeQueue hg] at hstep
      cases hstep
      exact Or.inl (by simp)
    · simp [step, hg] at hstep

/-! ## Status changes (C2) and sequential execution (C3) -/

theorem allowed_not_terminal {a b : Status} (h : allowed a b = true) : a.terminal = false := by
  cases a <;> cases b <;> first | rfl | cases h

theorem stepOK_refl (items : List Item) : StepOK items items :=
  ⟨rfl, fun j a b ha hb => Or.inl (by rw [ha] at hb; cases hb; rfl)⟩

theorem stepOK_mapAt (f : Item → Item) (i : Nat) (items : List Item)
    (hf : ∀ a, items[i]? = some a → allowed a.status (f a).status = true) :
    StepOK (mapAt f i 0 items) items := by
  refine ⟨mapAt_length f i items 0, fun j a b ha hb => ?_⟩
  obtain ⟨a1, ha1, rfl⟩ := getElem?_mapAt_zero f i j items b hb
  rw [ha] at ha1; cases ha1
  by_cases hji : j = i
  · subst hji
    rw [if_pos rfl]
    exact Or.inr (hf a ha)
  · rw [if_neg hji]
    exact Or.inl rfl

/-- One step changes the statuses along allowed changes only. -/
theorem stepOK_step {items0 : List Item} {s s1 : State} {e : Event} (h : Inv items0 s)
    (hstep : step s e = some s1) : StepOK s1.currentItems s.currentItems := by
  rcases step_change h hstep with heq | ⟨i, f, _, heq, _, hf⟩
  · rw [heq]; exact stepOK_refl _
  · rw [heq]; exact stepOK_mapAt f i _ hf

theorem frozen_of_stepOK {newer older : List Item} (h : StepOK newer older) :
    Frozen newer older := by
  refine ⟨h.1, fun j a b ha hb ht => ?_⟩
  rcases h.2 j a b ha hb with heq | hal
  · exact heq
  · rw [allowed_not_terminal hal] at ht; cases ht

theorem frozen_trans {c b a : List Item} (h2 : Frozen c b) (h1 : Frozen b a) :
    Frozen c a := by
  refine ⟨h2.1.trans h1.1, fun j x z hx hz ht => ?_⟩
  have hj : j < a.length := by
    rcases Nat.lt_or_ge j a.length with hlt | hge
    · exact hlt
    · rw [List.getElem?_eq_none hge] at hx; cases hx
  have hjb : j < b.length := by rw [h1.1]; exact hj
  obtain ⟨y, hy⟩ := getElem?_of_lt hjb
  have hyx := h1.2 j x y hx hy ht
  have hzy := h2.2 j y z hy hz (by rw [hyx]; exact ht)
  rw [hzy, hyx]

/-- A job that is over keeps its status through any sequence of steps. -/
theorem frozen_exec {items0 : List Item} :
    ∀ (es : List Event) (s s1 : State), Inv items0 s → exec s es = some s1 →
      Frozen s1.currentItems s.currentItems := by
  intro es
  induction es with
  | nil =>
    intro s s1 _ he
    cases he
    exact frozen_of_stepOK (stepOK_refl _)
  | cons e es ih =>
    intro s s1 h he
    unfold exec at he
    cases hs : step s e with
    | none => rw [hs] at he; cases he
    | some s2 =>
      rw [hs] at he
      exact frozen_trans (ih s2 s1 (inv_step h e hs) he) (frozen_of_stepOK (stepOK_step h hs))

/-- C2: at every point of a run started by `startBatchDownload`, a step changes
the status of a job only along `pending -> fetching`, `fetching -> saving`,
`saving -> success`, `fetching -> error` or `saving -> error`, and a job whose
status is `success` or `error` keeps that status through every continuation of
the run. -/
theorem status_changes_allowed (mediaType : String) (results : List MediaItem)
    (selectedIds : List Nat) (es : List Event) (s : State)
    (h : run mediaType results selectedIds es = some s) :
    (∀ (e : Event) (s1 : State), step s e = some s1 →
      StepOK s1.currentItems s.currentItems) ∧
    (∀ (es1 : List Event) (s1 : State), exec s es1 = some s1 →
      Frozen s1.currentItems s.currentItems) :=
  ⟨fun _ _ hs => stepOK_step (inv_run h) hs, fun es1 s1 he => frozen_exec es1 s s1 (inv_run h) he⟩

/-- C2 at the point where job 0 of two jobs is being fetched. -/
theorem status_changes_allowed_witness :
    ∃ s, run "video" [sampleVideo 1 "https://x/a.mp4", sampleVideo 2 "https://x/b.mp4"] [1, 2]
        [Event.tau, Event.tau] = some s ∧
      (∀ (e : Event) (s1 : State), step s e = some s1 →
        StepOK s1.currentItems s.currentItems) ∧
      (∀ (es1 : List Event) (s1 : State), exec s es1 = some s1 →
        Frozen s1.currentItems s.currentItems) :=
  ⟨_, rfl, status_changes_allowed "video"
    [sampleVideo 1 "https://x/a.mp4", sampleVideo 2 "https://x/b.mp4"] [1, 2]
    [Event.tau, Event.tau] _ rfl⟩

theorem pcOK_shape {s : State} (hp : PcOK s) : ∃ i st, Shape i st s.currentItems := by
  unfold PcOK at hp
  cases hpc : s.pc with
  | idle =>
    rw [hpc] at hp
    refine ⟨0, Status.pending, fun j it hj => ?_⟩
    rw [hp] at hj; cases hj
  | loopTop i => rw [hpc] at hp; exact ⟨i, _, hp.2.1⟩
  | started i => rw [hpc] at hp; exact ⟨i, _, hp.2.1⟩
  | awaitFetch i item c t => rw [hpc] at hp; exact ⟨i, _, hp.2.1⟩
  | awaitBlob i item c => rw [hpc] at hp; exact ⟨i, _, hp.2.1⟩
  | rejected i =>
    rw [hpc] at hp
    rcases hp.2.1 with h | h
    · exact ⟨i, _, h⟩
    · exact ⟨i, _, h⟩
  | awaitDelay i => rw [hpc] at hp; exact ⟨i, _, hp.2.1⟩
  | done =>
    rw [hpc] at hp
    obtain ⟨⟨k, _, hk⟩, _⟩ := hp
    exact ⟨k, _, hk⟩

/-- At a point with a job index the items have the shape of that index. -/
theorem pcOK_shape_index {s : State} (hp : PcOK s) {i : Nat} (hi : s.pc.index = some i) :
    ∃ st, Shape i st s.currentItems := by
  unfold PcOK at hp
  cases hpc : s.pc with
  | idle => rw [hpc] at hi; cases hi
  | done => rw [hpc] at hi; cases hi
  | loopTop k => rw [hpc] at hp hi; cases hi; exact ⟨_, hp.2.1⟩
  | started k => rw [hpc] at hp hi; cases hi; exact ⟨_, hp.2.1⟩
  | awaitFetch k item c t => rw [hpc] at hp hi; cases hi; exact ⟨_, hp.2.1⟩
  | awaitBlob k item c => rw [hpc] at hp hi; cases hi; exact ⟨_, hp.2.1⟩
  | rejected k =>
    rw [hpc] at hp hi; cases hi
    rcases hp.2.1 with h | h
    · exact ⟨_, h⟩
    · exact ⟨_, h⟩
  | awaitDelay k => rw [hpc] at hp hi; cases hi; exact ⟨_, hp.2.1⟩

theorem filter_length_le_one (p : Item → Bool) :
    ∀ (items : List Item) (k : Nat),
      (∀ (j : Nat) (it : Item), items[j]? = some it → p it = true → j = k) →
      (items.filter p).length ≤ 1 := by
  intro items
  induction items with
  | nil => intro k _; simp
  | cons a rest ih =>
    intro k h
    by_cases hpa : p a = true
    · have hk : 0 = k := h 0 a (by simp) hpa
      have hrest : rest.filter p = [] := by
        rw [List.filter_eq_nil_iff]
        intro b hb hpb
        obtain ⟨n, hn⟩ := List.getElem?_of_mem hb
        have := h (n + 1) b (by simpa using hn) hpb
        omega
      simp [List.filter_cons, hpa, hrest]
    · have := ih (k - 1) (fun j it hj hp => by
        have := h (j + 1) it (by simpa using hj) hp
        omega)
      simpa [List.filter_cons, hpa] using this

theorem atMostOneActive_of_shape {i : Nat} {st : Status} {items : List Item}
    (h : Shape i st items) : AtMostOneActive items := by
  refine filter_length_le_one _ items i (fun j it hj hact => ?_)
  obtain ⟨h1, _, h3⟩ := h j it hj
  rcases Nat.lt_trichotomy j i with hlt | heq | hgt
  · have := h1 hlt
    cases hs : it.status <;> rw [hs] at this hact <;>
      first | exact absurd this (by decide) | exact absurd hact (by decide)
  · exact heq
  · have := h3 hgt
    rw [this] at hact; cases hact

theorem ordered_of_shape {i : Nat} {st : Status} {items : List Item} (h : Shape i st items)
    (j : Nat) (a b : Item) (ha : items[j]? = some a) (hb : items[j + 1]? = some b)
    (hne : b.status ≠ Status.pending) : a.status.terminal = true := by
  rcases Nat.lt_or_ge i (j + 1) with hlt | hge
  · exact absurd ((h (j + 1) b hb).2.2 hlt) hne
  · exact (h j a ha).1 (by omega)

/-- C3: at every point of a run at most one job of `currentItems`, and of
`downloadQueue.items`, has status `fetching` or `saving`; a job that is no
longer `pending` comes after jobs that are all over; and a step that takes job
`j + 1` from `pending` to `fetching` finds job `j` already `success` or `error`. -/
theorem one_job_at_a_time (mediaType : String) (results : List MediaItem)
    (selectedIds : List Nat) (es : List Event) (s : State)
    (h : run mediaType results selectedIds es = some s) :
    AtMostOneActive s.currentItems ∧ AtMostOneActive s.downloadQueue.items ∧
    (∀ (j : Nat) (a b : Item), s.currentItems[j]? = some a → s.currentItems[j + 1]? = some b →
      b.status ≠ Status.pending → a.status.terminal = true) ∧
    (∀ (e : Event) (s1 : State) (j : Nat) (a b b1 : Item), step s e = some s1 →
      s.currentItems[j]? = some a → s.currentItems[j + 1]? = some b →
      s1.currentItems[j + 1]? = some b1 → b.status = Status.pending →
      b1.status = Status.fetching → a.status.terminal = true) := by
  have hinv := inv_run h
  obtain ⟨i, st, hsh⟩ := pcOK_shape hinv.2
  have hone := atMostOneActive_of_shape hsh
  refine ⟨hone, ?_, ordered_of_shape hsh, ?_⟩
  · rcases hinv.1.queue with hq | hq
    · rw [hq]; exact Nat.zero_le _
    · rw [hq]; exact hone
  · intro e s1 j a b b1 hstep ha hb hb1 hpend hfetch
    rcases step_change hinv hstep with heq | ⟨k, f, hidx, heq, _, _⟩
    · rw [heq, hb] at hb1
      cases hb1
      rw [hpend] at hfetch; cases hfetch
    · rw [heq] at hb1
      obtain ⟨b0, hb0, hb1eq⟩ := getElem?_mapAt_zero f k (j + 1) _ b1 hb1
      rw [hb] at hb0; cases hb0
      by_cases hk : j + 1 = k
      · obtain ⟨st1, hsh1⟩ := pcOK_shape_index hinv.2 hidx
        exact (hsh1 j a ha).1 (by omega)
      · rw [if_neg hk] at hb1eq
        rw [hb1eq, hpend] at hfetch; cases hfetch

/-- C3 at the point where job 1 of two jobs is being fetched after job 0 failed. -/
theorem one_job_at_a_time_witness :
    ∃ s, run "video" [sampleVideo 1 "https://x/a.mp4", sampleVideo 2 "https://x/b.mp4"] [1, 2]
        [Event.tau, Event.tau, Event.fetchFailed "TypeError", Event.tau] = some s ∧
      AtMostOneActive s.currentItems ∧ AtMostOneActive s.downloadQueue.items ∧
      (∀ (j : Nat) (a b : Item), s.currentItems[j]? = some a →
        s.currentItems[j + 1]? = some b →
        b.status ≠ Status.pending → a.status.terminal = true) ∧
      (∀ (e : Event) (s1 : State) (j : Nat) (a b b1 : Item), step s e = some s1 →
        s.currentItems[j]? = some a → s.currentItems[j + 1]? = some b →
        s1.currentItems[j + 1]? = some b1 → b.status = Status.pending →
        b1.status = Status.fetching → a.status.terminal = true) :=
  ⟨_, rfl, one_job_at_a_time "video"
    [sampleVideo 1 "https://x/a.mp4", sampleVideo 2 "https://x/b.mp4"] [1, 2]
    [Event.tau, Event.tau, Event.fetchFailed "TypeError", Event.tau] _ rfl⟩

/-- C1, evaluated: `stopDownload()` called while job 0 of two jobs is `fetching`
marks job 0 `error`, sets `processing` to `false`, and the loop then replaces the
controller and sets job 1 to `fetching` with a fresh, un-aborted signal: job 1
does not stay `pending` and the loop does not exit. -/
theorem stopDownload_while_fetching_starts_next_job :
    (run "video" [sampleVideo 1 "https://x/a.mp4", sampleVideo 2 "https://x/b.mp4"] [1, 2]
        [Event.tau, Event.tau]).map
      (fun s => (s.currentItems.map Item.status, s.downloadQueue.processing))
      = some ([Status.fetching, Status.pending], true) ∧
    (run "video" [sampleVideo 1 "https://x/a.mp4", sampleVideo 2 "https://x/b.mp4"] [1, 2]
        [Event.tau, Event.tau, Event.stopDownload, Event.tau, Event.tau, Event.tau]).map
      (fun s => (s.currentItems.map Item.status, s.currentItems.map Item.errorMsg,
        s.downloadQueue.processing, s.abortControllerRef, signalAborted s, s.pc.suspended,
        s.trace.head?))
      = some ([Status.error, Status.fetching], [msgAborted, ""], false, some 1, false, true,
          some (Effect.fetch 1 "https://x/b.mp4" 1)) := by
  exact ⟨rfl, rfl⟩

/-! ## Runs without failure (C4) -/

theorem signalAborted_congr {s s1 : State} (hr : s1.abortControllerRef = s.abortControllerRef)
    (ha : s1.abortedSignals = s.abortedSignals) : signalAborted s1 = signalAborted s := by
  unfold signalAborted
  rw [hr, ha]

theorem linked_mapAt {items : List Item} {i : Nat} {f : Item → Item}
    (h : ∀ (j : Nat) (it : Item), items[j]? = some it → it.hasLink = true →
      it.status ≠ Status.error)
    (hf : ∀ a, items[i]? = some a → (f a).hasLink = true → (f a).status ≠ Status.error) :
    ∀ (j : Nat) (it : Item), (mapAt f i 0 items)[j]? = some it → it.hasLink = true →
      it.status ≠ Status.error := by
  intro j b hb hl
  obtain ⟨a, ha, rfl⟩ := getElem?_mapAt_zero f i j items b hb
  by_cases hji : j = i
  · subst hji
    rw [if_pos rfl] at hl ⊢
    exact hf a ha hl
  · rw [if_neg hji] at hl ⊢
    exact h j a ha hl

/-- An event without failure keeps the additional invariant. -/
theorem happy_step {items0 : List Item} {s s1 : State} {e : Event} (h : Inv items0 s)
    (hh : HappyInv s) (he : e.happy = true) (hstep : step s e = some s1) : HappyInv s1 := by
  obtain ⟨hb, hp⟩ := h
  unfold PcOK at hp
  cases e with
  | tau =>
    cases hpc : s.pc with
    | loopTop i =>
      rw [hpc] at hp
      rw [step_loopTop hpc] at hstep
      cases hstep
      obtain ⟨hle, hsh, _⟩ := hp
      by_cases hi : i < s.currentItems.length
      · rw [loopHead_go hi hh.clear]
        exact
          { clear := hh.clear
            notRejected := fun k hk => by cases hk
            shown := rfl
            linked := linked_mapAt hh.linked (fun a _ _ => by simp)
            finished := fun hd => by cases hd }
      · rw [loopHead_end hi]
        exact
          { clear := hh.clear
            notRejected := fun k hk => by cases hk
            shown := hh.shown
            linked := hh.linked
            finished := fun _ j it hj => by
              have hj' : s.currentItems[j]? = some it := hj
              have hjlt : j < s.currentItems.length := by
                rcases Nat.lt_or_ge j s.currentItems.length with hlt | hge
                · exact hlt
                · rw [List.getElem?_eq_none hge] at hj'; cases hj'
              exact (hsh j it hj').1 (by omega) }
    | started i =>
      rw [hpc] at hp
      rw [step_started hpc] at hstep
      cases hstep
      obtain ⟨hi, hsh, c, hc, _⟩ := hp
      obtain ⟨item, hitem⟩ := getElem?_of_lt hi
      cases hl : item.hasLink with
      | false =>
        rw [tryFetch_noLink hitem hc hl, catchBlock_clear _ i s hh.clear]
        exact
          { clear := hh.clear
            notRejected := fun k hk => by cases hk
            shown := rfl
            linked := linked_mapAt hh.linked (fun a ha hla => by
              rw [hitem] at ha; cases ha
              rw [hasLink_of_seed (seed_withError _ item), hl] at hla
              cases hla)
            finished := fun hd => by cases hd }
      | true =>
        obtain ⟨link, _, heq⟩ := tryFetch_link hitem hc hl
        rw [heq]
        exact
          { clear := hh.clear
            notRejected := fun k hk => by cases hk
            shown := hh.shown
            linked := hh.linked
            finished := fun hd => by cases hd }
    | rejected i => exact absurd hpc (hh.notRejected i)
    | idle => simp [step, hpc] at hstep
    | awaitFetch i item c t => simp [step, hpc] at hstep
    | awaitBlob i item c => simp [step, hpc] at hstep
    | awaitDelay i => simp [step, hpc] at hstep
    | done => simp [step, hpc] at hstep
  | fetchResponse status =>
    have hok : 200 ≤ status ∧ status ≤ 299 := by simpa [Event.happy] using he
    cases hpc : s.pc with
    | awaitFetch i item c t =>
      rw [hpc] at hp
      obtain ⟨hi, hsh, hc, hnab, _⟩ := hp
      rw [step_fetchOk status hpc hnab hok] at hstep
      cases hstep
      exact
        { clear := hh.clear
          notRejected := fun k hk => by cases hk
          shown := rfl
          linked := linked_mapAt hh.linked (fun a _ _ => by simp)
          finished := fun hd => by cases hd }
    | idle => simp [step, hpc] at hstep
    | loopTop i => simp [step, hpc] at hstep
    | started i => simp [step, hpc] at hstep
    | rejected i => simp [step, hpc] at hstep
    | awaitBlob i item c => simp [step, hpc] at hstep
    | awaitDelay i => simp [step, hpc] at hstep
    | done => simp [step, hpc] at hstep
  | blobReady =>
    cases hpc : s.pc with
    | awaitBlob i item c =>
      rw [hpc] at hp
      obtain ⟨hi, hsh, hc, hnab, _⟩ := hp
      rw [step_blobReady hpc hnab] at hstep
      cases hstep
      exact
        { clear := hh.clear
          notRejected := fun k hk => by cases hk
          shown := rfl
          linked := linked_mapAt hh.linked (fun a _ _ => by simp)
          finished := fun hd => by cases hd }
    | idle => simp [step, hpc] at hstep
    | loopTop i => simp [step, hpc] at hstep
    | started i => simp [step, hpc] at hstep
    | rejected i => simp [step, hpc] at hstep
    | awaitFetch i item c t => simp [step, hpc] at hstep
    | awaitDelay i => simp [step, hpc] at hstep
    | done => simp [step, hpc] at hstep
  | delayElapsed =>
    cases hpc : s.pc with
    | awaitDelay i =>
      rw [step_delayElapsed hpc] at hstep
      cases hstep
      exact
        { clear := hh.clear
          notRejected := fun k hk => by cases hk
          shown := hh.shown
          linked := hh.linked
          finished := fun hd => by cases hd }
    | idle => simp [step, hpc] at hstep
    | loopTop i => simp [step, hpc] at hstep
    | started i => simp [step, hpc] at hstep
    | rejected i => simp [step, hpc] at hstep
    | awaitFetch i item c t => simp [step, hpc] at hstep
    | awaitBlob i item c => simp [step, hpc] at hstep
    | done => simp [step, hpc] at hstep
  | fetchFailed msg => cases he
  | blobFailed msg => cases he
  | timerFired id => cases he
  | stopDownload => cases he
  | closeQueue => cases he

/-- Events without failure keep both invariants. -/
theorem happy_exec {items0 : List Item} :
    ∀ (es : List Event) (s s1 : State), Inv items0 s → HappyInv s →
      (∀ e ∈ es, e.happy = true) → exec s es = some s1 → Inv items0 s1 ∧ HappyInv s1 := by
  intro es
  induction es with
  | nil => intro s s1 h hh _ he; cases he; exact ⟨h, hh⟩
  | cons e es ih =>
    intro s s1 h hh hall he
    unfold exec at he
    cases hs : step s e with
    | none => rw [hs] at he; cases he
    | some s2 =>
      rw [hs] at he
      exact ih s2 s1 (inv_step h e hs)
        (happy_step h hh (hall e (List.mem_cons_self _ _)) hs)
        (fun e1 he1 => hall e1 (List.mem_cons_of_mem _ he1)) he
theorem exec_cons_of_step {s s1 : State} {e : Event} (es : List Event)
    (h : step s e = some s1) : exec s (e :: es) = exec s1 es := by
  simp [exec, h]

theorem seeds_getElem? {l l0 : List Item} (h : l.map seed = l0.map seed) {j : Nat} {a0 : Item}
    (ha0 : l0[j]? = some a0) : ∃ a, l[j]? = some a ∧ seed a = seed a0 := by
  have h1 : (l.map seed)[j]? = (l0.map seed)[j]? := by rw [h]
  rw [List.getElem?_map, List.getElem?_map, ha0] at h1
  cases ha : l[j]? with
  | none => rw [ha] at h1; cases h1
  | some a =>
    rw [ha] at h1
    exact ⟨a, rfl, by simpa using h1⟩

/-- The data invariant at the start of `processQueue` on pending items. -/
theorem inv_openQueue (items : List Item) (hpend : ∀ it ∈ items, it.status = Status.pending) :
    Inv items (openQueue items init) := by
  have hp : ∀ (j : Nat) (it : Item), items[j]? = some it → it.status = Status.pending :=
    fun j it hj => hpend it (List.getElem?_mem hj)
  exact ⟨base_openQueue items hp, Nat.zero_le _, shape_of_pending hp, 0, rfl⟩

theorem happy_openQueue (items : List Item) (hpend : ∀ it ∈ items, it.status = Status.pending) :
    HappyInv (openQueue items init) where
  clear := rfl
  notRejected := fun i hi => by cases hi
  shown := rfl
  linked := fun j it hj _ => by
    have hj : items[j]? = some it := hj
    rw [hpend it (List.getElem?_mem hj)]
    decide
  finished := fun hd => by cases hd

/-- At the loop test with jobs left and the signal not aborted, the loop goes on. -/
theorem progress_loopTop {s : State} {i : Nat} (hpc : s.pc = Pc.loopTop i)
    (hi : i < s.currentItems.length) (hab : signalAborted s = false) :
    ∃ s1, step s Event.tau = some s1 ∧ s1.pc = Pc.started i :=
  ⟨_, by rw [step_loopTop hpc, loopHead_go hi hab], rfl⟩

/-- A started job without link fails in the next block. -/
theorem progress_noLink {items0 : List Item} {s : State} {i : Nat} {item : Item}
    (h : Inv items0 s) (hpc : s.pc = Pc.started i) (hitem : s.currentItems[i]? = some item)
    (hl : item.hasLink = false) :
    ∃ s1, step s Event.tau = some s1 ∧ s1.pc = Pc.loopTop (i + 1) := by
  have hp := h.2
  unfold PcOK at hp
  rw [hpc] at hp
  obtain ⟨_, _, c, hc, _⟩ := hp
  exact ⟨_, by rw [step_started hpc, tryFetch_noLink hitem hc hl], catchBlock_pc _ _ _⟩

/-- A started job with a link is fetched in the next block. -/
theorem progress_link {items0 : List Item} {s : State} {i : Nat} {item : Item}
    (h : Inv items0 s) (hpc : s.pc = Pc.started i) (hitem : s.currentItems[i]? = some item)
    (hl : item.hasLink = true) :
    ∃ s1 c t, step s Event.tau = some s1 ∧ s1.pc = Pc.awaitFetch i item c t := by
  have hp := h.2
  unfold PcOK at hp
  rw [hpc] at hp
  obtain ⟨_, _, c, hc, _⟩ := hp
  obtain ⟨link, _, heq⟩ := tryFetch_link hitem hc hl
  exact ⟨_, c, s.nextTimer, by rw [step_started hpc, heq], rfl⟩

/-- A pending `fetch` can be answered with a success status. -/
theorem progress_fetchOk {items0 : List Item} {s : State} {i : Nat} {item : Item} {c t : Nat}
    (h : Inv items0 s) (hpc : s.pc = Pc.awaitFetch i item c t) (status : Nat)
    (hok : 200 ≤ status ∧ status ≤ 299) :
    ∃ s1, step s (Event.fetchResponse status) = some s1 ∧ s1.pc = Pc.awaitBlob i item c := by
  have hp := h.2
  unfold PcOK at hp
  rw [hpc] at hp
  obtain ⟨_, _, _, hnab, _⟩ := hp
  exact ⟨_, step_fetchOk status hpc hnab hok, rfl⟩

/-- A pending body read can succeed. -/
theorem progress_blobReady {items0 : List Item} {s : State} {i : Nat} {item : Item} {c : Nat}
    (h : Inv items0 s) (hpc : s.pc = Pc.awaitBlob i item c) :
    ∃ s1, step s Event.blobReady = some s1 ∧ s1.pc = Pc.awaitDelay i := by
  have hp := h.2
  unfold PcOK at hp
  rw [hpc] at hp
  obtain ⟨_, _, _, hnab, _⟩ := hp
  exact ⟨_, step_blobReady hpc hnab, rfl⟩

/-- From the loop test for job `i` on, the events without failure are all
enabled and lead to the return of `processQueue`. -/
theorem happy_terminates {items0 : List Item} :
    ∀ (flags : List Bool) (i : Nat) (s : State), Inv items0 s → HappyInv s →
      s.pc = Pc.loopTop i → i + flags.length = items0.length →
      (∀ (k : Nat) (b : Bool), flags[k]? = some b →
        ∃ it, items0[i + k]? = some it ∧ it.hasLink = b) →
      ∃ s1, exec s (happyEvents flags) = some s1 ∧ s1.pc = Pc.done := by
  intro flags
  induction flags with
  | nil =>
    intro i s h hh hpc hlen _
    have hl : s.currentItems.length = items0.length := by
      have := congrArg List.length h.1.seeds
      simpa using this
    have hi : ¬ i < s.currentItems.length := by
      simp only [List.length_nil] at hlen
      omega
    refine ⟨exitLoop s, ?_, rfl⟩
    have hs : step s Event.tau = some (exitLoop s) := by
      rw [step_loopTop hpc, loopHead_end hi]
    show exec s [Event.tau] = _
    rw [exec_cons_of_step [] hs]
    rfl
  | cons b rest ih =>
    intro i s h hh hpc hlen hflags
    have hl : s.currentItems.length = items0.length := by
      have := congrArg List.length h.1.seeds
      simpa using this
    have hi : i < s.currentItems.length := by
      simp only [List.length_cons] at hlen
      omega
    have hrest : ∀ (k : Nat) (b1 : Bool), rest[k]? = some b1 →
        ∃ it, items0[i + 1 + k]? = some it ∧ it.hasLink = b1 := by
      intro k b1 hk
      have := hflags (k + 1) b1 (by simpa using hk)
      have e : i + (k + 1) = i + 1 + k := by omega
      rw [e] at this
      exact this
    have hlen1 : i + 1 + rest.length = items0.length := by
      simp only [List.length_cons] at hlen
      omega
    obtain ⟨it0, hit0, hb⟩ : ∃ it, items0[i]? = some it ∧ it.hasLink = b := by
      simpa using hflags 0 b (by simp)
    obtain ⟨s1, hs1, hpc1⟩ := progress_loopTop hpc hi hh.clear
    have h1 := inv_step h _ hs1
    have hh1 := happy_step (e := Event.tau) h hh rfl hs1
    obtain ⟨item, hitem, hseed⟩ := seeds_getElem? h1.1.seeds hit0
    have hlink : item.hasLink = b := by rw [hasLink_of_seed hseed]; exact hb
    cases b with
    | false =>
      obtain ⟨s2, hs2, hpc2⟩ := progress_noLink h1 hpc1 hitem hlink
      have h2 := inv_step h1 _ hs2
      have hh2 := happy_step (e := Event.tau) h1 hh1 rfl hs2
      obtain ⟨s3, he3, hd3⟩ := ih (i + 1) s2 h2 hh2 hpc2 hlen1 hrest
      refine ⟨s3, ?_, hd3⟩
      show exec s (Event.tau :: Event.tau :: happyEvents rest) = _
      rw [exec_cons_of_step _ hs1, exec_cons_of_step _ hs2]
      exact he3
    | true =>
      obtain ⟨s2, c, t, hs2, hpc2⟩ := progress_link h1 hpc1 hitem hlink
      have h2 := inv_step h1 _ hs2
      have hh2 := happy_step (e := Event.tau) h1 hh1 rfl hs2
      obtain ⟨s3, hs3, hpc3⟩ := progress_fetchOk h2 hpc2 200 (by decide)
      have h3 := inv_step h2 _ hs3
      have hh3 := happy_step (e := Event.fetchResponse 200) h2 hh2 rfl hs3
      obtain ⟨s4, hs4, hpc4⟩ := progress_blobReady h3 hpc3
      have h4 := inv_step h3 _ hs4
      have hh4 := happy_step (e := Event.blobReady) h3 hh3 rfl hs4
      have hs5 := step_delayElapsed hpc4
      have h5 := inv_step h4 _ hs5
      have hh5 := happy_step (e := Event.delayElapsed) h4 hh4 rfl hs5
      obtain ⟨s6, he6, hd6⟩ := ih (i + 1) _ h5 hh5 rfl hlen1 hrest
      refine ⟨s6, ?_, hd6⟩
      show exec s (Event.tau :: Event.tau :: Event.fetchResponse 200 :: Event.blobReady
        :: Event.delayElapsed :: happyEvents rest) = _
      rw [exec_cons_of_step _ hs1, exec_cons_of_step _ hs2, exec_cons_of_step _ hs3,
        exec_cons_of_step _ hs4, exec_cons_of_step _ hs5]
      exact he6
theorem terminal_cases {st : Status} (h : st.terminal = true) :
    st = Status.success ∨ st = Status.error := by
  cases st <;> first | exact Or.inl rfl | exact Or.inr rfl | cases h

/-- Counting the jobs shown as `success` when these are the jobs with a link. -/
theorem count_success :
    ∀ (l l0 : List Item), l.map seed = l0.map seed →
      (∀ it ∈ l, it.status = if it.hasLink then Status.success else Status.error) →
      (l.filter (fun it => it.status = Status.success)).length
        = (l0.filter Item.hasLink).length := by
  intro l
  induction l with
  | nil =>
    intro l0 hs _
    cases l0 with
    | nil => rfl
    | cons a0 r0 => cases hs
  | cons a r ih =>
    intro l0 hs hst
    cases l0 with
    | nil => cases hs
    | cons a0 r0 =>
      simp only [List.map_cons, List.cons.injEq] at hs
      have hrec := ih r0 hs.2 (fun it hit => hst it (List.mem_cons_of_mem _ hit))
      have ha := hst a (List.mem_cons_self _ _)
      have hl : a.hasLink = a0.hasLink := hasLink_of_seed hs.1
      cases hla : a0.hasLink with
      | true =>
        rw [hl, hla] at ha
        simp [List.filter_cons, ha, hla, hrec]
      | false =>
        rw [hl, hla] at ha
        simp [List.filter_cons, ha, hla, hrec]

/-- When `processQueue` has returned after events without failure, the outcome
is the claimed one. -/
theorem finishedOK_of_done {items0 : List Item} {s : State} (h : Inv items0 s)
    (hh : HappyInv s) (hd : s.pc = Pc.done) : FinishedOK items0 s := by
  have hp := h.2
  unfold PcOK at hp
  rw [hd] at hp
  have hst : ∀ (j : Nat) (it : Item), s.downloadQueue.items[j]? = some it →
      it.status = if it.hasLink then Status.success else Status.error := by
    intro j it hj
    rw [hh.shown] at hj
    have hterm := hh.finished hd j it hj
    cases hl : it.hasLink with
    | true =>
      rcases terminal_cases hterm with h1 | h1
      · simpa using h1
      · exact absurd h1 (hh.linked j it hj hl)
    | false =>
      rcases h.1.missing j it hj hl with h1 | h1 | h1
      · rw [h1] at hterm; cases hterm
      · rw [h1] at hterm; cases hterm
      · simpa using h1.1
  have hseeds : s.downloadQueue.items.map seed = items0.map seed := by
    rw [hh.shown]; exact h.1.seeds
  refine ⟨hp.2, hseeds, hst, ?_⟩
  unfold aggregate
  have hlen : s.downloadQueue.items.length = items0.length := by
    have := congrArg List.length hseeds
    simpa using this
  rw [hlen, count_success _ _ hseeds (fun it hit => by
    obtain ⟨n, hn⟩ := List.getElem?_of_mem hit
    exact hst n it hn)]

theorem happyEvents_happy : ∀ (flags : List Bool), ∀ e ∈ happyEvents flags, e.happy = true := by
  intro flags
  induction flags with
  | nil => intro e he; simp [happyEvents] at he; subst he; rfl
  | cons b rest ih =>
    intro e he
    cases b with
    | true =>
      simp only [happyEvents, List.mem_cons] at he
      rcases he with rfl | rfl | rfl | rfl | rfl | he
      · rfl
      · rfl
      · rfl
      · rfl
      · rfl
      · exact ih e he
    | false =>
      simp only [happyEvents, List.mem_cons] at he
      rcases he with rfl | rfl | he
      · rfl
      · rfl
      · exact ih e he

/-- C4: on every seed list of pending jobs, the run in which nobody stops, no
timer fires and every fetch and body read succeeds reaches the return of
`processQueue`, there `processing` is `false`, every job with a link is shown
as `success` and every job without link as `error`, and the header shows the
number of jobs with a link over the number of jobs; the same holds whenever
`processQueue` has returned after any sequence of such events. -/
theorem run_without_failure (items : List Item)
    (hpend : ∀ it ∈ items, it.status = Status.pending) :
    (∃ s, exec (openQueue items init) (happyEvents (items.map Item.hasLink)) = some s ∧
      s.pc = Pc.done ∧ FinishedOK items s) ∧
    (∀ (es : List Event) (s : State), (∀ e ∈ es, e.happy = true) →
      exec (openQueue items init) es = some s → s.pc = Pc.done → FinishedOK items s) := by
  have hinv := inv_openQueue items hpend
  have hhappy := happy_openQueue items hpend
  have hgen : ∀ (es : List Event) (s : State), (∀ e ∈ es, e.happy = true) →
      exec (openQueue items init) es = some s → s.pc = Pc.done → FinishedOK items s := by
    intro es s hall he hd
    obtain ⟨h1, h2⟩ := happy_exec es _ s hinv hhappy hall he
    exact finishedOK_of_done h1 h2 hd
  refine ⟨?_, hgen⟩
  obtain ⟨s, he, hd⟩ := happy_terminates (items.map Item.hasLink) 0 _ hinv hhappy rfl
    (by simp) (fun k b hk => by
      rw [List.getElem?_map] at hk
      cases hit : items[k]? with
      | none => rw [hit] at hk; cases hk
      | some it =>
        rw [hit] at hk
        refine ⟨it, by simpa using hit, ?_⟩
        simpa using hk)
  exact ⟨s, he, hd, hgen _ s (happyEvents_happy _) he hd⟩

/-- C4 on the example of the specification: job 1 with a link, job 2 without;
the header ends at 1/2. -/
theorem run_without_failure_witness :
    (∀ it ∈ sampleSeed, it.status = Status.pending) ∧
    (∃ s, exec (openQueue sampleSeed init) (happyEvents (sampleSeed.map Item.hasLink)) = some s ∧
      s.pc = Pc.done ∧ FinishedOK sampleSeed s) ∧
    (sampleSeed.filter Item.hasLink).length = 1 ∧ sampleSeed.length = 2 ∧
    startBatchDownload "video" [sampleVideo 1 "https://x/a.mp4", sampleNoFile 2] [1, 2] init
      = openQueue sampleSeed init :=
  ⟨by decide, (run_without_failure sampleSeed (by decide)).1, rfl, rfl, rfl⟩

/-! ## Jobs without link (C5) -/

/-- C5 as stated fails: the only job of this run has no link, and after the
first block of the loop its status is `fetching`, handed to `setDownloadQueue`
(lines 263-266 run before the link test of line 271). -/
theorem missing_link_job_is_set_to_fetching :
    (run "video" [sampleNoFile 7] [7] [Event.tau]).map
      (fun s => (s.currentItems.map (fun it => (it.hasLink, it.status)), s.trace.head?))
      = some ([(false, Status.fetching)],
          some (Effect.setItems
            [Item.withStatus Status.fetching (queueItem "video" (sampleNoFile 7))])) :=
  rfl

/-- A job without link is `fetching` only right after line 266. -/
theorem started_of_fetching_noLink {items0 : List Item} {s : State} (h : Inv items0 s)
    {j : Nat} {it : Item} (hj : s.currentItems[j]? = some it) (hl : it.hasLink = false)
    (hf : it.status = Status.fetching) : s.pc = Pc.started j := by
  have hp := h.2
  unfold PcOK at hp
  have key : ∀ (i : Nat) (st : Status), Shape i st s.currentItems →
      j = i ∧ st = Status.fetching := by
    intro i st hsh
    obtain ⟨h1, h2, h3⟩ := hsh j it hj
    rcases Nat.lt_trichotomy j i with hlt | heq | hgt
    · have := h1 hlt
      rw [hf] at this; cases this
    · exact ⟨heq, by rw [← h2 heq, hf]⟩
    · have := h3 hgt
      rw [hf] at this; cases this
  cases hpc : s.pc with
  | idle => rw [hpc] at hp; rw [hp] at hj; cases hj
  | loopTop i => rw [hpc] at hp; cases (key i _ hp.2.1).2
  | started i => rw [hpc] at hp; rw [(key i _ hp.2.1).1]
  | awaitFetch i item c t =>
    rw [hpc] at hp
    obtain ⟨_, hsh, _, _, hitem, hhas, _⟩ := hp
    rw [← (key i _ hsh).1, hj] at hitem
    cases hitem
    rw [hl] at hhas; cases hhas
  | awaitBlob i item c => rw [hpc] at hp; cases (key i _ hp.2.1).2
  | rejected i =>
    rw [hpc] at hp
    obtain ⟨_, hsh, _, it1, hitem, hhas⟩ := hp
    rcases hsh with hsh | hsh
    · rw [← (key i _ hsh).1, hj] at hitem
      cases hitem
      rw [hl] at hhas; cases hhas
    · cases (key i _ hsh).2
  | awaitDelay i => rw [hpc] at hp; cases (key i _ hp.2.1).2
  | done =>
    rw [hpc] at hp
    obtain ⟨⟨k, _, hsh⟩, _⟩ := hp
    cases (key k _ hsh).2

/-- Right after line 266 only the synchronous code can run on. -/
theorem tau_of_started {s s1 : State} {j : Nat} {e : Event} (hpc : s.pc = Pc.started j)
    (hstep : step s e = some s1) : e = Event.tau := by
  cases e <;> first | rfl | simp [step, hpc, Pc.suspended] at hstep

/-- C5, amended: in every state of a run a job without link is `pending`, or
`fetching` with control right after line 266, or `error` with the generic
message; in the second case nothing but the synchronous code can run on, and it
marks the job `error` with the generic message; and the trace holds no `fetch`
and no `setTimeout` of that job. -/
theorem missing_link_fails_without_fetch (mediaType : String) (results : List MediaItem)
    (selectedIds : List Nat) (es : List Event) (s : State) (j : Nat) (it : Item)
    (h : run mediaType results selectedIds es = some s)
    (hj : s.currentItems[j]? = some it) (hl : it.hasLink = false) :
    (it.status = Status.pending ∨ (it.status = Status.fetching ∧ s.pc = Pc.started j) ∨
      (it.status = Status.error ∧ it.errorMsg = msgFailed)) ∧
    (s.pc = Pc.started j → ∀ (e : Event) (s1 : State), step s e = some s1 →
      e = Event.tau ∧ ∃ it1, s1.currentItems[j]? = some it1 ∧
        it1.status = Status.error ∧ it1.errorMsg = msgFailed) ∧
    (∀ (l : String) (c : Nat), Effect.fetch j l c ∉ s.trace) ∧
    (∀ (t ms : Nat), Effect.setTimeout t j ms ∉ s.trace) := by
  have hinv := inv_run h
  refine ⟨?_, ?_, ?_, ?_⟩
  · rcases hinv.1.missing j it hj hl with h1 | h1 | h1
    · exact Or.inl h1
    · exact Or.inr (Or.inl ⟨h1, started_of_fetching_noLink hinv hj hl h1⟩)
    · exact Or.inr (Or.inr h1)
  · intro hpc e s1 hstep
    have he := tau_of_started hpc hstep
    subst he
    refine ⟨rfl, ?_⟩
    have hp := hinv.2
    unfold PcOK at hp
    rw [hpc] at hp
    obtain ⟨_, _, c, hc, hnab⟩ := hp
    rw [step_started hpc, tryFetch_noLink hj hc hl,
      catchBlock_clear _ _ _ (signalAborted_eq_false hc hnab)] at hstep
    cases hstep
    exact ⟨it.withError msgFailed, getElem?_mapAt_self _ j _ it hj, rfl, rfl⟩
  · intro l c hmem
    obtain ⟨it1, hj1, hl1⟩ := hinv.1.fetched j l c hmem
    rw [hj] at hj1; cases hj1
    rw [hl] at hl1; cases hl1
  · intro t ms hmem
    obtain ⟨it1, hj1, hl1⟩ := hinv.1.timed t j ms hmem
    rw [hj] at hj1; cases hj1
    rw [hl] at hl1; cases hl1

/-- C5, amended, at the point where the job without link is `fetching`. -/
theorem missing_link_fails_without_fetch_witness :
    ∃ s it, run "video" [sampleNoFile 7] [7] [Event.tau] = some s ∧
      s.currentItems[0]? = some it ∧ it.hasLink = false ∧
      (it.status = Status.pending ∨ (it.status = Status.fetching ∧ s.pc = Pc.started 0) ∨
        (it.status = Status.error ∧ it.errorMsg = msgFailed)) ∧
      (s.pc = Pc.started 0 → ∀ (e : Event) (s1 : State), step s e = some s1 →
        e = Event.tau ∧ ∃ it1, s1.currentItems[0]? = some it1 ∧
          it1.status = Status.error ∧ it1.errorMsg = msgFailed) ∧
      (∀ (l : String) (c : Nat), Effect.fetch 0 l c ∉ s.trace) ∧
      (∀ (t ms : Nat), Effect.setTimeout t 0 ms ∉ s.trace) :=
  ⟨_, _, rfl, rfl, rfl,
    missing_link_fails_without_fetch "video" [sampleNoFile 7] [7] [Event.tau] _ 0 _ rfl rfl rfl⟩

/-! ## The timeout of a job (C6) -/

@[simp] theorem rejectIfAborted_ref (s : State) :
    (rejectIfAborted s).abortControllerRef = s.abortControllerRef := by
  unfold rejectIfAborted
  split
  · split <;> rfl
  · split <;> rfl
  · rfl

@[simp] theorem rejectIfAborted_abortedSignals (s : State) :
    (rejectIfAborted s).abortedSignals = s.abortedSignals := by
  unfold rejectIfAborted
  split
  · split <;> rfl
  · split <;> rfl
  · rfl

@[simp] theorem rejectIfAborted_nextController (s : State) :
    (rejectIfAborted s).nextController = s.nextController := by
  unfold rejectIfAborted
  split
  · split <;> rfl
  · split <;> rfl
  · rfl

@[simp] theorem rejectIfAborted_trace (s : State) :
    (rejectIfAborted s).trace = s.trace := by
  unfold rejectIfAborted
  split
  · split <;> rfl
  · split <;> rfl
  · rfl

/-- An abort of the signal bound to the pending `fetch` rejects it. -/
theorem rejectIfAborted_fetch {s : State} {i : Nat} {item : Item} {c t : Nat}
    (hpc : s.pc = Pc.awaitFetch i item c t) (hc : c ∈ s.abortedSignals) :
    (rejectIfAborted s).pc = Pc.rejected i := by
  unfold rejectIfAborted
  rw [hpc]
  simp [hc]

/-- An abort of the signal bound to the pending body read rejects it. -/
theorem rejectIfAborted_blob {s : State} {i : Nat} {item : Item} {c : Nat}
    (hpc : s.pc = Pc.awaitBlob i item c) (hc : c ∈ s.abortedSignals) :
    (rejectIfAborted s).pc = Pc.rejected i := by
  unfold rejectIfAborted
  rw [hpc]
  simp [hc]

/-- Where no promise is pending, an abort leaves the control point alone. -/
theorem rejectIfAborted_pc_of_not_pending {s : State}
    (h1 : ∀ i item c t, s.pc ≠ Pc.awaitFetch i item c t)
    (h2 : ∀ i item c, s.pc ≠ Pc.awaitBlob i item c) : (rejectIfAborted s).pc = s.pc := by
  unfold rejectIfAborted
  split
  · next i item c t heq => exact absurd heq (h1 i item c t)
  · next i item c heq => exact absurd heq (h2 i item c)
  · rfl

@[simp] theorem loopHead_timers (i : Nat) (s : State) : (loopHead i s).timers = s.timers := by
  unfold loopHead
  split
  · split <;> rfl
  · rfl

@[simp] theorem loopHead_nextTimer (i : Nat) (s : State) :
    (loopHead i s).nextTimer = s.nextTimer := by
  unfold loopHead
  split
  · split <;> rfl
  · rfl

/-- The block that calls `fetch` adds at most the fresh timer. -/
theorem tryFetch_timers (i : Nat) (s : State) :
    s.nextTimer ≤ (tryFetch i s).nextTimer ∧
    ∀ t ∈ (tryFetch i s).timers, t ∈ s.timers ∨ s.nextTimer ≤ t := by
  have hsame : ∀ err, s.nextTimer ≤ (catchBlock err i s).nextTimer ∧
      ∀ t ∈ (catchBlock err i s).timers, t ∈ s.timers ∨ s.nextTimer ≤ t := by
    intro err
    rw [catchBlock_timers, catchBlock_nextTimer]
    exact ⟨Nat.le_refl _, fun t ht => Or.inl ht⟩
  unfold tryFetch
  split
  · next item c _ _ =>
    split
    · exact hsame _
    · split
      · exact hsame _
      · refine ⟨Nat.le_succ _, fun t ht => ?_⟩
        rcases List.mem_cons.1 ht with rfl | ht
        · exact Or.inr (Nat.le_refl _)
        · exact Or.inl ht
  · exact hsame _

/-- A step arms fresh timers only. -/
theorem timers_step {s s1 : State} {e : Event} (hstep : step s e = some s1) :
    s.nextTimer ≤ s1.nextTimer ∧ ∀ t ∈ s1.timers, t ∈ s.timers ∨ s.nextTimer ≤ t := by
  have hsame : ∀ {s2 : State}, s2.timers = s.timers → s2.nextTimer = s.nextTimer →
      s.nextTimer ≤ s2.nextTimer ∧ ∀ t ∈ s2.timers, t ∈ s.timers ∨ s.nextTimer ≤ t := by
    intro s2 h1 h2
    rw [h1, h2]
    exact ⟨Nat.le_refl _, fun t ht => Or.inl ht⟩
  have herase : ∀ {s2 : State} (t0 : Nat), s2.timers = s.timers.erase t0 →
      s2.nextTimer = s.nextTimer →
      s.nextTimer ≤ s2.nextTimer ∧ ∀ t ∈ s2.timers, t ∈ s.timers ∨ s.nextTimer ≤ t := by
    intro s2 t0 h1 h2
    rw [h1, h2]
    exact ⟨Nat.le_refl _, fun t ht => Or.inl (List.mem_of_mem_erase ht)⟩
  cases e with
  | tau =>
    cases hpc : s.pc with
    | loopTop i =>
      rw [step_loopTop hpc] at hstep; cases hstep
      exact hsame (by simp) (by simp)
    | started i =>
      rw [step_started hpc] at hstep; cases hstep
      exact tryFetch_timers i s
    | rejected i =>
      rw [step_rejected hpc] at hstep; cases hstep
      exact hsame (by simp) (by simp)
    | idle => simp [step, hpc] at hstep
    | awaitFetch i item c t => simp [step, hpc] at hstep
    | awaitBlob i item c => simp [step, hpc] at hstep
    | awaitDelay i => simp [step, hpc] at hstep
    | done => simp [step, hpc] at hstep
  | fetchResponse status =>
    cases hpc : s.pc with
    | awaitFetch i item c t =>
      by_cases hnab : c ∈ s.abortedSignals
      · simp [step, hpc, hnab] at hstep
      · by_cases hok : 200 ≤ status ∧ status ≤ 299
        · rw [step_fetchOk status hpc hnab hok] at hstep; cases hstep
          exact herase t rfl rfl
        · rw [step_fetchBad status hpc hnab hok] at hstep; cases hstep
          exact herase t (by simp) (by simp)
    | idle => simp [step, hpc] at hstep
    | loopTop i => simp [step, hpc] at hstep
    | started i => simp [step, hpc] at hstep
    | rejected i => simp [step, hpc] at hstep
    | awaitBlob i item c => simp [step, hpc] at hstep
    | awaitDelay i => simp [step, hpc] at hstep
    | done => simp [step, hpc] at hstep
  | fetchFailed msg =>
    cases hpc : s.pc with
    | awaitFetch i item c t =>
      by_cases hnab : c ∈ s.abortedSignals
      · simp [step, hpc, hnab] at hstep
      · rw [step_fetchFailed msg hpc hnab] at hstep; cases hstep
        exact hsame (by simp) (by simp)
    | idle => simp [step, hpc] at hstep
    | loopTop i => simp [step, hpc] at hstep
    | started i => simp [step, hpc] at hstep
    | rejected i => simp [step, hpc] at hstep
    | awaitBlob i item c => simp [step, hpc] at hstep
    | awaitDelay i => simp [step, hpc] at hstep
    | done => simp [step, hpc] at hstep
  | blobReady =>
    cases hpc : s.pc with
    | awaitBlob i item c =>
      by_cases hnab : c ∈ s.abortedSignals
      · simp [step, hpc, hnab] at hstep
      · rw [step_blobReady hpc hnab] at hstep; cases hstep
        exact hsame rfl rfl
    | idle => simp [step, hpc] at hstep
    | loopTop i => simp [step, hpc] at hstep
    | started i => simp [step, hpc] at hstep
    | rejected i => simp [step, hpc] at hstep
    | awaitFetch i item c t => simp [step, hpc] at hstep
    | awaitDelay i => simp [step, hpc] at hstep
    | done => simp [step, hpc] at hstep
  | blobFailed msg =>
    cases hpc : s.pc with
    | awaitBlob i item c =>
      by_cases hnab : c ∈ s.abortedSignals
      · simp [step, hpc, hnab] at hstep
      · rw [step_blobFailed msg hpc hnab] at hstep; cases hstep
        exact hsame (by simp) (by simp)
    | idle => simp [step, hpc] at hstep
    | loopTop i => simp [step, hpc] at hstep
    | started i => simp [step, hpc] at hstep
    | rejected i => simp [step, hpc] at hstep
    | awaitFetch i item c t => simp [step, hpc] at hstep
    | awaitDelay i => simp [step, hpc] at hstep
    | done => simp [step, hpc] at hstep
  | delayElapsed =>
    cases hpc : s.pc with
    | awaitDelay i =>
      rw [step_delayElapsed hpc] at hstep; cases hstep
      exact hsame rfl rfl
    | idle => simp [step, hpc] at hstep
    | loopTop i => simp [step, hpc] at hstep
    | started i => simp [step, hpc] at hstep
    | rejected i => simp [step, hpc] at hstep
    | awaitFetch i item c t => simp [step, hpc] at hstep
    | awaitBlob i item c => simp [step, hpc] at hstep
    | done => simp [step, hpc] at hstep
  | timerFired id =>
    by_cases hg : s.pc.suspended = true ∧ id ∈ s.timers
    · rw [step_timerFired hg.1 hg.2] at hstep; cases hstep
      exact herase id (by simp) (by simp)
    · simp [step] at hstep
      exact absurd ⟨hstep.1.1, hstep.1.2⟩ hg
  | stopDownload =>
    by_cases hg : s.pc.suspended = true
    · rw [step_stopDownload hg] at hstep; cases hstep
      exact hsame (by simp [stopDownloadBody]) (by simp [stopDownloadBody])
    · simp [step, hg] at hstep
  | closeQueue =>
    by_cases hg : s.pc.suspended = true
    · rw [step_closeQueue hg] at hstep; cases hstep
      exact hsame (by simp [closeQueueBody, stopDownloadBody])
        (by simp [closeQueueBody, stopDownloadBody])
    · simp [step, hg] at hstep

/-- A timer that has fired or was cleared never fires again. -/
theorem timer_never_fires_again (t : Nat) :
    ∀ (es : List Event) (s s1 : State), exec s es = some s1 → t ∉ s.timers →
      t < s.nextTimer → Event.timerFired t ∉ es := by
  intro es
  induction es with
  | nil => intro s s1 _ _ _ hmem; cases hmem
  | cons e es ih =>
    intro s s1 he hnot hlt hmem
    unfold exec at he
    cases hs : step s e with
    | none => rw [hs] at he; cases he
    | some s2 =>
      rw [hs] at he
      obtain ⟨hle, hts⟩ := timers_step hs
      rcases List.mem_cons.1 hmem with heq | hmem
      · subst heq
        simp [step] at hs
        exact hnot hs.1.2
      · refine ih s2 s1 he (fun hin => ?_) (by omega) hmem
        rcases hts t hin with h1 | h1
        · exact hnot h1
        · omega
/-- The `catch` block under an aborted signal installs the next controller. -/
theorem catchBlock_ref_aborted (err : String) (i : Nat) (s : State)
    (h : signalAborted s = true) :
    (catchBlock err i s).abortControllerRef = some s.nextController := by
  rw [catchBlock_aborted err i s h]; rfl

/-- The `catch` block under a signal that is not aborted keeps the controller. -/
theorem catchBlock_ref_clear (err : String) (i : Nat) (s : State)
    (h : signalAborted s = false) :
    (catchBlock err i s).abortControllerRef = s.abortControllerRef ∧
    (catchBlock err i s).nextController = s.nextController := by
  rw [catchBlock_clear err i s h]; exact ⟨rfl, rfl⟩

/-- At the loop test with a job left and a signal that is not aborted, the
next block sets that job to `fetching` and keeps the controller. -/
theorem start_next_job {s : State} {k : Nat} (hpc : s.pc = Pc.loopTop k)
    (hk : k < s.currentItems.length) (hab : signalAborted s = false) :
    ∃ s1 it, step s Event.tau = some s1 ∧ s1.pc = Pc.started k ∧
      s1.currentItems[k]? = some it ∧ it.status = Status.fetching ∧
      signalAborted s1 = false ∧ s1.abortControllerRef = s.abortControllerRef := by
  obtain ⟨a, ha⟩ := getElem?_of_lt hk
  refine ⟨{ setItem k (Item.withStatus Status.fetching) s with pc := Pc.started k },
    a.withStatus Status.fetching, by rw [step_loopTop hpc, loopHead_go hk hab], rfl,
    getElem?_mapAt_self _ k _ a ha, rfl, ?_, rfl⟩
  exact hab

/-- The two texts of line 315 differ: the one for an aborted signal is not the
generic one. -/
theorem msgAborted_ne_msgFailed : msgAborted ≠ msgFailed := by
  decide

/-- C6: when the 60 s timer of job `i` fires while the `fetch` of job `i` is
pending, the `fetch` is rejected, the `catch` block marks job `i` `error` with
the message for timeouts, the text `超时或被取消`, which is not the generic text
`失败`, replaces the controller by a fresh one whose signal
is not aborted, and control is at the loop test for job `i + 1`; if there is a
job `i + 1`, the next block sets it to `fetching` under that un-aborted signal;
and the timer of job `i` never fires again in any continuation of the run. -/
theorem timeout_rearms (mediaType : String) (results : List MediaItem)
    (selectedIds : List Nat) (es : List Event) (s : State) (i : Nat) (item : Item) (c t : Nat)
    (h : run mediaType results selectedIds es = some s)
    (hpc : s.pc = Pc.awaitFetch i item c t) :
    ∃ s1 s2, step s (Event.timerFired t) = some s1 ∧ s1.pc = Pc.rejected i ∧
      c ∈ s1.abortedSignals ∧ step s1 Event.tau = some s2 ∧
      (∃ it, s2.currentItems[i]? = some it ∧ it.status = Status.error ∧
        it.errorMsg = msgAborted ∧ it.errorMsg = "超时或被取消" ∧
        it.errorMsg ≠ msgFailed ∧ it.errorMsg ≠ "失败") ∧
      (∃ c1, s2.abortControllerRef = some c1 ∧ c1 ≠ c ∧ c1 ∉ s2.abortedSignals) ∧
      s2.pc = Pc.loopTop (i + 1) ∧
      (i + 1 < s2.currentItems.length →
        ∃ s3 it1, step s2 Event.tau = some s3 ∧ s3.pc = Pc.started (i + 1) ∧
          s3.currentItems[i + 1]? = some it1 ∧ it1.status = Status.fetching ∧
          signalAborted s3 = false ∧ s3.abortControllerRef = s2.abortControllerRef) ∧
      (∀ (es1 : List Event) (s4 : State), exec s2 es1 = some s4 →
        Event.timerFired t ∉ es1) := by
  have hinv := inv_run h
  have hp := hinv.2
  unfold PcOK at hp
  rw [hpc] at hp
  obtain ⟨hi, hsh, hc, hnab, hitem, hhas, ht⟩ := hp
  have hsusp : s.pc.suspended = true := by rw [hpc]; rfl
  have hs1 := step_timerFired hsusp ht
  have hinv1 := inv_step hinv _ hs1
  have hmem : c ∈ (abortCurrent { s with timers := s.timers.erase t }).abortedSignals :=
    mem_abortCurrent (s := { s with timers := s.timers.erase t }) hc
  have hpc1 : (rejectIfAborted (abortCurrent { s with timers := s.timers.erase t })).pc
      = Pc.rejected i :=
    rejectIfAborted_fetch
      (show (abortCurrent { s with timers := s.timers.erase t }).pc = Pc.awaitFetch i item c t by
        simp [hpc]) hmem
  have href1 :
      (rejectIfAborted (abortCurrent { s with timers := s.timers.erase t })).abortControllerRef
        = some c := by simp [hc]
  have hab1 : signalAborted (rejectIfAborted (abortCurrent { s with timers := s.timers.erase t }))
      = true := signalAborted_eq_true href1 (by simpa using hmem)
  have hs2 := step_rejected hpc1
  have hinv2 := inv_step hinv1 _ hs2
  obtain ⟨a, ha⟩ := getElem?_of_lt hi
  refine ⟨_, _, hs1, hpc1, by simpa using hmem, hs2, ?_, ?_, catchBlock_pc _ _ _, ?_, ?_⟩
  · refine ⟨a.withError msgAborted, ?_, rfl, rfl, rfl, msgAborted_ne_msgFailed,
      msgAborted_ne_msgFailed⟩
    rw [catchBlock_currentItems, hab1]
    exact getElem?_mapAt_self _ i _ a (by simpa using ha)
  · refine ⟨_, catchBlock_ref_aborted _ _ _ hab1, ?_, ?_⟩
    · have := hinv1.1.refFresh c href1
      omega
    · intro hin
      rw [catchBlock_abortedSignals] at hin
      have := hinv1.1.abortedFresh _ hin
      omega
  · intro hlt
    have hclear : signalAborted (catchBlock "AbortError" i
        (rejectIfAborted (abortCurrent { s with timers := s.timers.erase t }))) = false := by
      refine signalAborted_eq_false (catchBlock_ref_aborted _ _ _ hab1) ?_
      intro hin
      rw [catchBlock_abortedSignals] at hin
      have := hinv1.1.abortedFresh _ hin
      omega
    exact start_next_job (catchBlock_pc _ _ _) hlt hclear
  · intro es1 s4 he
    refine timer_never_fires_again t es1 _ s4 he ?_ ?_
    · rw [catchBlock_timers]
      simp only [rejectIfAborted_timers, abortCurrent_timers]
      exact fun hin => (List.Nodup.mem_erase_iff hinv.1.timersNodup).1 hin |>.1 rfl
    · rw [catchBlock_nextTimer]
      simp only [rejectIfAborted_nextTimer, abortCurrent_nextTimer]
      exact hinv.1.timersFresh t ht

/-- C6 on two jobs: the timer of job 0 fires while job 0 is being fetched. -/
theorem timeout_rearms_witness :
    ∃ s item c t,
      run "video" [sampleVideo 1 "https://x/a.mp4", sampleVideo 2 "https://x/b.mp4"] [1, 2]
        [Event.tau, Event.tau] = some s ∧ s.pc = Pc.awaitFetch 0 item c t ∧
      ∃ s1 s2, step s (Event.timerFired t) = some s1 ∧ s1.pc = Pc.rejected 0 ∧
        c ∈ s1.abortedSignals ∧ step s1 Event.tau = some s2 ∧
        (∃ it, s2.currentItems[0]? = some it ∧ it.status = Status.error ∧
          it.errorMsg = msgAborted ∧ it.errorMsg = "超时或被取消" ∧
          it.errorMsg ≠ msgFailed ∧ it.errorMsg ≠ "失败") ∧
        (∃ c1, s2.abortControllerRef = some c1 ∧ c1 ≠ c ∧ c1 ∉ s2.abortedSignals) ∧
        s2.pc = Pc.loopTop (0 + 1) ∧
        (0 + 1 < s2.currentItems.length →
          ∃ s3 it1, step s2 Event.tau = some s3 ∧ s3.pc = Pc.started (0 + 1) ∧
            s3.currentItems[0 + 1]? = some it1 ∧ it1.status = Status.fetching ∧
            signalAborted s3 = false ∧ s3.abortControllerRef = s2.abortControllerRef) ∧
        (∀ (es1 : List Event) (s4 : State), exec s2 es1 = some s4 →
          Event.timerFired t ∉ es1) :=
  ⟨_, _, _, _, rfl, rfl, timeout_rearms "video"
    [sampleVideo 1 "https://x/a.mp4", sampleVideo 2 "https://x/b.mp4"] [1, 2]
    [Event.tau, Event.tau] _ 0 _ _ _ rfl rfl⟩

/-! ## The pacing delay (C7) -/

/-- C7 as stated fails: job 0 of two jobs fails by a network error; in the
next block job 1 is `fetching`, and the trace holds no pacing delay at all. -/
theorem no_delay_after_failed_job :
    (run "video" [sampleVideo 1 "https://x/a.mp4", sampleVideo 2 "https://x/b.mp4"] [1, 2]
        [Event.tau, Event.tau, Event.fetchFailed "TypeError", Event.tau]).map
      (fun s => (s.currentItems.map Item.status, s.trace.filter Effect.isDelay))
      = some ([Status.error, Status.fetching], []) :=
  rfl

/-- The block that calls `fetch` ends in the `catch` block or in the `await`. -/
theorem tryFetch_cases (i : Nat) (s : State) :
    (∃ err, tryFetch i s = catchBlock err i s) ∨
    ∃ item c, (tryFetch i s).pc = Pc.awaitFetch i item c s.nextTimer := by
  unfold tryFetch
  split
  · next item c _ _ =>
    split
    · exact Or.inl ⟨_, rfl⟩
    · split
      · exact Or.inl ⟨_, rfl⟩
      · exact Or.inr ⟨item, c, rfl⟩
  · exact Or.inl ⟨_, rfl⟩

/-- The `catch` block of job `i` leaves job `i` with status `error`. -/
theorem catchBlock_error (err : String) (i : Nat) (s : State) (it : Item)
    (h : (catchBlock err i s).currentItems[i]? = some it) : it.status = Status.error := by
  rw [catchBlock_currentItems] at h
  obtain ⟨a, _, rfl⟩ := getElem?_mapAt_zero _ i i _ it h
  rw [if_pos rfl]
  rfl

theorem rejectIfAborted_not_loopTop {s : State} (hs : s.pc.suspended = true) (k : Nat) :
    (rejectIfAborted s).pc ≠ Pc.loopTop k := by
  unfold rejectIfAborted
  split
  · split
    · intro h; cases h
    · next heq _ => rw [heq]; intro h; cases h
  · split
    · intro h; cases h
    · next heq _ => rw [heq]; intro h; cases h
  · intro h
    rw [h] at hs
    cases hs

/-- The loop test for job `k` is reached by the end of the pacing delay or
from the `catch` block of job `k - 1`. -/
theorem loopTop_reached {s s1 : State} {e : Event} {k : Nat} (hstep : step s e = some s1)
    (hpc1 : s1.pc = Pc.loopTop k) :
    (e = Event.delayElapsed ∧ ∃ i, k = i + 1 ∧ s.pc = Pc.awaitDelay i ∧
      s1.currentItems = s.currentItems) ∨
    (e ≠ Event.delayElapsed ∧ ∃ i, k = i + 1 ∧
      ∀ it, s1.currentItems[i]? = some it → it.status = Status.error) := by
  have hcatch : ∀ (err : String) (i : Nat) (s0 : State), catchBlock err i s0 = s1 →
      ∃ i, k = i + 1 ∧ ∀ it, s1.currentItems[i]? = some it → it.status = Status.error := by
    intro err i s0 h0
    subst h0
    rw [catchBlock_pc] at hpc1
    cases hpc1
    exact ⟨i, rfl, fun it hit => catchBlock_error err i s0 it hit⟩
  cases e with
  | tau =>
    refine Or.inr ⟨(fun h => by cases h), ?_⟩
    cases hpc : s.pc with
    | loopTop i =>
      rw [step_loopTop hpc] at hstep; cases hstep
      unfold loopHead at hpc1
      split at hpc1
      · split at hpc1
        · cases hpc1
        · cases hpc1
      · cases hpc1
    | started i =>
      rw [step_started hpc] at hstep; cases hstep
      rcases tryFetch_cases i s with ⟨err, heq⟩ | ⟨item, c, heq⟩
      · exact hcatch err i s heq.symm
      · rw [heq] at hpc1; cases hpc1
    | rejected i =>
      rw [step_rejected hpc] at hstep; cases hstep
      exact hcatch _ i s rfl
    | idle => simp [step, hpc] at hstep
    | awaitFetch i item c t => simp [step, hpc] at hstep
    | awaitBlob i item c => simp [step, hpc] at hstep
    | awaitDelay i => simp [step, hpc] at hstep
    | done => simp [step, hpc] at hstep
  | fetchResponse status =>
    refine Or.inr ⟨(fun h => by cases h), ?_⟩
    cases hpc : s.pc with
    | awaitFetch i item c t =>
      by_cases hnab : c ∈ s.abortedSignals
      · simp [step, hpc, hnab] at hstep
      · by_cases hok : 200 ≤ status ∧ status ≤ 299
        · rw [step_fetchOk status hpc hnab hok] at hstep; cases hstep
          cases hpc1
        · rw [step_fetchBad status hpc hnab hok] at hstep; cases hstep
          exact hcatch _ i _ rfl
    | idle => simp [step, hpc] at hstep
    | loopTop i => simp [step, hpc] at hstep
    | started i => simp [step, hpc] at hstep
    | rejected i => simp [step, hpc] at hstep
    | awaitBlob i item c => simp [step, hpc] at hstep
    | awaitDelay i => simp [step, hpc] at hstep
    | done => simp [step, hpc] at hstep
  | fetchFailed msg =>
    refine Or.inr ⟨(fun h => by cases h), ?_⟩
    cases hpc : s.pc with
    | awaitFetch i item c t =>
      by_cases hnab : c ∈ s.abortedSignals
      · simp [step, hpc, hnab] at hstep
      · rw [step_fetchFailed msg hpc hnab] at hstep; cases hstep
        exact hcatch _ i _ rfl
    | idle => simp [step, hpc] at hstep
    | loopTop i => simp [step, hpc] at hstep
    | started i => simp [step, hpc] at hstep
    | rejected i => simp [step, hpc] at hstep
    | awaitBlob i item c => simp [step, hpc] at hstep
    | awaitDelay i => simp [step, hpc] at hstep
    | done => simp [step, hpc] at hstep
  | blobReady =>
    refine Or.inr ⟨(fun h => by cases h), ?_⟩
    cases hpc : s.pc with
    | awaitBlob i item c =>
      by_cases hnab : c ∈ s.abortedSignals
      · simp [step, hpc, hnab] at hstep
      · rw [step_blobReady hpc hnab] at hstep; cases hstep
        cases hpc1
    | idle => simp [step, hpc] at hstep
    | loopTop i => simp [step, hpc] at hstep
    | started i => simp [step, hpc] at hstep
    | rejected i => simp [step, hpc] at hstep
    | awaitFetch i item c t => simp [step, hpc] at hstep
    | awaitDelay i => simp [step, hpc] at hstep
    | done => simp [step, hpc] at hstep
  | blobFailed msg =>
    refine Or.inr ⟨(fun h => by cases h), ?_⟩
    cases hpc : s.pc with
    | awaitBlob i item c =>
      by_cases hnab : c ∈ s.abortedSignals
      · simp [step, hpc, hnab] at hstep
      · rw [step_blobFailed msg hpc hnab] at hstep; cases hstep
        exact hcatch _ i _ rfl
    | idle => simp [step, hpc] at hstep
    | loopTop i => simp [step, hpc] at hstep
    | started i => simp [step, hpc] at hstep
    | rejected i => simp [step, hpc] at hstep
    | awaitFetch i item c t => simp [step, hpc] at hstep
    | awaitDelay i => simp [step, hpc] at hstep
    | done => simp [step, hpc] at hstep
  | delayElapsed =>
    refine Or.inl ⟨rfl, ?_⟩
    cases hpc : s.pc with
    | awaitDelay i =>
      rw [step_delayElapsed hpc] at hstep; cases hstep
      cases hpc1
      exact ⟨i, rfl, rfl, rfl⟩
    | idle => simp [step, hpc] at hstep
    | loopTop i => simp [step, hpc] at hstep
    | started i => simp [step, hpc] at hstep
    | rejected i => simp [step, hpc] at hstep
    | awaitFetch i item c t => simp [step, hpc] at hstep
    | awaitBlob i item c => simp [step, hpc] at hstep
    | done => simp [step, hpc] at hstep
  | timerFired id =>
    by_cases hg : s.pc.suspended = true ∧ id ∈ s.timers
    · rw [step_timerFired hg.1 hg.2] at hstep; cases hstep
      exact absurd hpc1 (rejectIfAborted_not_loopTop (by simpa using hg.1) k)
    · simp [step] at hstep
      exact absurd ⟨hstep.1.1, hstep.1.2⟩ hg
  | stopDownload =>
    by_cases hg : s.pc.suspended = true
    · rw [step_stopDownload hg] at hstep; cases hstep
      exact absurd hpc1 (rejectIfAborted_not_loopTop (by simpa [stopDownloadBody] using hg) k)
    · simp [step, hg] at hstep
  | closeQueue =>
    by_cases hg : s.pc.suspended = true
    · rw [step_closeQueue hg] at hstep; cases hstep
      exact absurd hpc1
        (rejectIfAborted_not_loopTop (by simpa [closeQueueBody, stopDownloadBody] using hg) k)
    · simp [step, hg] at hstep

/-- C7, amended: whenever a step of a run brings the loop to its test for job
`i + 1`, job `i` is over, and either it ended in `success`, the step is the end
of the pacing delay awaited after job `i`, and that delay was one of 800 ms; or
it ended in `error`, the step is not the end of a delay, and no pacing delay
was ever begun for job `i`. -/
theorem pacing_delay_after_success_only (mediaType : String) (results : List MediaItem)
    (selectedIds : List Nat) (es : List Event) (s s1 : State) (e : Event) (i : Nat)
    (h : run mediaType results selectedIds es = some s) (hstep : step s e = some s1)
    (hpc1 : s1.pc = Pc.loopTop (i + 1)) :
    ∃ it, s1.currentItems[i]? = some it ∧
      ((it.status = Status.success ∧ e = Event.delayElapsed ∧ s.pc = Pc.awaitDelay i ∧
          Effect.delay i 800 ∈ s.trace) ∨
       (it.status = Status.error ∧ e ≠ Event.delayElapsed ∧
          ∀ ms, Effect.delay i ms ∉ s1.trace)) := by
  have hinv := inv_run h
  have hinv1 := inv_step hinv e hstep
  have hp1 := hinv1.2
  unfold PcOK at hp1
  rw [hpc1] at hp1
  obtain ⟨hle, _, _⟩ := hp1
  obtain ⟨it, hit⟩ := getElem?_of_lt (Nat.lt_of_succ_le hle)
  refine ⟨it, hit, ?_⟩
  rcases loopTop_reached hstep hpc1 with ⟨he, k, hk, hpc, hci⟩ | ⟨he, k, hk, herr⟩
  · have hki : k = i := by omega
    subst hki
    have hp := hinv.2
    unfold PcOK at hp
    rw [hpc] at hp
    rw [hci] at hit
    have hs : it.status = Status.success := hp.2.1.atIndex hit
    exact Or.inl ⟨hs, he, hpc, hinv.1.delayed k it hit hs⟩
  · have hki : k = i := by omega
    subst hki
    have hs := herr it hit
    refine Or.inr ⟨hs, he, fun ms hmem => ?_⟩
    obtain ⟨_, it1, hit1, hs1⟩ := hinv1.1.delays k ms hmem
    rw [hit] at hit1; cases hit1
    rw [hs] at hs1; cases hs1

/-- C7, amended, at the end of the pacing delay after the first of two jobs. -/
theorem pacing_delay_after_success_only_witness :
    ∃ s s1, run "video" [sampleVideo 1 "https://x/a.mp4", sampleVideo 2 "https://x/b.mp4"]
        [1, 2] [Event.tau, Event.tau, Event.fetchResponse 200, Event.blobReady] = some s ∧
      step s Event.delayElapsed = some s1 ∧ s1.pc = Pc.loopTop (0 + 1) ∧
      ∃ it, s1.currentItems[0]? = some it ∧
        ((it.status = Status.success ∧ Event.delayElapsed = Event.delayElapsed ∧
            s.pc = Pc.awaitDelay 0 ∧ Effect.delay 0 800 ∈ s.trace) ∨
         (it.status = Status.error ∧ Event.delayElapsed ≠ Event.delayElapsed ∧
            ∀ ms, Effect.delay 0 ms ∉ s1.trace)) :=
  ⟨_, _, rfl, rfl, rfl, pacing_delay_after_success_only "video"
    [sampleVideo 1 "https://x/a.mp4", sampleVideo 2 "https://x/b.mp4"] [1, 2]
    [Event.tau, Event.tau, Event.fetchResponse 200, Event.blobReady] _ _
    Event.delayElapsed 0 rfl rfl rfl⟩

/-! ## The flag `processing` (C8) -/

/-- C8 as stated fails: `stopDownload()` called during the pacing delay after
job 0 of two jobs sets `processing` to `false` at once, while `processQueue` is
still suspended in its loop (it returns only after the delay has elapsed). -/
theorem processing_false_before_loop_exit :
    (run "video" [sampleVideo 1 "https://x/a.mp4", sampleVideo 2 "https://x/b.mp4"] [1, 2]
        [Event.tau, Event.tau, Event.fetchResponse 200, Event.blobReady,
          Event.stopDownload]).map
      (fun s => (s.downloadQueue.processing, s.pc)) = some (false, Pc.awaitDelay 0) ∧
    (run "video" [sampleVideo 1 "https://x/a.mp4", sampleVideo 2 "https://x/b.mp4"] [1, 2]
        [Event.tau, Event.tau, Event.fetchResponse 200, Event.blobReady,
          Event.stopDownload, Event.delayElapsed, Event.tau]).map
      (fun s => (s.downloadQueue.processing, s.pc)) = some (false, Pc.done) :=
  ⟨rfl, rfl⟩

/-- What a step does to `processing`: it keeps it (and a returned
`processQueue` stays returned), or the loop exits, or the user stops or closes. -/
theorem processing_step {s s1 : State} {e : Event} (hstep : step s e = some s1) :
    (s1.downloadQueue.processing = s.downloadQueue.processing ∧
      (s.pc = Pc.done → s1.pc = Pc.done) ∧
      e ≠ Event.stopDownload ∧ e ≠ Event.closeQueue) ∨
    (s1.downloadQueue.processing = false ∧ s1.pc = Pc.done) ∨
    (s1.downloadQueue.processing = false ∧
      (e = Event.stopDownload ∨ e = Event.closeQueue)) := by
  cases e with
  | tau =>
    cases hpc : s.pc with
    | loopTop i =>
      rw [step_loopTop hpc] at hstep; cases hstep
      unfold loopHead
      split
      · split
        · exact Or.inr (Or.inl ⟨rfl, rfl⟩)
        · exact Or.inl ⟨rfl, (fun h => by cases h), (fun h => by cases h),
            (fun h => by cases h)⟩
      · exact Or.inr (Or.inl ⟨rfl, rfl⟩)
    | started i =>
      rw [step_started hpc] at hstep; cases hstep
      refine Or.inl ⟨?_, (fun h => by cases h), (fun h => by cases h), (fun h => by cases h)⟩
      unfold tryFetch
      split
      · split
        · exact catchBlock_processing _ _ _
        · split
          · exact catchBlock_processing _ _ _
          · rfl
      · exact catchBlock_processing _ _ _
    | rejected i =>
      rw [step_rejected hpc] at hstep; cases hstep
      exact Or.inl ⟨catchBlock_processing _ _ _, (fun h => by cases h),
        (fun h => by cases h), (fun h => by cases h)⟩
    | idle => simp [step, hpc] at hstep
    | awaitFetch i item c t => simp [step, hpc] at hstep
    | awaitBlob i item c => simp [step, hpc] at hstep
    | awaitDelay i => simp [step, hpc] at hstep
    | done => simp [step, hpc] at hstep
  | fetchResponse status =>
    cases hpc : s.pc with
    | awaitFetch i item c t =>
      by_cases hnab : c ∈ s.abortedSignals
      · simp [step, hpc, hnab] at hstep
      · by_cases hok : 200 ≤ status ∧ status ≤ 299
        · rw [step_fetchOk status hpc hnab hok] at hstep; cases hstep
          exact Or.inl ⟨rfl, (fun h => by cases h), (fun h => by cases h),
            (fun h => by cases h)⟩
        · rw [step_fetchBad status hpc hnab hok] at hstep; cases hstep
          exact Or.inl ⟨catchBlock_processing _ _ _, (fun h => by cases h),
            (fun h => by cases h), (fun h => by cases h)⟩
    | idle => simp [step, hpc] at hstep
    | loopTop i => simp [step, hpc] at hstep
    | started i => simp [step, hpc] at hstep
    | rejected i => simp [step, hpc] at hstep
    | awaitBlob i item c => simp [step, hpc] at hstep
    | awaitDelay i => simp [step, hpc] at hstep
    | done => simp [step, hpc] at hstep
  | fetchFailed msg =>
    cases hpc : s.pc with
    | awaitFetch i item c t =>
      by_cases hnab : c ∈ s.abortedSignals
      · simp [step, hpc, hnab] at hstep
      · rw [step_fetchFailed msg hpc hnab] at hstep; cases hstep
        exact Or.inl ⟨catchBlock_processing _ _ _, (fun h => by cases h),
          (fun h => by cases h), (fun h => by cases h)⟩
    | idle => simp [step, hpc] at hstep
    | loopTop i => simp [step, hpc] at hstep
    | started i => simp [step, hpc] at hstep
    | rejected i => simp [step, hpc] at hstep
    | awaitBlob i item c => simp [step, hpc] at hstep
    | awaitDelay i => simp [step, hpc] at hstep
    | done => simp [step, hpc] at hstep
  | blobReady =>
    cases hpc : s.pc with
    | awaitBlob i item c =>
      by_cases hnab : c ∈ s.abortedSignals
      · simp [step, hpc, hnab] at hstep
      · rw [step_blobReady hpc hnab] at hstep; cases hstep
        exact Or.inl ⟨rfl, (fun h => by cases h), (fun h => by cases h),
          (fun h => by cases h)⟩
    | idle => simp [step, hpc] at hstep
    | loopTop i => simp [step, hpc] at hstep
    | started i => simp [step, hpc] at hstep
    | rejected i => simp [step, hpc] at hstep
    | awaitFetch i item c t => simp [step, hpc] at hstep
    | awaitDelay i => simp [step, hpc] at hstep
    | done => simp [step, hpc] at hstep
  | blobFailed msg =>
    cases hpc : s.pc with
    | awaitBlob i item c =>
      by_cases hnab : c ∈ s.abortedSignals
      · simp [step, hpc, hnab] at hstep
      · rw [step_blobFailed msg hpc hnab] at hstep; cases hstep
        exact Or.inl ⟨catchBlock_processing _ _ _, (fun h => by cases h),
          (fun h => by cases h), (fun h => by cases h)⟩
    | idle => simp [step, hpc] at hstep
    | loopTop i => simp [step, hpc] at hstep
    | started i => simp [step, hpc] at hstep
    | rejected i => simp [step, hpc] at hstep
    | awaitFetch i item c t => simp [step, hpc] at hstep
    | awaitDelay i => simp [step, hpc] at hstep
    | done => simp [step, hpc] at hstep
  | delayElapsed =>
    cases hpc : s.pc with
    | awaitDelay i =>
      rw [step_delayElapsed hpc] at hstep; cases hstep
      exact Or.inl ⟨rfl, (fun h => by cases h), (fun h => by cases h),
        (fun h => by cases h)⟩
    | idle => simp [step, hpc] at hstep
    | loopTop i => simp [step, hpc] at hstep
    | started i => simp [step, hpc] at hstep
    | rejected i => simp [step, hpc] at hstep
    | awaitFetch i item c t => simp [step, hpc] at hstep
    | awaitBlob i item c => simp [step, hpc] at hstep
    | done => simp [step, hpc] at hstep
  | timerFired id =>
    by_cases hg : s.pc.suspended = true ∧ id ∈ s.timers
    · rw [step_timerFired hg.1 hg.2] at hstep; cases hstep
      refine Or.inl ⟨by simp, fun hd => ?_, (fun h => by cases h), (fun h => by cases h)⟩
      rw [rejectIfAborted_pc_of_not_pending]
      · simpa using hd
      · intro i item c t hx
        rw [abortCurrent_pc] at hx
        rw [hd] at hx; cases hx
      · intro i item c hx
        rw [abortCurrent_pc] at hx
        rw [hd] at hx; cases hx
    · simp [step] at hstep
      exact absurd ⟨hstep.1.1, hstep.1.2⟩ hg
  | stopDownload =>
    by_cases hg : s.pc.suspended = true
    · rw [step_stopDownload hg] at hstep; cases hstep
      exact Or.inr (Or.inr ⟨by simp [stopDownloadBody], Or.inl rfl⟩)
    · simp [step, hg] at hstep
  | closeQueue =>
    by_cases hg : s.pc.suspended = true
    · rw [step_closeQueue hg] at hstep; cases hstep
      exact Or.inr (Or.inr ⟨by simp [closeQueueBody], Or.inr rfl⟩)
    · simp [step, hg] at hstep

/-- Once `false`, `processing` stays `false`; while it is `true` nobody has
stopped or closed. -/
theorem processing_true_back :
    ∀ (es : List Event) (s s1 : State), exec s es = some s1 →
      s1.downloadQueue.processing = true →
      s.downloadQueue.processing = true ∧ Event.stopDownload ∉ es ∧
        Event.closeQueue ∉ es := by
  intro es
  induction es with
  | nil =>
    intro s s1 he h1
    cases he
    exact ⟨h1, List.not_mem_nil _, List.not_mem_nil _⟩
  | cons e es ih =>
    intro s s1 he h1
    unfold exec at he
    cases hs : step s e with
    | none => rw [hs] at he; cases he
    | some s2 =>
      rw [hs] at he
      obtain ⟨h2, hn1, hn2⟩ := ih s2 s1 he h1
      rcases processing_step hs with ⟨hp, _, hne1, hne2⟩ | ⟨hp, _⟩ | ⟨hp, _⟩
      · refine ⟨by rw [← hp]; exact h2, fun hm => ?_, fun hm => ?_⟩
        · rcases List.mem_cons.1 hm with h | h
          · exact hne1 h.symm
          · exact hn1 h
        · rcases List.mem_cons.1 hm with h | h
          · exact hne2 h.symm
          · exact hn2 h
      · rw [hp] at h2; cases h2
      · rw [hp] at h2; cases h2

/-- Without stop and close, `processing` stays `true` until the loop exits. -/
theorem processing_true_forward :
    ∀ (es : List Event) (s s1 : State), exec s es = some s1 →
      Event.stopDownload ∉ es → Event.closeQueue ∉ es →
      (s.pc ≠ Pc.done → s.downloadQueue.processing = true) →
      s1.pc ≠ Pc.done → s1.downloadQueue.processing = true := by
  intro es
  induction es with
  | nil => intro s s1 he _ _ h0 h1; cases he; exact h0 h1
  | cons e es ih =>
    intro s s1 he hn1 hn2 h0 h1
    unfold exec at he
    cases hs : step s e with
    | none => rw [hs] at he; cases he
    | some s2 =>
      rw [hs] at he
      refine ih s2 s1 he (fun hm => hn1 (List.mem_cons_of_mem _ hm))
        (fun hm => hn2 (List.mem_cons_of_mem _ hm)) ?_ h1
      intro h2
      rcases processing_step hs with ⟨hp, hd, _, _⟩ | ⟨_, hd⟩ | ⟨_, hx⟩
      · rw [hp]
        exact h0 (fun h => h2 (hd h))
      · exact absurd hd h2
      · rcases hx with hx | hx
        · exact absurd (hx ▸ List.mem_cons_self _ _) hn1
        · exact absurd (hx ▸ List.mem_cons_self _ _) hn2

/-- C8, amended: in a run started by `startBatchDownload` on a non-empty
selection, `processing` is `true` exactly as long as `processQueue` has not
returned and neither `stopDownload` nor `closeQueue` has been called. -/
theorem processing_true_iff (mediaType : String) (results : List MediaItem)
    (selectedIds : List Nat) (es : List Event) (s : State)
    (hsel : (selectedItems results selectedIds).length ≠ 0)
    (h : run mediaType results selectedIds es = some s) :
    s.downloadQueue.processing = true ↔
      (s.pc ≠ Pc.done ∧ Event.stopDownload ∉ es ∧ Event.closeQueue ∉ es) := by
  have hinv := inv_run h
  constructor
  · intro hp
    refine ⟨fun hd => ?_, (processing_true_back es _ s h hp).2⟩
    have hpc := hinv.2
    unfold PcOK at hpc
    rw [hd] at hpc
    rw [hpc.2] at hp; cases hp
  · rintro ⟨hd, hn1, hn2⟩
    refine processing_true_forward es _ s h hn1 hn2 (fun _ => ?_) hd
    unfold startBatchDownload
    rw [if_neg hsel]
    rfl

/-- C8, amended, while the first of two jobs is being fetched. -/
theorem processing_true_iff_witness :
    (selectedItems [sampleVideo 1 "https://x/a.mp4", sampleVideo 2 "https://x/b.mp4"]
      [1, 2]).length ≠ 0 ∧
    ∃ s, run "video" [sampleVideo 1 "https://x/a.mp4", sampleVideo 2 "https://x/b.mp4"] [1, 2]
        [Event.tau, Event.tau] = some s ∧
      (s.downloadQueue.processing = true ↔
        (s.pc ≠ Pc.done ∧ Event.stopDownload ∉ [Event.tau, Event.tau] ∧
          Event.closeQueue ∉ [Event.tau, Event.tau])) :=
  ⟨by decide, _, rfl, processing_true_iff "video"
    [sampleVideo 1 "https://x/a.mp4", sampleVideo 2 "https://x/b.mp4"] [1, 2]
    [Event.tau, Event.tau] _ (by decide) rfl⟩

/-! ## Closing the panel (C9) and ordinary failures (C10) -/

/-- C9, evaluated: three jobs; the user stops while job 0 is being fetched (the
loop goes on to job 1, see C1) and closes the panel while job 1 is being
fetched.  Right after `closeQueue()` the queue is `{false, [], false}`, but the
`catch` block of job 1 then writes the three items back into `downloadQueue`
and the loop sets job 2 to `fetching` and calls `fetch` for it. -/
theorem closeQueue_does_not_discard_running_loop :
    (run "video"
        [sampleVideo 1 "https://x/a.mp4", sampleVideo 2 "https://x/b.mp4",
          sampleVideo 3 "https://x/c.mp4"] [1, 2, 3]
        [Event.tau, Event.tau, Event.stopDownload, Event.tau, Event.tau, Event.tau,
          Event.closeQueue]).map
      (fun s => (s.downloadQueue, s.pc))
      = some ({ isOpen := false, items := [], processing := false }, Pc.rejected 1) ∧
    (run "video"
        [sampleVideo 1 "https://x/a.mp4", sampleVideo 2 "https://x/b.mp4",
          sampleVideo 3 "https://x/c.mp4"] [1, 2, 3]
        [Event.tau, Event.tau, Event.stopDownload, Event.tau, Event.tau, Event.tau,
          Event.closeQueue, Event.tau, Event.tau, Event.tau]).map
      (fun s => (s.downloadQueue.isOpen, s.downloadQueue.items.map Item.status,
        s.downloadQueue.processing, s.pc.suspended, s.trace.head?))
      = some (false, [Status.error, Status.error, Status.fetching], false, true,
          some (Effect.fetch 2 "https://x/c.mp4" 2)) :=
  ⟨rfl, rfl⟩

/-- The `catch` block under a signal that is not aborted. -/
theorem catchBlock_clear_facts (err : String) (i : Nat) (s : State) (a : Item)
    (ha : s.currentItems[i]? = some a) (hab : signalAborted s = false) :
    (∃ it, (catchBlock err i s).currentItems[i]? = some it ∧ it.status = Status.error ∧
      it.errorMsg = msgFailed) ∧
    (catchBlock err i s).abortControllerRef = s.abortControllerRef ∧
    (catchBlock err i s).nextController = s.nextController ∧
    signalAborted (catchBlock err i s) = false ∧
    (catchBlock err i s).pc = Pc.loopTop (i + 1) := by
  have href := catchBlock_ref_clear err i s hab
  refine ⟨⟨a.withError msgFailed, ?_, rfl, rfl⟩, href.1, href.2, ?_, catchBlock_pc _ _ _⟩
  · rw [catchBlock_currentItems, hab]
    exact getElem?_mapAt_self _ i _ a ha
  · rw [signalAborted_congr href.1 (catchBlock_abortedSignals err i s)]
    exact hab

/-- C10: when job `i` fails by an ordinary error (missing link, non-success HTTP
status, network error) in a run, the signal is not aborted, the step marks job
`i` `error` with the generic message, the text `失败`, which is not the text
`超时或被取消` for a timeout or a cancellation, keeps the controller (none is created),
and brings the loop to its test for job `i + 1`; if there is a job `i + 1`, the
next block sets it to `fetching` under the same controller. -/
theorem ordinary_failure_continues (mediaType : String) (results : List MediaItem)
    (selectedIds : List Nat) (es : List Event) (s : State) (i : Nat) (e : Event)
    (h : run mediaType results selectedIds es = some s) (hf : ordinaryFailure s i e) :
    signalAborted s = false ∧
    ∃ s1, step s e = some s1 ∧
      (∃ it, s1.currentItems[i]? = some it ∧ it.status = Status.error ∧
        it.errorMsg = msgFailed ∧ it.errorMsg = "失败" ∧
        it.errorMsg ≠ msgAborted ∧ it.errorMsg ≠ "超时或被取消") ∧
      s1.abortControllerRef = s.abortControllerRef ∧
      s1.nextController = s.nextController ∧
      s1.pc = Pc.loopTop (i + 1) ∧
      (i + 1 < s1.currentItems.length →
        ∃ s2 it1, step s1 Event.tau = some s2 ∧ s2.pc = Pc.started (i + 1) ∧
          s2.currentItems[i + 1]? = some it1 ∧ it1.status = Status.fetching ∧
          signalAborted s2 = false ∧ s2.abortControllerRef = s.abortControllerRef) := by
  have hinv := inv_run h
  have hp := hinv.2
  unfold PcOK at hp
  have finish : ∀ (err : String) (s0 : State) (a : Item),
      s0.currentItems[i]? = some a → signalAborted s0 = false →
      s0.abortControllerRef = s.abortControllerRef → s0.nextController = s.nextController →
      step s e = some (catchBlock err i s0) →
      ∃ s1, step s e = some s1 ∧
        (∃ it, s1.currentItems[i]? = some it ∧ it.status = Status.error ∧
          it.errorMsg = msgFailed ∧ it.errorMsg = "失败" ∧
          it.errorMsg ≠ msgAborted ∧ it.errorMsg ≠ "超时或被取消") ∧
        s1.abortControllerRef = s.abortControllerRef ∧
        s1.nextController = s.nextController ∧
        s1.pc = Pc.loopTop (i + 1) ∧
        (i + 1 < s1.currentItems.length →
          ∃ s2 it1, step s1 Event.tau = some s2 ∧ s2.pc = Pc.started (i + 1) ∧
            s2.currentItems[i + 1]? = some it1 ∧ it1.status = Status.fetching ∧
            signalAborted s2 = false ∧ s2.abortControllerRef = s.abortControllerRef) := by
    intro err s0 a ha hab href hnext hs
    obtain ⟨⟨it, k1, k2, k3⟩, h2, h3, h4, h5⟩ := catchBlock_clear_facts err i s0 a ha hab
    have k4 : it.errorMsg ≠ msgAborted := by
      rw [k3]; exact fun hh => msgAborted_ne_msgFailed hh.symm
    refine ⟨_, hs, ⟨it, k1, k2, k3, k3, k4, k4⟩, h2.trans href, h3.trans hnext, h5,
      fun hlt => ?_⟩
    obtain ⟨s2, it1, g1, g2, g3, g4, g5, g6⟩ := start_next_job h5 hlt h4
    exact ⟨s2, it1, g1, g2, g3, g4, g5, g6.trans (h2.trans href)⟩
  cases e with
  | tau =>
    obtain ⟨hpc, it, hit, hl⟩ := hf
    rw [hpc] at hp
    obtain ⟨_, _, c, hc, hnab⟩ := hp
    have hab := signalAborted_eq_false hc hnab
    exact ⟨hab, finish _ s it hit hab rfl rfl
      (by rw [step_started hpc, tryFetch_noLink hit hc hl])⟩
  | fetchResponse status =>
    obtain ⟨⟨item, c, t, hpc⟩, hok⟩ := hf
    rw [hpc] at hp
    obtain ⟨_, _, hc, hnab, hitem, _⟩ := hp
    have hab := signalAborted_eq_false hc hnab
    exact ⟨hab, finish _
      { s with timers := s.timers.erase t, trace := Effect.clearTimeout t :: s.trace }
      item hitem hab rfl rfl (step_fetchBad status hpc hnab hok)⟩
  | fetchFailed msg =>
    obtain ⟨item, c, t, hpc⟩ := hf
    rw [hpc] at hp
    obtain ⟨_, _, hc, hnab, hitem, _⟩ := hp
    have hab := signalAborted_eq_false hc hnab
    exact ⟨hab, finish _ s item hitem hab rfl rfl (step_fetchFailed msg hpc hnab)⟩
  | blobFailed msg =>
    obtain ⟨item, c, hpc⟩ := hf
    rw [hpc] at hp
    obtain ⟨_, _, hc, hnab, it, hitem, _⟩ := hp
    have hab := signalAborted_eq_false hc hnab
    exact ⟨hab, finish _ s it hitem hab rfl rfl (step_blobFailed msg hpc hnab)⟩
  | blobReady => cases hf
  | delayElapsed => cases hf
  | timerFired id => cases hf
  | stopDownload => cases hf
  | closeQueue => cases hf

/-- C10 on two jobs: the `fetch` of job 0 answers with HTTP status 404. -/
theorem ordinary_failure_continues_witness :
    ∃ s, run "video" [sampleVideo 1 "https://x/a.mp4", sampleVideo 2 "https://x/b.mp4"] [1, 2]
        [Event.tau, Event.tau] = some s ∧
      ordinaryFailure s 0 (Event.fetchResponse 404) ∧
      signalAborted s = false ∧
      ∃ s1, step s (Event.fetchResponse 404) = some s1 ∧
        (∃ it, s1.currentItems[0]? = some it ∧ it.status = Status.error ∧
          it.errorMsg = msgFailed ∧ it.errorMsg = "失败" ∧
          it.errorMsg ≠ msgAborted ∧ it.errorMsg ≠ "超时或被取消") ∧
        s1.abortControllerRef = s.abortControllerRef ∧
        s1.nextController = s.nextController ∧
        s1.pc = Pc.loopTop (0 + 1) ∧
        (0 + 1 < s1.currentItems.length →
          ∃ s2 it1, step s1 Event.tau = some s2 ∧ s2.pc = Pc.started (0 + 1) ∧
            s2.currentItems[0 + 1]? = some it1 ∧ it1.status = Status.fetching ∧
            signalAborted s2 = false ∧ s2.abortControllerRef = s.abortControllerRef) :=
  ⟨_, rfl, ⟨⟨_, _, _, rfl⟩, by decide⟩, ordinary_failure_continues "video"
    [sampleVideo 1 "https://x/a.mp4", sampleVideo 2 "https://x/b.mp4"] [1, 2]
    [Event.tau, Event.tau] _ 0 (Event.fetchResponse 404) rfl ⟨⟨_, _, _, rfl⟩, by decide⟩⟩

/-! ## Saves (C11) -/

theorem fileName_of_seed {a b : Item} (h : seed a = seed b) : fileName a = fileName b := by
  have h1 : a.name = b.name := by
    have := congrArg (fun p => p.2.2.2) h
    simpa [seed] using this
  have h2 : a.ext = b.ext := by
    have := congrArg (fun p => p.2.2.1) h
    simpa [seed] using this
  simp [fileName, h1, h2]

theorem mapAt_of_lt (f : Item → Item) (i : Nat) :
    ∀ (items : List Item) (k : Nat), i < k → mapAt f i k items = items := by
  intro items
  induction items with
  | nil => intro k _; rfl
  | cons x xs ih =>
    intro k hk
    have hne : ¬ k = i := by omega
    simp [mapAt, hne, ih (k + 1) (by omega)]

theorem successFrom_nil_of_none :
    ∀ (items : List Item) (k : Nat), (∀ it ∈ items, it.status ≠ Status.success) →
      successFrom k items = [] := by
  intro items
  induction items with
  | nil => intro k _; rfl
  | cons x xs ih =>
    intro k h
    have hx := h x (List.mem_cons_self _ _)
    simp [successFrom, hx, ih (k + 1) (fun it hit => h it (List.mem_cons_of_mem _ hit))]

/-- Two item lists with the same seeds and the same jobs in `success` list the
same successes. -/
theorem successFrom_congr :
    ∀ (l1 l2 : List Item) (k : Nat), l1.map seed = l2.map seed →
      (∀ (j : Nat) (a b : Item), l1[j]? = some a → l2[j]? = some b →
        (a.status = Status.success ↔ b.status = Status.success)) →
      successFrom k l1 = successFrom k l2 := by
  intro l1
  induction l1 with
  | nil =>
    intro l2 k hs _
    cases l2 with
    | nil => rfl
    | cons b r => cases hs
  | cons a r ih =>
    intro l2 k hs hst
    cases l2 with
    | nil => cases hs
    | cons b r2 =>
      simp only [List.map_cons, List.cons.injEq] at hs
      have hrec := ih r2 (k + 1) hs.2 (fun j x y hx hy => hst (j + 1) x y (by simpa using hx)
        (by simpa using hy))
      have h0 := hst 0 a b (by simp) (by simp)
      have hf := fileName_of_seed hs.1
      by_cases ha : a.status = Status.success
      · have hb := h0.1 ha
        simp [successFrom, ha, hb, hf, hrec]
      · have hb : ¬ b.status = Status.success := fun hb => ha (h0.2 hb)
        simp [successFrom, ha, hb, hrec]

/-- Setting job `i` to `success` when no job from `i` on is in `success` adds
job `i` at the end of the successes. -/
theorem successFrom_mapAt_success (i : Nat) (a : Item) :
    ∀ (items : List Item) (k : Nat), k ≤ i → items[i - k]? = some a →
      (∀ (j : Nat) (it : Item), items[j]? = some it → i - k ≤ j →
        it.status ≠ Status.success) →
      successFrom k (mapAt (Item.withStatus Status.success) i k items)
        = successFrom k items ++ [(i, fileName a)] := by
  intro items
  induction items with
  | nil => intro k _ ha _; simp at ha
  | cons x xs ih =>
    intro k hk ha hnone
    by_cases hki : k = i
    · subst hki
      have hxa : x = a := by simpa using ha
      subst hxa
      have hx : x.status ≠ Status.success := hnone 0 x (by simp) (by omega)
      have hxs : ∀ it ∈ xs, it.status ≠ Status.success := by
        intro it hit
        obtain ⟨n, hn⟩ := List.getElem?_of_mem hit
        exact hnone (n + 1) it (by simpa using hn) (by omega)
      have htail := successFrom_nil_of_none xs (k + 1) hxs
      simp only [mapAt, if_true, mapAt_of_lt _ k xs (k + 1) (Nat.lt_succ_self k)]
      simp [successFrom, hx, htail, fileName, Item.withStatus]
    · have hlt : k < i := by omega
      have hidx : i - k = (i - (k + 1)) + 1 := by omega
      rw [hidx] at ha
      have hrec := ih (k + 1) (by omega) (by simpa using ha) (fun j it hj hle =>
        hnone (j + 1) it (by simpa using hj) (by omega))
      simp only [mapAt, hki, if_false]
      by_cases hx : x.status = Status.success
      · simp [successFrom, hx, hrec]
      · simp [successFrom, hx, hrec]

theorem mem_savesOf (j : Nat) (name : String) :
    ∀ (tr : List Effect), (j, name) ∈ savesOf tr ↔ Effect.save j name ∈ tr := by
  intro tr
  induction tr with
  | nil => simp [savesOf]
  | cons e rest ih =>
    cases e <;> simp [savesOf, ih]
    · rename_i i n
      constructor
      · rintro (h | ⟨rfl, rfl⟩)
        · exact Or.inr h
        · exact Or.inl ⟨rfl, rfl⟩
      · rintro (⟨rfl, rfl⟩ | h)
        · exact Or.inr ⟨rfl, rfl⟩
        · exact Or.inl h

theorem mem_successFrom (j : Nat) (name : String) :
    ∀ (items : List Item) (k : Nat), (j, name) ∈ successFrom k items →
      ∃ it, k ≤ j ∧ items[j - k]? = some it ∧ it.status = Status.success ∧
        name = fileName it := by
  intro items
  induction items with
  | nil => intro k h; simp [successFrom] at h
  | cons x xs ih =>
    intro k h
    have hrest : (j, name) ∈ successFrom (k + 1) xs →
        ∃ it, k ≤ j ∧ (x :: xs)[j - k]? = some it ∧ it.status = Status.success ∧
          name = fileName it := by
      intro h1
      obtain ⟨it, hle, hit, hs, hn⟩ := ih (k + 1) h1
      have hidx : j - k = (j - (k + 1)) + 1 := by omega
      exact ⟨it, by omega, by rw [hidx]; simpa using hit, hs, hn⟩
    by_cases hx : x.status = Status.success
    · simp only [successFrom, hx, if_true, List.mem_cons, Prod.mk.injEq] at h
      rcases h with ⟨rfl, rfl⟩ | h
      · exact ⟨x, Nat.le_refl _, by simp, hx, rfl⟩
      · exact hrest h
    · simp only [successFrom, hx, if_false] at h
      exact hrest h

theorem quiet_refl (s : State) : Quiet s s := ⟨rfl, fun _ _ => Iff.rfl⟩

theorem quiet_of_trace {s1 s : State} (h : s1.trace = s.trace) : Quiet s1 s := by
  unfold Quiet
  rw [h]
  exact ⟨rfl, fun _ _ => Iff.rfl⟩

theorem quiet_trans {s2 s1 s : State} (h2 : Quiet s2 s1) (h1 : Quiet s1 s) : Quiet s2 s :=
  ⟨h2.1.trans h1.1, fun j ms => (h2.2 j ms).trans (h1.2 j ms)⟩

theorem quiet_catchBlock (err : String) (i : Nat) (s : State) :
    Quiet (catchBlock err i s) s := by
  cases hab : signalAborted s with
  | true =>
    rw [catchBlock_aborted err i s hab]
    exact ⟨by simp [savesOf, setItem, newAbortController],
      fun j ms => by simp [setItem, newAbortController]⟩
  | false =>
    rw [catchBlock_clear err i s hab]
    exact ⟨by simp [savesOf, setItem], fun j ms => by simp [setItem]⟩

theorem quiet_exitLoop (s : State) : Quiet (exitLoop s) s :=
  ⟨by simp [savesOf, exitLoop], fun j ms => by simp [exitLoop]⟩

theorem quiet_loopHead (i : Nat) (s : State) : Quiet (loopHead i s) s := by
  unfold loopHead
  split
  · split
    · exact quiet_exitLoop s
    · exact ⟨by simp [savesOf, setItem], fun j ms => by simp [setItem]⟩
  · exact quiet_exitLoop s

theorem quiet_tryFetch (i : Nat) (s : State) : Quiet (tryFetch i s) s := by
  unfold tryFetch
  split
  · split
    · exact quiet_catchBlock _ _ _
    · split
      · exact quiet_catchBlock _ _ _
      · exact ⟨by simp [savesOf], fun j ms => by simp⟩
  · exact quiet_catchBlock _ _ _

theorem quiet_abortCurrent (s : State) : Quiet (abortCurrent s) s := by
  unfold abortCurrent
  split
  · exact quiet_refl s
  · exact ⟨by simp [savesOf], fun j ms => by simp⟩

theorem quiet_stopDownloadBody (s : State) : Quiet (stopDownloadBody s) s := by
  have h1 : Quiet (stopDownloadBody s) (abortCurrent s) :=
    ⟨by simp [savesOf, stopDownloadBody], fun j ms => by simp [stopDownloadBody]⟩
  exact quiet_trans h1 (quiet_abortCurrent s)

theorem quiet_closeQueueBody (s : State) : Quiet (closeQueueBody s) s := by
  have h1 : Quiet (closeQueueBody s) (stopDownloadBody s) :=
    ⟨by simp [savesOf, closeQueueBody], fun j ms => by simp [closeQueueBody]⟩
  exact quiet_trans h1 (quiet_stopDownloadBody s)

theorem quiet_rejectIfAborted (s : State) : Quiet (rejectIfAborted s) s :=
  quiet_of_trace (rejectIfAborted_trace s)

/-- Every step but the fulfilment of the body read adds no save and no pacing
delay to the trace. -/
theorem quiet_step {s s1 : State} {e : Event} (hstep : step s e = some s1)
    (he : e ≠ Event.blobReady) : Quiet s1 s := by
  cases e with
  | tau =>
    cases hpc : s.pc with
    | loopTop i =>
      rw [step_loopTop hpc] at hstep; cases hstep
      exact quiet_loopHead i s
    | started i =>
      rw [step_started hpc] at hstep; cases hstep
      exact quiet_tryFetch i s
    | rejected i =>
      rw [step_rejected hpc] at hstep; cases hstep
      exact quiet_catchBlock _ _ _
    | idle => simp [step, hpc] at hstep
    | awaitFetch i item c t => simp [step, hpc] at hstep
    | awaitBlob i item c => simp [step, hpc] at hstep
    | awaitDelay i => simp [step, hpc] at hstep
    | done => simp [step, hpc] at hstep
  | fetchResponse status =>
    cases hpc : s.pc with
    | awaitFetch i item c t =>
      by_cases hnab : c ∈ s.abortedSignals
      · simp [step, hpc, hnab] at hstep
      · have hq : Quiet
            { s with timers := s.timers.erase t, trace := Effect.clearTimeout t :: s.trace }
            s :=
          ⟨by simp [savesOf], fun j ms => by simp⟩
        by_cases hok : 200 ≤ status ∧ status ≤ 299
        · rw [step_fetchOk status hpc hnab hok] at hstep; cases hstep
          exact ⟨by simp [savesOf, setItem], fun j ms => by simp [setItem]⟩
        · rw [step_fetchBad status hpc hnab hok] at hstep; cases hstep
          exact quiet_trans (quiet_catchBlock _ _ _) hq
    | idle => simp [step, hpc] at hstep
    | loopTop i => simp [step, hpc] at hstep
    | started i => simp [step, hpc] at hstep
    | rejected i => simp [step, hpc] at hstep
    | awaitBlob i item c => simp [step, hpc] at hstep
    | awaitDelay i => simp [step, hpc] at hstep
    | done => simp [step, hpc] at hstep
  | fetchFailed msg =>
    cases hpc : s.pc with
    | awaitFetch i item c t =>
      by_cases hnab : c ∈ s.abortedSignals
      · simp [step, hpc, hnab] at hstep
      · rw [step_fetchFailed msg hpc hnab] at hstep; cases hstep
        exact quiet_catchBlock _ _ _
    | idle => simp [step, hpc] at hstep
    | loopTop i => simp [step, hpc] at hstep
    | started i => simp [step, hpc] at hstep
    | rejected i => simp [step, hpc] at hstep
    | awaitBlob i item c => simp [step, hpc] at hstep
    | awaitDelay i => simp [step, hpc] at hstep
    | done => simp [step, hpc] at hstep
  | blobReady => exact absurd rfl he
  | blobFailed msg =>
    cases hpc : s.pc with
    | awaitBlob i item c =>
      by_cases hnab : c ∈ s.abortedSignals
      · simp [step, hpc, hnab] at hstep
      · rw [step_blobFailed msg hpc hnab] at hstep; cases hstep
        exact quiet_catchBlock _ _ _
    | idle => simp [step, hpc] at hstep
    | loopTop i => simp [step, hpc] at hstep
    | started i => simp [step, hpc] at hstep
    | rejected i => simp [step, hpc] at hstep
    | awaitFetch i item c t => simp [step, hpc] at hstep
    | awaitDelay i => simp [step, hpc] at hstep
    | done => simp [step, hpc] at hstep
  | delayElapsed =>
    cases hpc : s.pc with
    | awaitDelay i =>
      rw [step_delayElapsed hpc] at hstep; cases hstep
      exact quiet_of_trace rfl
    | idle => simp [step, hpc] at hstep
    | loopTop i => simp [step, hpc] at hstep
    | started i => simp [step, hpc] at hstep
    | rejected i => simp [step, hpc] at hstep
    | awaitFetch i item c t => simp [step, hpc] at hstep
    | awaitBlob i item c => simp [step, hpc] at hstep
    | done => simp [step, hpc] at hstep
  | timerFired id =>
    by_cases hg : s.pc.suspended = true ∧ id ∈ s.timers
    · rw [step_timerFired hg.1 hg.2] at hstep; cases hstep
      exact quiet_trans (quiet_rejectIfAborted _)
        (quiet_trans (quiet_abortCurrent _) (quiet_of_trace rfl))
    · simp [step] at hstep
      exact absurd ⟨hstep.1.1, hstep.1.2⟩ hg
  | stopDownload =>
    by_cases hg : s.pc.suspended = true
    · rw [step_stopDownload hg] at hstep; cases hstep
      exact quiet_trans (quiet_rejectIfAborted _) (quiet_stopDownloadBody s)
    · simp [step, hg] at hstep
  | closeQueue =>
    by_cases hg : s.pc.suspended = true
    · rw [step_closeQueue hg] at hstep; cases hstep
      exact quiet_trans (quiet_rejectIfAborted _) (quiet_closeQueueBody s)
    · simp [step, hg] at hstep

/-- A job with status `success` has a usable link. -/
theorem hasLink_of_success {items0 : List Item} {s : State} (hb : Base items0 s) {j : Nat}
    {it : Item} (hj : s.currentItems[j]? = some it) (hs : it.status = Status.success) :
    it.hasLink = true := by
  cases hl : it.hasLink with
  | true => rfl
  | false =>
    rcases hb.missing j it hj hl with h | h | h
    · rw [hs] at h; cases h
    · rw [hs] at h; cases h
    · rw [hs] at h; cases h.1

/-- The fulfilment of the body read saves the file of the job at the loop
index and then marks that job `success`. -/
theorem blobReady_step {items0 : List Item} {s s1 : State} (h : Inv items0 s)
    (hstep : step s Event.blobReady = some s1) :
    ∃ i it, s.currentItems[i]? = some it ∧ it.status = Status.saving ∧
      (∀ (j : Nat) (x : Item), s.currentItems[j]? = some x → i ≤ j →
        x.status ≠ Status.success) ∧
      s1.currentItems = mapAt (Item.withStatus Status.success) i 0 s.currentItems ∧
      s1.trace = Effect.delay i 800 :: Effect.setItems s1.currentItems
        :: Effect.save i (fileName it) :: s.trace := by
  obtain ⟨hb, hp⟩ := h
  unfold PcOK at hp
  cases hpc : s.pc with
  | awaitBlob i item c =>
    rw [hpc] at hp
    obtain ⟨_, hshape, _, hc, it, hit, hseed, _⟩ := hp
    rw [step_blobReady hpc hc] at hstep
    cases hstep
    refine ⟨i, it, hit, ((hshape i it hit).2.1 rfl), fun j x hx hle => ?_, rfl, ?_⟩
    · rcases Nat.eq_or_lt_of_le hle with heq | hlt
      · have := (hshape j x hx).2.1 heq.symm
        rw [this]; exact fun hh => by cases hh
      · have := (hshape j x hx).2.2 hlt
        rw [this]; exact fun hh => by cases hh
    · simp [setItem, fileName_of_seed hseed]
  | idle => simp [step, hpc] at hstep
  | loopTop i => simp [step, hpc] at hstep
  | started i => simp [step, hpc] at hstep
  | rejected i => simp [step, hpc] at hstep
  | awaitFetch i item c t => simp [step, hpc] at hstep
  | awaitDelay i => simp [step, hpc] at hstep
  | done => simp [step, hpc] at hstep

/-- Steps keep the saves of the trace equal to the jobs with status `success`. -/
theorem saves_step {items0 : List Item} {s s1 : State} {e : Event} (h : Inv items0 s)
    (hsave : savesOf s.trace = successFrom 0 s.currentItems)
    (hstep : step s e = some s1) :
    savesOf s1.trace = successFrom 0 s1.currentItems := by
  have h1 : Inv items0 s1 := inv_step h e hstep
  by_cases he : e = Event.blobReady
  · subst he
    obtain ⟨i, it, hit, _, hnone, hitems, htrace⟩ := blobReady_step h hstep
    rw [htrace, hitems]
    rw [successFrom_mapAt_success i it s.currentItems 0 (Nat.zero_le _) (by simpa using hit)
      (fun j x hx hle => hnone j x hx (by simpa using hle))]
    simp [savesOf, hsave]
  · obtain ⟨hq, hd⟩ := quiet_step hstep he
    rw [hq, hsave]
    apply successFrom_congr
    · rw [h.1.seeds, h1.1.seeds]
    · intro j a b ha hb
      constructor
      · intro hs
        obtain ⟨_, x, hx, hxs⟩ := h1.1.delays j 800 ((hd j 800).2 (h.1.delayed j a ha hs))
        rw [hb] at hx; cases hx; exact hxs
      · intro hs
        obtain ⟨_, x, hx, hxs⟩ := h.1.delays j 800 ((hd j 800).1 (h1.1.delayed j b hb hs))
        rw [ha] at hx; cases hx; exact hxs

theorem saves_exec {items0 : List Item} :
    ∀ (es : List Event) (s s1 : State), Inv items0 s →
      savesOf s.trace = successFrom 0 s.currentItems → exec s es = some s1 →
      savesOf s1.trace = successFrom 0 s1.currentItems := by
  intro es
  induction es with
  | nil => intro s s1 _ hs he; cases he; exact hs
  | cons e es ih =>
    intro s s1 h hs he
    unfold exec at he
    cases hst : step s e with
    | none => rw [hst] at he; cases he
    | some s2 =>
      rw [hst] at he
      exact ih s2 s1 (inv_step h e hst) (saves_step h hs hst) he

theorem saves_start (mediaType : String) (results : List MediaItem) (selectedIds : List Nat) :
    savesOf (startBatchDownload mediaType results selectedIds init).trace =
      successFrom 0 (startBatchDownload mediaType results selectedIds init).currentItems := by
  have hpend := queueItems_pending mediaType results selectedIds
  unfold startBatchDownload
  split
  · simp [savesOf, init, successFrom]
  · have hnil : successFrom 0 (queueItems mediaType results selectedIds) = [] := by
      apply successFrom_nil_of_none
      intro it hit
      obtain ⟨n, hn⟩ := List.getElem?_of_mem hit
      rw [(hpend n it hn).1]
      exact fun hh => by cases hh
    simp [openQueue, processQueue, newAbortController, init, savesOf, hnil]

/-- A job built by `startBatchDownload` with a usable link has an extension. -/
theorem ext_of_hasLink (mediaType : String) (m : MediaItem)
    (h : (queueItem mediaType m).hasLink = true) :
    ∃ e, (queueItem mediaType m).ext = some e := by
  unfold Item.hasLink queueItem at h
  unfold queueItem
  cases hinfo : getDownloadInfo mediaType m with
  | none => rw [hinfo] at h; simp at h
  | some d => exact ⟨d.ext, rfl⟩

/-- In a run started by `startBatchDownload` a job with a usable link has an
extension, so that its file name is `name.ext`. -/
theorem fileName_of_hasLink {mediaType : String} {results : List MediaItem}
    {selectedIds : List Nat} {s : State}
    (hb : Base (queueItems mediaType results selectedIds) s) {j : Nat} {it : Item}
    (hj : s.currentItems[j]? = some it) (hl : it.hasLink = true) :
    ∃ e, it.ext = some e ∧ fileName it = it.name ++ "." ++ e := by
  have hs := hb.seeds
  have h1 : (s.currentItems.map seed)[j]? =
      ((queueItems mediaType results selectedIds).map seed)[j]? := by rw [hs]
  rw [List.getElem?_map, List.getElem?_map, hj] at h1
  cases h0 : (queueItems mediaType results selectedIds)[j]? with
  | none => rw [h0] at h1; cases h1
  | some it0 =>
    rw [h0] at h1
    have hseed : seed it = seed it0 := by simpa using h1
    unfold queueItems at h0
    rw [List.getElem?_map] at h0
    cases hm : (selectedItems results selectedIds)[j]? with
    | none => rw [hm] at h0; cases h0
    | some m =>
      rw [hm] at h0
      have hit0 : queueItem mediaType m = it0 := by simpa using h0
      subst hit0
      rw [hasLink_of_seed hseed] at hl
      obtain ⟨e, he⟩ := ext_of_hasLink mediaType m hl
      have hext : it.ext = (queueItem mediaType m).ext := by
        have := congrArg (fun p => p.2.2.1) hseed
        simpa [seed] using this
      refine ⟨e, by rw [hext, he], ?_⟩
      unfold fileName
      rw [hext, he]
      rfl

/-- C11. In every run started by `startBatchDownload`, at every point: (1) the
saves handed to the download sink, oldest first, are exactly the jobs whose
status is `success`, in queue order, each under the file name of that job;
(2) the file name of a job with status `success` is its `name`, a dot and its
`ext`; (3) every save in the trace belongs to a job with status `success`, so
none belongs to a job that is `error` or `pending`; (4) a step that sets a job
to `success` has triggered the save of that job just before the status update
(and the pacing delay after it). -/
theorem saves_are_the_successful_jobs (mediaType : String) (results : List MediaItem)
    (selectedIds : List Nat) (es : List Event) (s : State)
    (h : run mediaType results selectedIds es = some s) :
    savesOf s.trace = successFrom 0 s.currentItems ∧
    (∀ (j : Nat) (it : Item), s.currentItems[j]? = some it → it.status = Status.success →
      ∃ e, it.ext = some e ∧ fileName it = it.name ++ "." ++ e) ∧
    (∀ (j : Nat) (name : String), Effect.save j name ∈ s.trace →
      ∃ it, s.currentItems[j]? = some it ∧ it.status = Status.success ∧
        name = fileName it) ∧
    (∀ (e : Event) (s1 : State) (j : Nat) (a b : Item), step s e = some s1 →
      s.currentItems[j]? = some a → s1.currentItems[j]? = some b →
      a.status ≠ Status.success → b.status = Status.success →
      s1.trace = Effect.delay j 800 :: Effect.setItems s1.currentItems
        :: Effect.save j (fileName b) :: s.trace) := by
  have hinv := inv_run h
  have hsaves : savesOf s.trace = successFrom 0 s.currentItems :=
    saves_exec es _ s (inv_start mediaType results selectedIds)
      (saves_start mediaType results selectedIds) h
  refine ⟨hsaves, fun j it hj hs => ?_, fun j name hmem => ?_, ?_⟩
  · exact fileName_of_hasLink hinv.1 hj (hasLink_of_success hinv.1 hj hs)
  · have hm : (j, name) ∈ successFrom 0 s.currentItems := by
      rw [← hsaves]; exact (mem_savesOf j name s.trace).2 hmem
    obtain ⟨it, _, hit, hs, hn⟩ := mem_successFrom j name s.currentItems 0 hm
    exact ⟨it, by simpa using hit, hs, hn⟩
  · intro e s1 j a b hstep ha hb hna hbs
    have h1 : Inv (queueItems mediaType results selectedIds) s1 := inv_step hinv e hstep
    by_cases he : e = Event.blobReady
    · subst he
      obtain ⟨i, it, hit, _, _, hitems, htrace⟩ := blobReady_step hinv hstep
      by_cases hji : j = i
      · subst hji
        rw [ha] at hit; cases hit
        have hb2 : b = Item.withStatus Status.success a := by
          have := getElem?_mapAt_self (Item.withStatus Status.success) j s.currentItems a ha
          rw [← hitems, hb] at this
          exact Option.some.inj this
        have hf : fileName b = fileName a := by rw [hb2]; rfl
        rw [htrace, hf]
      · have := getElem?_mapAt_ne (Item.withStatus Status.success) i j s.currentItems hji
        rw [← hitems, hb, ha] at this
        cases this
        exact absurd hbs hna
    · obtain ⟨_, hd⟩ := quiet_step hstep he
      obtain ⟨_, x, hx, hxs⟩ := hinv.1.delays j 800 ((hd j 800).1 (h1.1.delayed j b hb hbs))
      rw [ha] at hx; cases hx
      exact absurd hxs hna

/-- C11 at a concrete run: two videos, the first is saved, the second fails with
HTTP 404; one save, under the name of the first job. -/
theorem saves_are_the_successful_jobs_witness :
    ∃ s, run "video" [sampleVideo 1 "https://x/a.mp4", sampleVideo 2 "https://x/b.mp4"] [1, 2]
        [Event.tau, Event.tau, Event.fetchResponse 200, Event.blobReady, Event.delayElapsed,
         Event.tau, Event.tau, Event.fetchResponse 404, Event.tau] = some s ∧
      savesOf s.trace = [(0, "pexels_video_1.mp4")] ∧
      savesOf s.trace = successFrom 0 s.currentItems :=
  ⟨_, rfl, rfl,
    (saves_are_the_successful_jobs "video"
      [sampleVideo 1 "https://x/a.mp4", sampleVideo 2 "https://x/b.mp4"] [1, 2]
      [Event.tau, Event.tau, Event.fetchResponse 200, Event.blobReady, Event.delayElapsed,
       Event.tau, Event.tau, Event.fetchResponse 404, Event.tau] _ rfl).1⟩

/-! ## The timer of a job that has failed (C12) -/

/-- C12, evaluated: two jobs with links.  Timer 0 is armed for the `fetch` of
job 0 (line 273); that `fetch` is rejected by a network error, so line 280 is
skipped and timer 0 stays armed while job 0 ends in `error`.  Job 1 is then
being fetched under signal 0 with its own timer 1; when timer 0 fires, its
callback aborts the controller in the ref, which is the one of job 1: job 1
ends in `error` with the timeout message although its own timer 1 never
fired.  The same happens when job 0 was cancelled by `stopDownload`. -/
theorem stale_timer_aborts_following_job :
    (run "video" [sampleVideo 1 "https://x/a.mp4", sampleVideo 2 "https://x/b.mp4"] [1, 2]
        [Event.tau, Event.tau, Event.fetchFailed "TypeError", Event.tau, Event.tau]).map
      (fun s => (s.currentItems.map Item.status, s.pc.index, s.timers,
        s.trace.filter (fun e => e matches Effect.setTimeout _ _ _ | Effect.fetch _ _ _)))
      = some ([Status.error, Status.fetching], some 1, [1, 0],
          [Effect.fetch 1 "https://x/b.mp4" 0, Effect.setTimeout 1 1 60000,
           Effect.fetch 0 "https://x/a.mp4" 0, Effect.setTimeout 0 0 60000]) ∧
    (run "video" [sampleVideo 1 "https://x/a.mp4", sampleVideo 2 "https://x/b.mp4"] [1, 2]
        [Event.tau, Event.tau, Event.fetchFailed "TypeError", Event.tau, Event.tau,
         Event.timerFired 0, Event.tau]).map
      (fun s => (s.currentItems.map Item.status, s.currentItems.map Item.errorMsg, s.timers,
        s.abortedSignals))
      = some ([Status.error, Status.error], [msgFailed, msgAborted], [1], [0]) ∧
    (run "video" [sampleVideo 1 "https://x/a.mp4", sampleVideo 2 "https://x/b.mp4"] [1, 2]
        [Event.tau, Event.tau, Event.stopDownload, Event.tau, Event.tau, Event.tau,
         Event.timerFired 0, Event.tau]).map
      (fun s => (s.currentItems.map Item.status, s.currentItems.map Item.errorMsg, s.timers,
        s.abortedSignals))
      = some ([Status.error, Status.error], [msgAborted, msgAborted], [1], [1, 0]) := by
  exact ⟨rfl, rfl, rfl⟩

/-! ## The message of an HTTP error (C13) -/

/-- C13, evaluated: the `fetch` of job 0 answers with HTTP status 404 and nothing
is aborted.  The job ends in `error`, but its `errorMsg` is the fixed text
`失败`, which does not include `404`; the status code is only in the message
that `console.error` prints. -/
theorem http_error_message_lacks_status_code :
    (run "video" [sampleVideo 1 "https://x/a.mp4", sampleVideo 2 "https://x/b.mp4"] [1, 2]
        [Event.tau, Event.tau, Event.fetchResponse 404]).map
      (fun s => (s.currentItems.map Item.status, s.currentItems.map Item.errorMsg,
        s.currentItems.map (fun it => includes it.errorMsg (toString 404)),
        signalAborted s,
        s.trace.filter (fun e => e matches Effect.consoleError _)))
      = some ([Status.error, Status.pending], ["失败", ""], [false, false], false,
          [Effect.consoleError "HTTP Error: 404"]) := by
  rfl

/-- C13, amended: in a run, when the `fetch` of job `i` answers with a status
outside 200..299 (the signal is not aborted then), the step sets job `i` to
`error`, a status that is final, with the fixed `errorMsg` `失败`, whatever the
status code; the text `HTTP Error: <status>` is handed to `console.error`. -/
theorem http_error_message_is_generic (mediaType : String) (results : List MediaItem)
    (selectedIds : List Nat) (es : List Event) (s : State) (i : Nat) (item : Item)
    (c t status : Nat)
    (h : run mediaType results selectedIds es = some s)
    (hpc : s.pc = Pc.awaitFetch i item c t)
    (hbad : ¬ (200 ≤ status ∧ status ≤ 299)) :
    signalAborted s = false ∧
    ∃ s1, step s (Event.fetchResponse status) = some s1 ∧
      (∃ it, s1.currentItems[i]? = some it ∧ it.status = Status.error ∧
        it.status.terminal = true ∧ it.errorMsg = msgFailed) ∧
      Effect.consoleError ("HTTP Error: " ++ toString status) ∈ s1.trace := by
  have hinv := inv_run h
  have hp := hinv.2
  unfold PcOK at hp
  rw [hpc] at hp
  obtain ⟨_, _, hc, hnab, hitem, _, _⟩ := hp
  have hab : signalAborted s = false := signalAborted_eq_false hc hnab
  have hab1 : signalAborted
      { s with timers := s.timers.erase t, trace := Effect.clearTimeout t :: s.trace }
        = false := by
    rw [← hab]; exact signalAborted_congr rfl rfl
  refine ⟨hab, _, step_fetchBad status hpc hnab hbad, ?_, ?_⟩
  · obtain ⟨⟨it, h1, h2, h3⟩, _⟩ := catchBlock_clear_facts
      ("HTTP Error: " ++ toString status) i
      { s with timers := s.timers.erase t, trace := Effect.clearTimeout t :: s.trace }
      item hitem hab1
    exact ⟨it, h1, h2, by rw [h2]; rfl, h3⟩
  · rw [catchBlock_clear _ _ _ hab1]
    simp [setItem]

/-- C13 amended, on two jobs: the `fetch` of job 0 answers with HTTP status 503. -/
theorem http_error_message_is_generic_witness :
    ∃ s, run "video" [sampleVideo 1 "https://x/a.mp4", sampleVideo 2 "https://x/b.mp4"] [1, 2]
        [Event.tau, Event.tau] = some s ∧
      signalAborted s = false ∧
      ∃ s1, step s (Event.fetchResponse 503) = some s1 ∧
        (∃ it, s1.currentItems[0]? = some it ∧ it.status = Status.error ∧
          it.status.terminal = true ∧ it.errorMsg = msgFailed) ∧
        Effect.consoleError ("HTTP Error: " ++ toString 503) ∈ s1.trace :=
  ⟨_, rfl, http_error_message_is_generic "video"
    [sampleVideo 1 "https://x/a.mp4", sampleVideo 2 "https://x/b.mp4"] [1, 2]
    [Event.tau, Event.tau] _ 0 _ _ _ 503 rfl rfl (by decide)⟩

/-! ## `startBatchDownload` (C14) -/

theorem queueItems_getElem? (mediaType : String) (results : List MediaItem)
    (selectedIds : List Nat) (j : Nat) :
    (queueItems mediaType results selectedIds)[j]? =
      ((selectedItems results selectedIds)[j]?).map (queueItem mediaType) := by
  unfold queueItems
  rw [List.getElem?_map]

/-- C14. Source: `startBatchDownload` called in any state `s`.  The selected
results are the results whose id is selected, in result order.  If there is
none, only `alert` is called: the queue, the controller, the point of control
and the items of the loop are as before.  Otherwise the queue is set to
`{isOpen: true, items, processing: true}` and `processQueue` is started on
`items` (a new controller, the loop at job 0 of `items`), where `items` has one
job for each selected result, in the same order, with the id of the result,
status `pending`, empty `errorMsg`, name `pexels_<mediaType>_<id>` and the link
and ext of `getDownloadInfo` (absent when it returns `null`). -/
theorem startBatchDownload_opens_queue_or_alerts (mediaType : String)
    (results : List MediaItem) (selectedIds : List Nat) (s : State) :
    (selectedItems results selectedIds).Sublist results ∧
    (∀ m, m ∈ selectedItems results selectedIds ↔ m ∈ results ∧ m.id ∈ selectedIds) ∧
    ((selectedItems results selectedIds).length = 0 →
      (startBatchDownload mediaType results selectedIds s).downloadQueue = s.downloadQueue ∧
      (startBatchDownload mediaType results selectedIds s).abortControllerRef
        = s.abortControllerRef ∧
      (startBatchDownload mediaType results selectedIds s).abortedSignals
        = s.abortedSignals ∧
      (startBatchDownload mediaType results selectedIds s).nextController
        = s.nextController ∧
      (startBatchDownload mediaType results selectedIds s).pc = s.pc ∧
      (startBatchDownload mediaType results selectedIds s).currentItems = s.currentItems ∧
      (startBatchDownload mediaType results selectedIds s).timers = s.timers ∧
      ∃ msg, (startBatchDownload mediaType results selectedIds s).trace
        = Effect.alert msg :: s.trace) ∧
    ((selectedItems results selectedIds).length ≠ 0 →
      (startBatchDownload mediaType results selectedIds s).downloadQueue
        = { isOpen := true, items := queueItems mediaType results selectedIds,
            processing := true } ∧
      (startBatchDownload mediaType results selectedIds s).currentItems
        = queueItems mediaType results selectedIds ∧
      (startBatchDownload mediaType results selectedIds s).pc = Pc.loopTop 0 ∧
      (startBatchDownload mediaType results selectedIds s).abortControllerRef
        = some s.nextController ∧
      (startBatchDownload mediaType results selectedIds s).abortedSignals
        = s.abortedSignals ∧
      (startBatchDownload mediaType results selectedIds s).trace
        = Effect.newController s.nextController
          :: Effect.setQueue { isOpen := true, items := queueItems mediaType results selectedIds,
                               processing := true }
          :: s.trace) ∧
    (queueItems mediaType results selectedIds).length
      = (selectedItems results selectedIds).length ∧
    (∀ (j : Nat) (m : MediaItem), (selectedItems results selectedIds)[j]? = some m →
      ∃ it, (queueItems mediaType results selectedIds)[j]? = some it ∧
        it.id = m.id ∧ it.status = Status.pending ∧ it.errorMsg = "" ∧
        it.name = "pexels_" ++ mediaType ++ "_" ++ toString m.id ∧
        it.link = (getDownloadInfo mediaType m).bind (fun d => d.link) ∧
        it.ext = (getDownloadInfo mediaType m).map (fun d => d.ext)) := by
  refine ⟨List.filter_sublist _, fun m => ?_, fun h0 => ?_, fun h0 => ?_, ?_, fun j m hm => ?_⟩
  · simp [selectedItems]
  · unfold startBatchDownload
    rw [if_pos h0]
    exact ⟨rfl, rfl, rfl, rfl, rfl, rfl, rfl, _, rfl⟩
  · unfold startBatchDownload
    rw [if_neg h0]
    exact ⟨rfl, rfl, rfl, rfl, rfl, rfl⟩
  · simp [queueItems]
  · rw [queueItems_getElem?, hm]
    exact ⟨_, rfl, rfl, rfl, rfl, rfl, rfl, rfl⟩

/-- C14 on three results of which the third and the second are selected: the
queue holds the second and the third, in result order; the second has no file
and so no link and no ext.  With nothing selected, nothing but `alert` happens. -/
theorem startBatchDownload_opens_queue_or_alerts_witness :
    queueItems "video"
        [sampleVideo 1 "https://x/a.mp4", sampleNoFile 2, sampleVideo 3 "https://x/c.mp4"]
        [3, 2]
      = [{ id := 2, link := none, ext := none, name := "pexels_video_2",
           status := Status.pending, errorMsg := "" },
         { id := 3, link := some "https://x/c.mp4", ext := some "mp4",
           name := "pexels_video_3", status := Status.pending, errorMsg := "" }] ∧
    (startBatchDownload "video"
        [sampleVideo 1 "https://x/a.mp4", sampleNoFile 2, sampleVideo 3 "https://x/c.mp4"]
        [3, 2] init).pc = Pc.loopTop 0 ∧
    (startBatchDownload "video"
        [sampleVideo 1 "https://x/a.mp4", sampleNoFile 2, sampleVideo 3 "https://x/c.mp4"]
        [] init).downloadQueue = init.downloadQueue :=
  ⟨rfl,
   ((startBatchDownload_opens_queue_or_alerts "video"
      [sampleVideo 1 "https://x/a.mp4", sampleNoFile 2, sampleVideo 3 "https://x/c.mp4"]
      [3, 2] init).2.2.2.1 (by decide)).2.2.1,
   ((startBatchDownload_opens_queue_or_alerts "video"
      [sampleVideo 1 "https://x/a.mp4", sampleNoFile 2, sampleVideo 3 "https://x/c.mp4"]
      [] init).2.2.1 (by decide)).1⟩

/-! ## The frame of a run (C15) -/

theorem rejectIfAborted_index (s : State) : (rejectIfAborted s).pc.index = s.pc.index := by
  unfold rejectIfAborted
  split
  · next heq => split <;> simp [heq, Pc.index]
  · next heq => split <;> simp [heq, Pc.index]
  · rfl

theorem stopDownloadBody_pc (s : State) : (stopDownloadBody s).pc = s.pc := by
  simp [stopDownloadBody]

theorem closeQueueBody_pc (s : State) : (closeQueueBody s).pc = s.pc := by
  simp [closeQueueBody, stopDownloadBody]

theorem loopHead_pc (i : Nat) (s : State) :
    (loopHead i s).pc = Pc.started i ∨ (loopHead i s).pc = Pc.done := by
  unfold loopHead
  split
  · split
    · exact Or.inr rfl
    · exact Or.inl rfl
  · exact Or.inr rfl

theorem tryFetch_pc (i : Nat) (s : State) :
    (tryFetch i s).pc = Pc.loopTop (i + 1) ∨
    ∃ item c, (tryFetch i s).pc = Pc.awaitFetch i item c s.nextTimer := by
  rcases tryFetch_cases i s with ⟨err, h⟩ | h
  · left; rw [h]; exact catchBlock_pc _ _ _
  · exact Or.inr h

/-- A step keeps the loop index, or moves it from `i` to `i + 1`, or ends the loop. -/
theorem index_step {s s1 : State} {e : Event} (hstep : step s e = some s1) :
    s1.pc.index = s.pc.index ∨
    (∃ i, s.pc.index = some i ∧ s1.pc.index = some (i + 1)) ∨
    (∃ i, s.pc.index = some i ∧ s1.pc = Pc.done) := by
  cases e with
  | tau =>
    cases hpc : s.pc with
    | loopTop i =>
      rw [step_loopTop hpc] at hstep; cases hstep
      rcases loopHead_pc i s with h | h
      · left; rw [h]; rfl
      · right; right; exact ⟨i, rfl, h⟩
    | started i =>
      rw [step_started hpc] at hstep; cases hstep
      rcases tryFetch_pc i s with h | ⟨item, c, h⟩
      · right; left; exact ⟨i, rfl, by rw [h]; rfl⟩
      · left; rw [h]; rfl
    | rejected i =>
      rw [step_rejected hpc] at hstep; cases hstep
      right; left; exact ⟨i, rfl, by rw [catchBlock_pc]; rfl⟩
    | idle => simp [step, hpc] at hstep
    | awaitFetch i item c t => simp [step, hpc] at hstep
    | awaitBlob i item c => simp [step, hpc] at hstep
    | awaitDelay i => simp [step, hpc] at hstep
    | done => simp [step, hpc] at hstep
  | fetchResponse status =>
    cases hpc : s.pc with
    | awaitFetch i item c t =>
      by_cases hnab : c ∈ s.abortedSignals
      · simp [step, hpc, hnab] at hstep
      · by_cases hok : 200 ≤ status ∧ status ≤ 299
        · rw [step_fetchOk status hpc hnab hok] at hstep; cases hstep
          left; rfl
        · rw [step_fetchBad status hpc hnab hok] at hstep; cases hstep
          right; left; exact ⟨i, rfl, by rw [catchBlock_pc]; rfl⟩
    | idle => simp [step, hpc] at hstep
    | loopTop i => simp [step, hpc] at hstep
    | started i => simp [step, hpc] at hstep
    | rejected i => simp [step, hpc] at hstep
    | awaitBlob i item c => simp [step, hpc] at hstep
    | awaitDelay i => simp [step, hpc] at hstep
    | done => simp [step, hpc] at hstep
  | fetchFailed msg =>
    cases hpc : s.pc with
    | awaitFetch i item c t =>
      by_cases hnab : c ∈ s.abortedSignals
      · simp [step, hpc, hnab] at hstep
      · rw [step_fetchFailed msg hpc hnab] at hstep; cases hstep
        right; left; exact ⟨i, rfl, by rw [catchBlock_pc]; rfl⟩
    | idle => simp [step, hpc] at hstep
    | loopTop i => simp [step, hpc] at hstep
    | started i => simp [step, hpc] at hstep
    | rejected i => simp [step, hpc] at hstep
    | awaitBlob i item c => simp [step, hpc] at hstep
    | awaitDelay i => simp [step, hpc] at hstep
    | done => simp [step, hpc] at hstep
  | blobReady =>
    cases hpc : s.pc with
    | awaitBlob i item c =>
      by_cases hnab : c ∈ s.abortedSignals
      · simp [step, hpc, hnab] at hstep
      · rw [step_blobReady hpc hnab] at hstep; cases hstep
        left; rfl
    | idle => simp [step, hpc] at hstep
    | loopTop i => simp [step, hpc] at hstep
    | started i => simp [step, hpc] at hstep
    | rejected i => simp [step, hpc] at hstep
    | awaitFetch i item c t => simp [step, hpc] at hstep
    | awaitDelay i => simp [step, hpc] at hstep
    | done => simp [step, hpc] at hstep
  | blobFailed msg =>
    cases hpc : s.pc with
    | awaitBlob i item c =>
      by_cases hnab : c ∈ s.abortedSignals
      · simp [step, hpc, hnab] at hstep
      · rw [step_blobFailed msg hpc hnab] at hstep; cases hstep
        right; left; exact ⟨i, rfl, by rw [catchBlock_pc]; rfl⟩
    | idle => simp [step, hpc] at hstep
    | loopTop i => simp [step, hpc] at hstep
    | started i => simp [step, hpc] at hstep
    | rejected i => simp [step, hpc] at hstep
    | awaitFetch i item c t => simp [step, hpc] at hstep
    | awaitDelay i => simp [step, hpc] at hstep
    | done => simp [step, hpc] at hstep
  | delayElapsed =>
    cases hpc : s.pc with
    | awaitDelay i =>
      rw [step_delayElapsed hpc] at hstep; cases hstep
      right; left; exact ⟨i, rfl, rfl⟩
    | idle => simp [step, hpc] at hstep
    | loopTop i => simp [step, hpc] at hstep
    | started i => simp [step, hpc] at hstep
    | rejected i => simp [step, hpc] at hstep
    | awaitFetch i item c t => simp [step, hpc] at hstep
    | awaitBlob i item c => simp [step, hpc] at hstep
    | done => simp [step, hpc] at hstep
  | timerFired id =>
    by_cases hg : s.pc.suspended = true ∧ id ∈ s.timers
    · rw [step_timerFired hg.1 hg.2] at hstep; cases hstep
      left; rw [rejectIfAborted_index, abortCurrent_pc]
    · simp [step] at hstep
      exact absurd ⟨hstep.1.1, hstep.1.2⟩ hg
  | stopDownload =>
    by_cases hg : s.pc.suspended = true
    · rw [step_stopDownload hg] at hstep; cases hstep
      left; rw [rejectIfAborted_index, stopDownloadBody_pc]
    · simp [step, hg] at hstep
  | closeQueue =>
    by_cases hg : s.pc.suspended = true
    · rw [step_closeQueue hg] at hstep; cases hstep
      left; rw [rejectIfAborted_index, closeQueueBody_pc]
    · simp [step, hg] at hstep

/-- The loop index never goes back and is never set again after the loop. -/
theorem index_exec :
    ∀ (es : List Event) (s s1 : State), exec s es = some s1 →
      ∀ i1, s1.pc.index = some i1 → ∃ i, s.pc.index = some i ∧ i ≤ i1 := by
  intro es
  induction es with
  | nil => intro s s1 he i1 h1; cases he; exact ⟨i1, h1, Nat.le_refl _⟩
  | cons e es ih =>
    intro s s1 he i1 h1
    unfold exec at he
    cases hst : step s e with
    | none => rw [hst] at he; cases he
    | some s2 =>
      rw [hst] at he
      obtain ⟨i2, h2, hle⟩ := ih s2 s1 he i1 h1
      rcases index_step hst with h | ⟨i, hi, h⟩ | ⟨i, hi, h⟩
      · exact ⟨i2, by rw [← h]; exact h2, hle⟩
      · rw [h] at h2; cases h2
        exact ⟨i, hi, by omega⟩
      · rw [h] at h2; cases h2

theorem seed_fields {a b : Item} (h : seed a = seed b) :
    a.id = b.id ∧ a.link = b.link ∧ a.ext = b.ext ∧ a.name = b.name := by
  simpa [seed] using h

/-- C15. In every run started by `startBatchDownload` on the initial items
`queueItems`, at every point `s`: (1) the items list has the length of the
initial list; (2) at each position the job has the id, link, ext and name of
the initial job; (3) a step keeps the length, keeps id, link, ext and name of
every job, and changes no job but the one at the current loop index; (4) the
jobs before the loop index are over and the jobs after it are `pending`;
(5) a step keeps the loop index, moves it on by one, or ends the loop; (6) at
every later point of the run the loop index is not smaller. -/
theorem run_changes_only_the_current_job (mediaType : String) (results : List MediaItem)
    (selectedIds : List Nat) (es : List Event) (s : State)
    (h : run mediaType results selectedIds es = some s) :
    s.currentItems.length = (queueItems mediaType results selectedIds).length ∧
    (∀ (j : Nat) (a0 : Item), (queueItems mediaType results selectedIds)[j]? = some a0 →
      ∃ a, s.currentItems[j]? = some a ∧
        a.id = a0.id ∧ a.link = a0.link ∧ a.ext = a0.ext ∧ a.name = a0.name) ∧
    (∀ (e : Event) (s1 : State), step s e = some s1 →
      s1.currentItems.length = s.currentItems.length ∧
      ∀ (j : Nat) (a b : Item), s.currentItems[j]? = some a → s1.currentItems[j]? = some b →
        b.id = a.id ∧ b.link = a.link ∧ b.ext = a.ext ∧ b.name = a.name ∧
        (b ≠ a → s.pc.index = some j)) ∧
    (∀ (i : Nat), s.pc.index = some i → ∀ (j : Nat) (it : Item),
      s.currentItems[j]? = some it →
        (j < i → it.status.terminal = true) ∧ (i < j → it.status = Status.pending)) ∧
    (∀ (e : Event) (s1 : State), step s e = some s1 →
      s1.pc.index = s.pc.index ∨
      (∃ i, s.pc.index = some i ∧ s1.pc.index = some (i + 1)) ∨
      (∃ i, s.pc.index = some i ∧ s1.pc = Pc.done)) ∧
    (∀ (es2 : List Event) (s2 : State) (i2 : Nat), exec s es2 = some s2 →
      s2.pc.index = some i2 → ∃ i, s.pc.index = some i ∧ i ≤ i2) := by
  have hinv := inv_run h
  refine ⟨?_, fun j a0 ha0 => ?_, fun e s1 hstep => ?_, fun i hi j it hj => ?_,
    fun e s1 hstep => index_step hstep, fun es2 s2 i2 he h2 => index_exec es2 s s2 he i2 h2⟩
  · have := congrArg List.length hinv.1.seeds
    simpa using this
  · obtain ⟨a, ha, hs⟩ := seeds_getElem? hinv.1.seeds ha0
    exact ⟨a, ha, seed_fields hs⟩
  · rcases step_change hinv hstep with hsame | ⟨i, f, hi, hitems, hf, _⟩
    · refine ⟨by rw [hsame], fun j a b ha hb => ?_⟩
      rw [hsame, ha] at hb
      cases hb
      exact ⟨rfl, rfl, rfl, rfl, fun hne => absurd rfl hne⟩
    · refine ⟨by rw [hitems, mapAt_length], fun j a b ha hb => ?_⟩
      rw [hitems, mapAt_getElem?, ha] at hb
      by_cases hji : 0 + j = i
      · have hb2 : b = f a := by simpa [hji] using hb.symm
        obtain ⟨h1, h2, h3, h4⟩ := seed_fields (hf a)
        rw [hb2]
        exact ⟨h1, h2, h3, h4, fun _ => by rw [hi, ← hji, Nat.zero_add]⟩
      · have hji2 : ¬ j = i := fun hh => hji (by omega)
        have hb2 : b = a := by simpa [hji2] using hb.symm
        rw [hb2]
        exact ⟨rfl, rfl, rfl, rfl, fun hne => absurd rfl hne⟩
  · obtain ⟨st, hsh⟩ := pcOK_shape_index hinv.2 hi
    exact ⟨(hsh j it hj).1, (hsh j it hj).2.2⟩

/-- C15 on two jobs, after the first has failed and the second is being
fetched: both jobs still carry the fields of the initial list. -/
theorem run_changes_only_the_current_job_witness :
    ∃ s, run "video" [sampleVideo 1 "https://x/a.mp4", sampleVideo 2 "https://x/b.mp4"] [1, 2]
        [Event.tau, Event.tau, Event.fetchFailed "TypeError", Event.tau, Event.tau] = some s ∧
      s.pc.index = some 1 ∧
      s.currentItems.length
        = (queueItems "video"
            [sampleVideo 1 "https://x/a.mp4", sampleVideo 2 "https://x/b.mp4"] [1, 2]).length :=
  ⟨_, rfl, rfl,
    (run_changes_only_the_current_job "video"
      [sampleVideo 1 "https://x/a.mp4", sampleVideo 2 "https://x/b.mp4"] [1, 2]
      [Event.tau, Event.tau, Event.fetchFailed "TypeError", Event.tau, Event.tau] _ rfl).1⟩

/-! ## The file chosen by `getDownloadInfo` (C16) -/

/-- The head of the files sorted by decreasing width is the first file of
greatest width. -/
theorem sortByWidthDesc_head :
    ∀ (files : List VideoFile), files ≠ [] →
      ∃ best rest pre post, sortByWidthDesc files = best :: rest ∧
        files = pre ++ best :: post ∧ (∀ f ∈ pre, f.width < best.width) ∧
        (∀ f ∈ post, f.width ≤ best.width) := by
  intro files
  induction files with
  | nil => intro h; exact absurd rfl h
  | cons a l ih =>
    intro _
    cases l with
    | nil =>
      exact ⟨a, [], [], [], rfl, rfl, (fun f hf => by cases hf), (fun f hf => by cases hf)⟩
    | cons x xs =>
      obtain ⟨b, rest, pre, post, hsort, hsplit, hpre, hpost⟩ := ih (List.cons_ne_nil x xs)
      have hs : sortByWidthDesc (a :: x :: xs)
          = List.orderedInsert (fun a b => b.width ≤ a.width) a (b :: rest) := by
        unfold sortByWidthDesc at hsort ⊢
        rw [List.insertionSort, hsort]
      by_cases hab : b.width ≤ a.width
      · refine ⟨a, b :: rest, [], x :: xs, ?_, rfl, (fun f hf => by cases hf), fun f hf => ?_⟩
        · rw [hs, List.orderedInsert, if_pos hab]
        · rw [hsplit] at hf
          rcases List.mem_append.1 hf with h1 | h1
          · exact Int.le_trans (Int.le_of_lt (hpre f h1)) hab
          · rcases List.mem_cons.1 h1 with h2 | h2
            · rw [h2]; exact hab
            · exact Int.le_trans (hpost f h2) hab
      · refine ⟨b, List.orderedInsert (fun a b => b.width ≤ a.width) a rest, a :: pre, post,
          ?_, ?_, fun f hf => ?_, hpost⟩
        · rw [hs, List.orderedInsert, if_neg hab]
        · rw [hsplit]; rfl
        · rcases List.mem_cons.1 hf with h1 | h1
          · rw [h1]; exact Int.lt_of_not_ge hab
          · exact hpre f h1

/-- C16. Source: `getDownloadInfo` for videos.  For an item whose `video_files`
is a non-empty list, the result is built from a file `best` of that list such
that every file before it is strictly narrower and every file after it is at
most as wide (so `best` is the first file of greatest width): the link, width
and height of `best`, the label `getResolutionLabel(best.width)` and the ext
`mp4`.  For an item whose `video_files` is missing or empty the result is
`null`. -/
theorem getDownloadInfo_video_takes_first_widest_file (item : MediaItem) :
    (∀ files, item.video_files = some files → files ≠ [] →
      ∃ pre best post, files = pre ++ best :: post ∧
        (∀ f ∈ pre, f.width < best.width) ∧ (∀ f ∈ post, f.width ≤ best.width) ∧
        getDownloadInfo "video" item =
          some { link := best.link, width := best.width, height := best.height,
                 label := getResolutionLabel best.width, ext := "mp4" }) ∧
    (item.video_files = none ∨ item.video_files = some [] →
      getDownloadInfo "video" item = none) := by
  refine ⟨fun files hfiles hne => ?_, fun h => ?_⟩
  · obtain ⟨best, rest, pre, post, hsort, hsplit, hpre, hpost⟩ := sortByWidthDesc_head files hne
    refine ⟨pre, best, post, hsplit, hpre, hpost, ?_⟩
    unfold getDownloadInfo
    rw [if_pos rfl, hfiles]
    simp only [hsort]
  · unfold getDownloadInfo
    rw [if_pos rfl]
    rcases h with h | h
    · rw [h]
    · rw [h]; rfl

/-- C16 on four files of widths 1280, 1920, 640, 1920: the second file is taken,
the first of the two widest; without files the result is `null`. -/
theorem getDownloadInfo_video_takes_first_widest_file_witness :
    getDownloadInfo "video" sampleFourFiles
      = some { link := some "b", width := 1920, height := 1080, label := "Full HD",
               ext := "mp4" } ∧
    (∃ pre best post, fourFiles = pre ++ best :: post ∧
      (∀ f ∈ pre, f.width < best.width) ∧ (∀ f ∈ post, f.width ≤ best.width) ∧
      getDownloadInfo "video" sampleFourFiles =
        some { link := best.link, width := best.width, height := best.height,
               label := getResolutionLabel best.width, ext := "mp4" }) ∧
    getDownloadInfo "video" (sampleNoFile 7) = none :=
  ⟨rfl,
   (getDownloadInfo_video_takes_first_widest_file sampleFourFiles).1 fourFiles rfl
     (by decide),
   (getDownloadInfo_video_takes_first_widest_file (sampleNoFile 7)).2 (Or.inr rfl)⟩

end App
